import Mathlib

/-!
# xhprof.c: the profiling engine, embedded in Lean

A shallow embedding of the call-stack tracker, the function filter, the key
rendering and the statistics aggregator of `extension/xhprof.c`.

Conventions of the embedding.

* A C string is the list of its bytes before the terminating NUL (`CStr`);
  `strcmp(a, b) == 0` is equality of the two lists.
* `uint8` and `uint64` values are naturals, reduced `% 256` and `% 2^64`
  where the C arithmetic wraps.  `long` and `int` values are integers; signed
  overflow is undefined in C and is not modelled.
* The linked list of `hp_entry_t` records (`prev_hprof`) is a Lean list whose
  head is the top of the stack.
* A `char` buffer is a list of bytes; an offset into it is a pointer.
* What the engine reads from its surroundings (the cycle counter, `getrusage`,
  the memory manager, `malloc`) is handed in as an `hp_env` record.
* A function that can crash (a null pointer is dereferenced) or loop for ever
  returns `none` there.
-/

namespace Xhprof

/-! ## Strings and constants -/

/-- A C string: its bytes before the terminating NUL. -/
abbrev CStr := List Nat

/-- The bytes of a string literal. -/
def cstr (s : String) : CStr := s.toList.map Char.toNat

/-- A well-formed C string holds no NUL byte and only byte values. -/
def CStr.wf (s : CStr) : Prop := ∀ b ∈ s, b ≠ 0 ∧ b < 256

instance (s : CStr) : Decidable (CStr.wf s) := by
  unfold CStr.wf; infer_instance

/-- The fictitious function name at the top of the call tree: `"main()"`. -/
def ROOT_SYMBOL : CStr := [109, 97, 105, 110, 40, 41]

/-- Size of a temp scratch buffer. -/
def SCRATCH_BUF_LEN : Nat := 512

def XHPROF_MODE_HIERARCHICAL : Int := 1
def XHPROF_MODE_SAMPLED : Int := 620002

def XHPROF_FLAGS_NO_BUILTINS : Nat := 0x0001
def XHPROF_FLAGS_CPU : Nat := 0x0002
def XHPROF_FLAGS_MEMORY : Nat := 0x0004

/-- Sampling interval, in microseconds. -/
def XHPROF_SAMPLING_INTERVAL : Nat := 100000

def XHPROF_MAX_FILTERED_FUNCTIONS : Nat := 256
def XHPROF_FILTERED_FUNCTION_SIZE : Nat := (XHPROF_MAX_FILTERED_FUNCTIONS + 7) / 8

/-- The delimiter `"==>"` of `hp_get_function_stack`. -/
def HP_STACK_DELIM : CStr := [61, 61, 62]
def HP_STACK_DELIM_LEN : Nat := 3

/-- The constant `INT_MAX`, the level `hp_sample_stack` asks for. -/
def INT_MAX : Nat := 2147483647

/-! ## The 8-bit hash of a function name -/

/-- The conversion `(ulong) *str`: `char` is signed on the x86 targets the
file's `rdtsc` timer is written for, so a byte above 127 is sign-extended to
64 bits. -/
def char_to_ulong (c : Nat) : Nat :=
  if c < 128 then c else c + (2 ^ 64 - 256)

/-- The `while (*str)` loop of `hp_inline_hash` on a 64-bit `ulong`. -/
def hp_inline_hash_loop : CStr → Nat → Nat
  | [], h => h
  | c :: str, h =>
    let h1 := (h + (h <<< 5)) % 2 ^ 64
    hp_inline_hash_loop str (h1 ^^^ char_to_ulong c)

/-- The `for` loop of `hp_inline_hash`: the sum of the `i` lowest bytes of `h`
in a `uint8`. -/
def hp_inline_hash_sum (h : Nat) : Nat → Nat
  | 0 => 0
  | i + 1 => (hp_inline_hash_sum h i + (h >>> (8 * i)) % 256) % 256

/-- The 8-bit hash code of a function name (`sizeof(ulong)` is 8). -/
def hp_inline_hash (str : CStr) : Nat :=
  hp_inline_hash_sum (hp_inline_hash_loop str 5381) 8

/-! ## Frames and the global state -/

structure timeval where
  tv_sec : Int
  tv_usec : Int
  deriving DecidableEq, Repr

structure rusage where
  ru_utime : timeval
  ru_stime : timeval
  deriving DecidableEq, Repr

/-- One entry of the profile stack.  The `prev_hprof` link is the position in
the list that holds the entry. -/
structure hp_entry_t where
  name_hprof : CStr
  rlvl_hprof : Nat
  tsc_start : Nat
  mu_start_hprof : Int
  pmu_start_hprof : Int
  ru_start_hprof : rusage
  hash_code : Nat
  deriving DecidableEq, Repr

inductive hp_init_cb where
  | hp_mode_dummy_init_cb
  | hp_mode_sampled_init_cb
  deriving DecidableEq, Repr

inductive hp_exit_cb where
  | hp_mode_dummy_exit_cb
  deriving DecidableEq, Repr

inductive hp_begin_function_cb where
  | hp_mode_dummy_beginfn_cb
  | hp_mode_hier_beginfn_cb
  | hp_mode_sampled_beginfn_cb
  deriving DecidableEq, Repr

inductive hp_end_function_cb where
  | hp_mode_dummy_endfn_cb
  | hp_mode_hier_endfn_cb
  | hp_mode_sampled_endfn_cb
  deriving DecidableEq, Repr

/-- The callbacks of one xhprof mode: each function pointer is the name of the
function it points to. -/
structure hp_mode_cb where
  init_cb : hp_init_cb
  exit_cb : hp_exit_cb
  begin_fn_cb : hp_begin_function_cb
  end_fn_cb : hp_end_function_cb
  deriving DecidableEq, Repr

/-- A value of the stats array: the counts array of a symbol (hierarchical
mode) or the stack string of a sample (sampled mode). -/
inductive hp_stat where
  | counts (c : List (CStr × Int))
  | sample (s : CStr)
  deriving DecidableEq, Repr

/-- A PHP array with string keys, in insertion order. -/
abbrev hp_array := List (CStr × hp_stat)

/-- The global state `hp_globals`.  Pointer fields are options (`none` is
`NULL`); the two arrays are functions of the index. -/
@[ext]
structure hp_global_t where
  enabled : Int
  ever_enabled : Int
  layers_count : Option hp_array
  layers_definition : Option (List (CStr × CStr))
  stats_count : Option hp_array
  profiler_level : Int
  entries : List hp_entry_t
  entry_free_list : List hp_entry_t
  mode_cb : hp_mode_cb
  last_sample_time : timeval
  last_sample_tsc : Nat
  sampling_interval_tsc : Nat
  cpu_frequencies : Option (List Nat)
  cpu_num : Nat
  cur_cpu_id : Nat
  xhprof_flags : Nat
  func_hash_counters : Nat → Nat
  filtered_type : Int
  filtered_function_names : Option (List CStr)
  filtered_function_filter : Nat → Nat
  argument_function_names : Option (List CStr)
  argument_function_filter : Nat → Nat

/-- What the surroundings return during one begin or end event. -/
structure hp_env where
  /-- The value of `cycle_timer()`. -/
  tsc : Nat
  /-- The wall time `get_us_from_tsc(tsc_end - tsc_start, frequency)` as the
  `long` handed to `hp_inc_count`; the `double` division is not modelled. -/
  wt : Int
  /-- The result of `getrusage(RUSAGE_SELF, ..)`. -/
  ru : rusage
  /-- The result of `zend_memory_usage(0)`. -/
  mu : Int
  /-- The result of `zend_memory_peak_usage(0)`. -/
  pmu : Int
  /-- The contents of the memory `malloc` returns. -/
  fresh : hp_entry_t
  /-- Whether `SET_AFFINITY` succeeds. -/
  affinity_ok : Bool

/-- Store `v` at index `i` of an array. -/
def array_set (a : Nat → Nat) (i v : Nat) : Nat → Nat :=
  fun j => if j = i then v else a j

/-! ## The function filter -/

def INDEX_2_BYTE (index : Nat) : Nat := index >>> 3
def INDEX_2_BIT (index : Nat) : Nat := 1 <<< (index &&& 0x7)

/-- The loop of `hp_filtered_functions_filter_init` over the name array. -/
def hp_filtered_functions_filter_init_loop : List CStr → (Nat → Nat) → (Nat → Nat)
  | [], filter => filter
  | str :: names, filter =>
    let hash := hp_inline_hash str
    let idx := INDEX_2_BYTE hash
    hp_filtered_functions_filter_init_loop names
      (array_set filter idx ((filter idx ||| INDEX_2_BIT hash) % 256))

/-- Initialize filter for ignored functions using bit vector. -/
def hp_filtered_functions_filter_init (g : hp_global_t) : hp_global_t :=
  match g.filtered_function_names with
  | none => g
  | some names =>
    { g with filtered_function_filter :=
        hp_filtered_functions_filter_init_loop names g.filtered_function_filter }

/-- Clear filter for functions which may be ignored during profiling. -/
def hp_filtered_functions_filter_clear (g : hp_global_t) : hp_global_t :=
  { g with filtered_type := 0, filtered_function_filter := fun _ => 0 }

/-- Check if function collides in filter of functions to be ignored. -/
def hp_filtered_functions_filter_collision (g : hp_global_t) (hash : Nat) : Nat :=
  let mask := INDEX_2_BIT hash % 256
  g.filtered_function_filter (INDEX_2_BYTE hash) &&& mask

/-- The exact scan of `hp_filter_entry_work`: the loop over the name array,
which leaves at the first name equal to `curr_func`. -/
def hp_filter_entry_scan : List CStr → CStr → Int → Int
  | [], _, filter => filter
  | name :: names, curr_func, filter =>
    if curr_func = name then filter + 1
    else hp_filter_entry_scan names curr_func filter

/-- Lines 976-986 of `hp_filter_entry_work`: the value of `filter` after the
bitmap test and the scan it guards.  `names` is the array
`hp_globals.filtered_function_names`, which the only caller has checked to be
non-null. -/
def hp_filter_entry_match (g : hp_global_t) (names : List CStr) (hash_code : Nat)
    (curr_func : CStr) : Int :=
  if hp_filtered_functions_filter_collision g hash_code ≠ 0 then
    hp_filter_entry_scan names curr_func 0
  else 0

/-- Check if this entry should be filtered (positive or negative). -/
def hp_filter_entry_work (g : hp_global_t) (names : List CStr) (hash_code : Nat)
    (curr_func : CStr) : Int :=
  let filter := hp_filter_entry_match g names hash_code curr_func
  if g.filtered_type = 2 then
    if curr_func = ROOT_SYMBOL then 0
    else ((filter - 1).natAbs : Int)
  else filter

/-- First check if ignoring functions is enabled, then `hp_filter_entry_work`. -/
def hp_filter_entry (g : hp_global_t) (hash_code : Nat) (curr_func : CStr) : Bool :=
  match g.filtered_function_names with
  | none => false
  | some names => decide (hp_filter_entry_work g names hash_code curr_func ≠ 0)

/-! ## Character buffers -/

/-- Store the bytes `bs` from offset `off` on; bytes that would fall behind the
modelled memory are dropped. -/
def mem_write (mem : List Nat) (off : Nat) (bs : List Nat) : List Nat :=
  (mem.take off ++ bs ++ mem.drop (off + bs.length)).take mem.length

/-- The C string that starts at offset `off`. -/
def cstr_at (mem : List Nat) (off : Nat) : CStr :=
  (mem.drop off).takeWhile (fun b => decide (b ≠ 0))

/-- The libc `strlen` of the string at offset `off`. -/
def strlen (mem : List Nat) (off : Nat) : Nat := (cstr_at mem off).length

/-- The libc `snprintf(buf + off, size, ..)` for the formatted text `s`: at
most `size - 1` bytes of it and a terminator; nothing when `size` is 0. -/
def snprintf (mem : List Nat) (off size : Nat) (s : CStr) : List Nat :=
  if size = 0 then mem else mem_write mem off (s.take (size - 1) ++ [0])

/-- The libc `strncat(buf + off, src, n)`: at most `n` bytes of `src` and a
terminator, appended to the string at `off`. -/
def strncat (mem : List Nat) (off : Nat) (src : CStr) (n : Nat) : List Nat :=
  mem_write mem (off + strlen mem off) (src.take n ++ [0])

/-- The digits of `n`, most significant first, the last one in `acc`. -/
def fmt_d_loop : Nat → Nat → List Nat → List Nat
  | 0, _, acc => acc
  | fuel + 1, n, acc =>
    let acc1 := (48 + n % 10) :: acc
    if n / 10 = 0 then acc1 else fmt_d_loop fuel (n / 10) acc1

/-- The text of `%d` for a number that is not negative. -/
def fmt_d (n : Nat) : CStr := fmt_d_loop (n + 1) n []

/-- The text `"%s@%d"` or `"%s"` that `hp_get_entry_name` prints for an entry. -/
def hp_entry_text (entry : hp_entry_t) : CStr :=
  if entry.rlvl_hprof ≠ 0 then entry.name_hprof ++ [64] ++ fmt_d entry.rlvl_hprof
  else entry.name_hprof

/-- Returns formatted function name: the buffer after the call and the size of
the name in it.  `off` is the position of `result_buf` in `mem`. -/
def hp_get_entry_name (entry : hp_entry_t) (mem : List Nat) (off result_len : Nat) :
    Nat × List Nat :=
  if result_len ≤ 1 then (0, mem)
  else
    let m1 := snprintf mem off result_len (hp_entry_text entry)
    let m2 := mem_write m1 (off + (result_len - 1)) [0]
    (strlen m2 off, m2)

/-- Build a caller qualified name for a callee: `entry` is the frame asked
for and `prev` the chain behind its `prev_hprof`; `result_buf` is offset 0 of
`mem`.  Returns the length and the buffer. -/
def hp_get_function_stack (entry : hp_entry_t) :
    List hp_entry_t → Nat → List Nat → Nat → Nat × List Nat
  | [], _, mem, result_len => hp_get_entry_name entry mem 0 result_len
  | p :: ps, level, mem, result_len =>
    if level ≤ 1 then hp_get_entry_name entry mem 0 result_len
    else
      let r := hp_get_function_stack p ps (level - 1) mem result_len
      let len := r.1
      if result_len < len + HP_STACK_DELIM_LEN then (len, r.2)
      else
        let m1 := if len ≠ 0 then strncat r.2 len HP_STACK_DELIM (result_len - len) else r.2
        let len1 := if len ≠ 0 then len + HP_STACK_DELIM_LEN else len
        let r2 := hp_get_entry_name entry m1 len1 (result_len - len1)
        (len1 + r2.1, r2.2)

/-- A local `char buf[n]` before it is written, with the one byte that follows
it in memory. -/
def scratch (n : Nat) : List Nat := List.replicate (n + 1) 0

/-- The string a caller reads from a local buffer of `n` bytes after
`hp_get_function_stack(entry, level, buf, n)`. -/
def hp_function_stack_string (stack : List hp_entry_t) (level n : Nat) : Option CStr :=
  match stack with
  | [] => none
  | entry :: prev => some (cstr_at (hp_get_function_stack entry prev level (scratch n) n).2 0)

/-! ## The stats arrays -/

/-- Lookup of a key: `zend_hash_find`. -/
def zend_hash_find {α : Type} : List (CStr × α) → CStr → Option α
  | [], _ => none
  | (k, v) :: rest, key => if k = key then some v else zend_hash_find rest key

/-- Store a value under a key, replacing the value the key has or adding the
key at the end: `zend_hash_update`, behind `add_assoc_long`, `add_assoc_zval`
and `add_assoc_string`. -/
def zend_hash_update {α : Type} : List (CStr × α) → CStr → α → List (CStr × α)
  | [], key, v => [(key, v)]
  | (k, w) :: rest, key, v =>
    if k = key then (k, v) :: rest else (k, w) :: zend_hash_update rest key v

/-- The field names of a counts array. -/
def NAME_ct : CStr := [99, 116]
def NAME_wt : CStr := [119, 116]
def NAME_cpu : CStr := [99, 112, 117]
def NAME_mu : CStr := [109, 117]
def NAME_pmu : CStr := [112, 109, 117]

/-- Increment the count of the given stat with the given count; if the stat
was not set before, inits the stat to the given count.  A value that is not an
array has no hash table and is left alone. -/
def hp_inc_count (counts : hp_stat) (name : CStr) (count : Int) : hp_stat :=
  match counts with
  | .sample s => .sample s
  | .counts ht =>
    match zend_hash_find ht name with
    | some v => .counts (zend_hash_update ht name (v + count))
    | none => .counts (zend_hash_update ht name count)

/-- Looks up the hash table for the given symbol and initializes a new array
if the symbol is not present.  Returns the table and the value found or added;
`none` is the null pointer returned for a null table.  This is the function
for a symbol that is not a decimal integer, which `add_assoc_zval` stores
under the string key that `zend_hash_find` looks up: the symbols of the stats
array are renderings of function names and never decimal integers.  For a
symbol of any form see `hp_hash_lookup_label`. -/
def hp_hash_lookup (hash : Option hp_array) (symbol : CStr) : Option (hp_array × hp_stat) :=
  match hash with
  | none => none
  | some ht =>
    match zend_hash_find ht symbol with
    | some counts => some (ht, counts)
    | none => some (zend_hash_update ht symbol (.counts []), .counts [])

def LONG_MAX : Nat := 2 ^ 63 - 1
def MAX_LENGTH_OF_LONG : Nat := 20

/-- The test of the macro `ZEND_HANDLE_NUMERIC` of the Zend engine (64-bit
`long`), through which `add_assoc_zval` (`zend_symtable_update`) stores: it
tells whether the key is the decimal text of a `long`, that is an optional
`'-'`, then at most 19 digits with no leading `'0'` but for `"0"` itself, of a
value in the range of `long`.  Such a key is stored under the integer, not
under the string.  This is the macro as of PHP 5.3; the one of the releases
before differs at the two ends of the range only. -/
def zend_handle_numeric (key : CStr) : Bool :=
  let tmp := if key.head? = some 45 then key.tail else key
  match tmp with
  | [] => false
  | c :: _ =>
    if 48 ≤ c ∧ c ≤ 57 then
      if (c = 48 ∧ key.length + 1 > 2) ∨ tmp.length > MAX_LENGTH_OF_LONG - 1 then false
      else if tmp.all (fun b => decide (48 ≤ b ∧ b ≤ 57)) then
        let idx := tmp.foldl (fun idx b => idx * 10 + (b - 48)) 0
        if key.head? = some 45 then decide (idx - 1 ≤ LONG_MAX) else decide (idx ≤ LONG_MAX)
      else false
    else false

/-- The function `hp_hash_lookup` for a symbol of any form, as the layer labels
are, which the user chooses.  A symbol that is a decimal integer is stored by
`add_assoc_zval` under its integer key, where the `zend_hash_find` of a string
key does not find it: every call takes the branch of the symbol that is not
present, and its new empty array replaces the array stored under the integer
by the call before.  The list keeps an integer key as its decimal text.  For
any other symbol this is `hp_hash_lookup`. -/
def hp_hash_lookup_label (hash : Option hp_array) (symbol : CStr) :
    Option (hp_array × hp_stat) :=
  if zend_handle_numeric symbol then
    match hash with
    | none => none
    | some ht => some (zend_hash_update ht symbol (.counts []), .counts [])
  else hp_hash_lookup hash symbol

/-- The call `hp_inc_count(counts, name, count)` where `counts` points to the
value stored under `symbol` in `ht`. -/
def hp_inc_count_at (ht : hp_array) (symbol name : CStr) (count : Int) : hp_array :=
  match zend_hash_find ht symbol with
  | some counts => zend_hash_update ht symbol (hp_inc_count counts name count)
  | none => ht

/-! ## Time arithmetic and sampling -/

/-- Get time delta in microseconds. -/
def get_us_interval (start end_ : timeval) : Int :=
  (end_.tv_sec - start.tv_sec) * 1000000 + (end_.tv_usec - start.tv_usec)

/-- Incr time with the given microseconds; `incr` is a `uint64`. -/
def incr_us_interval (start : timeval) (incr : Nat) : timeval :=
  let incr1 := ((incr : Int) + (start.tv_sec * 1000000 + start.tv_usec)) % 2 ^ 64
  { tv_sec := incr1 / 1000000, tv_usec := incr1 % 1000000 }

/-- The value an `int` conversion of `printf` reads from a `long` argument:
its low 32 bits, signed. -/
def long_to_int (x : Int) : Int := (x + 2 ^ 31) % 2 ^ 32 - 2 ^ 31

/-- The text of `%d` for an `int`. -/
def fmt_int (x : Int) : CStr :=
  if x < 0 then 45 :: fmt_d x.natAbs else fmt_d x.natAbs

/-- The text of `%06d` for an `int`: zeros after the sign up to six columns. -/
def fmt_06d (x : Int) : CStr :=
  let digits := fmt_d x.natAbs
  if x < 0 then 45 :: (List.replicate (5 - digits.length) 48 ++ digits)
  else List.replicate (6 - digits.length) 48 ++ digits

/-- Sample the stack and add it to the stats array, under the key
`"%d.%06d"` of the last sample time.  A null stats array or an empty stack is
dereferenced. -/
def hp_sample_stack (g : hp_global_t) : Option hp_global_t :=
  let key := cstr_at (snprintf (scratch SCRATCH_BUF_LEN) 0 SCRATCH_BUF_LEN
    (fmt_int (long_to_int g.last_sample_time.tv_sec) ++ [46] ++
      fmt_06d (long_to_int g.last_sample_time.tv_usec))) 0
  match hp_function_stack_string g.entries INT_MAX (SCRATCH_BUF_LEN * 1000), g.stats_count with
  | some symbol, some ht =>
    some { g with stats_count := some (zend_hash_update ht key (.sample symbol)) }
  | _, _ => none

/-- The `while` loop of `hp_sample_check`, run at most `fuel` times, with the
cycle counter at `now`. -/
def hp_sample_check_loop : Nat → hp_global_t → Nat → Option hp_global_t
  | 0, _, _ => none
  | fuel + 1, g, now =>
    if (now + 2 ^ 64 - g.last_sample_tsc) % 2 ^ 64 > g.sampling_interval_tsc then
      let g1 := { g with
        last_sample_tsc := (g.last_sample_tsc + g.sampling_interval_tsc) % 2 ^ 64 }
      let g2 := { g1 with
        last_sample_time := incr_us_interval g1.last_sample_time XHPROF_SAMPLING_INTERVAL }
      match hp_sample_stack g2 with
      | none => none
      | some g3 => hp_sample_check_loop fuel g3 now
    else some g

/-- Checks to see if it is time to sample the stack.  The cycle counter stays
at `env.tsc` during the call; the loop cannot end after more than `2 ^ 64`
rounds, so `none` is a loop that runs for ever (or a crash inside it). -/
def hp_sample_check (g : hp_global_t) (env : hp_env) : Option hp_global_t :=
  match g.entries with
  | [] => some g
  | _ :: _ => hp_sample_check_loop (2 ^ 64) g env.tsc

/-! ## The common and the mode callbacks -/

/-- The `for` loop of `hp_mode_common_beginfn`: the recursion level found by
walking the stack from its top. -/
def hp_recurse_level : List hp_entry_t → CStr → Nat
  | [], _ => 0
  | p :: ps, name =>
    if name = p.name_hprof then p.rlvl_hprof + 1 else hp_recurse_level ps name

/-- XHPROF universal begin function: the state with the counter bumped and
`current` with its recursion level. -/
def hp_mode_common_beginfn (g : hp_global_t) (current : hp_entry_t) :
    hp_global_t × hp_entry_t :=
  let recurse_level :=
    if g.func_hash_counters current.hash_code > 0 then
      hp_recurse_level g.entries current.name_hprof
    else 0
  let counter := (g.func_hash_counters current.hash_code + 1) % 256
  ({ g with func_hash_counters := array_set g.func_hash_counters current.hash_code counter },
   { current with rlvl_hprof := recurse_level })

/-- XHPROF universal end function. -/
def hp_mode_common_endfn (g : hp_global_t) (current : hp_entry_t) : hp_global_t :=
  let counter := (g.func_hash_counters current.hash_code + 255) % 256
  { g with func_hash_counters := array_set g.func_hash_counters current.hash_code counter }

/-- XHPROF_MODE_HIERARCHICAL's begin function callback. -/
def hp_mode_hier_beginfn_cb (g : hp_global_t) (current : hp_entry_t) (env : hp_env) :
    hp_entry_t :=
  let c1 := { current with tsc_start := env.tsc }
  let c2 := if g.xhprof_flags &&& XHPROF_FLAGS_CPU ≠ 0 then
      { c1 with ru_start_hprof := env.ru } else c1
  if g.xhprof_flags &&& XHPROF_FLAGS_MEMORY ≠ 0 then
    { c2 with mu_start_hprof := env.mu, pmu_start_hprof := env.pmu }
  else c2

/-- The layer part of `hp_mode_shared_endfn_cb` (the block under
`if (hp_globals.layers_definition)`).  The layer table of the state holds
string labels only, read as C strings by `Z_STRVAL_P`; a table with a label
of another type is not a state (see `layers_copy`). -/
def hp_mode_shared_endfn_layers (g : hp_global_t) (wt : Int) : hp_global_t :=
  match g.layers_definition with
  | none => g
  | some def_ =>
    match hp_function_stack_string g.entries 1 SCRATCH_BUF_LEN with
    | none => g
    | some function_name =>
      match zend_hash_find def_ function_name with
      | none => g
      | some layer =>
        match hp_hash_lookup_label g.layers_count layer with
        | none => g
        | some (ht, _) =>
          let ht1 := hp_inc_count_at (hp_inc_count_at ht layer NAME_ct 1) layer NAME_wt wt
          { g with layers_count := some ht1 }

/-- XHPROF shared end function callback, for the top of the stack.  The outer
option is `none` when the null frequency array is read; the flag tells whether
the counts pointer returned is non-null. -/
def hp_mode_shared_endfn_cb (g : hp_global_t) (symbol : CStr) (env : hp_env) :
    Option (hp_global_t × Bool) :=
  match hp_hash_lookup g.stats_count symbol with
  | none => some (g, false)
  | some (ht, _) =>
    match g.cpu_frequencies with
    | none => none
    | some _ =>
      let wt := env.wt
      let ht1 := hp_inc_count_at (hp_inc_count_at ht symbol NAME_ct 1) symbol NAME_wt wt
      some (hp_mode_shared_endfn_layers { g with stats_count := some ht1 } wt, true)

/-- The call `hp_inc_count(counts, name, count)` on the counts array of
`symbol` in the stats array. -/
def hp_stats_inc (g : hp_global_t) (symbol name : CStr) (count : Int) : hp_global_t :=
  match g.stats_count with
  | none => g
  | some ht => { g with stats_count := some (hp_inc_count_at ht symbol name count) }

/-- XHPROF_MODE_HIERARCHICAL's end function callback. -/
def hp_mode_hier_endfn_cb (g : hp_global_t) (env : hp_env) : Option hp_global_t :=
  match g.entries with
  | [] => none
  | top :: _ =>
    match hp_function_stack_string g.entries 2 SCRATCH_BUF_LEN with
    | none => none
    | some symbol =>
      match hp_mode_shared_endfn_cb g symbol env with
      | none => none
      | some (g1, false) => some g1
      | some (g1, true) =>
        let g2 := if g1.xhprof_flags &&& XHPROF_FLAGS_CPU ≠ 0 then
            hp_stats_inc g1 symbol NAME_cpu
              (get_us_interval top.ru_start_hprof.ru_utime env.ru.ru_utime +
               get_us_interval top.ru_start_hprof.ru_stime env.ru.ru_stime)
          else g1
        let g3 := if g2.xhprof_flags &&& XHPROF_FLAGS_MEMORY ≠ 0 then
            hp_stats_inc (hp_stats_inc g2 symbol NAME_mu (env.mu - top.mu_start_hprof))
              symbol NAME_pmu (env.pmu - top.pmu_start_hprof)
          else g2
        some g3

/-- The call through `hp_globals.mode_cb.begin_fn_cb`. -/
def begin_fn_cb (g : hp_global_t) (current : hp_entry_t) (env : hp_env) :
    Option (hp_global_t × hp_entry_t) :=
  match g.mode_cb.begin_fn_cb with
  | .hp_mode_dummy_beginfn_cb => some (g, current)
  | .hp_mode_hier_beginfn_cb => some (g, hp_mode_hier_beginfn_cb g current env)
  | .hp_mode_sampled_beginfn_cb => (hp_sample_check g env).map (fun g1 => (g1, current))

/-- The call through `hp_globals.mode_cb.end_fn_cb`. -/
def end_fn_cb (g : hp_global_t) (env : hp_env) : Option hp_global_t :=
  match g.mode_cb.end_fn_cb with
  | .hp_mode_dummy_endfn_cb => some g
  | .hp_mode_hier_endfn_cb => hp_mode_hier_endfn_cb g env
  | .hp_mode_sampled_endfn_cb => hp_sample_check g env

/-! ## The frame allocator and the profiling macros -/

/-- Fast allocate a `hp_entry_t` structure: the head of the free list if there
is one, else memory from `malloc`.  The memory is not initialized. -/
def hp_fast_alloc_hprof_entry (g : hp_global_t) (env : hp_env) : hp_global_t × hp_entry_t :=
  match g.entry_free_list with
  | p :: rest => ({ g with entry_free_list := rest }, p)
  | [] => (g, env.fresh)

/-- Fast free a `hp_entry_t` structure: returns it to the free list. -/
def hp_fast_free_hprof_entry (g : hp_global_t) (p : hp_entry_t) : hp_global_t :=
  { g with entry_free_list := p :: g.entry_free_list }

/-- The macro `BEGIN_PROFILING(&hp_globals.entries, symbol, profile_curr)`: the
state after it and the value of `profile_curr`. -/
def BEGIN_PROFILING (g : hp_global_t) (symbol : CStr) (env : hp_env) :
    Option (hp_global_t × Bool) :=
  let hash_code := hp_inline_hash symbol
  let profile_curr := !hp_filter_entry g hash_code symbol
  if profile_curr then
    let a := hp_fast_alloc_hprof_entry g env
    let cur_entry := { a.2 with hash_code := hash_code, name_hprof := symbol }
    let b := hp_mode_common_beginfn a.1 cur_entry
    match begin_fn_cb b.1 b.2 env with
    | none => none
    | some (g1, cur1) => some ({ g1 with entries := cur1 :: g1.entries }, true)
  else some (g, false)

/-- The macro `END_PROFILING(&hp_globals.entries, profile_curr)`.  With an
empty stack the null top entry is dereferenced. -/
def END_PROFILING (g : hp_global_t) (profile_curr : Bool) (env : hp_env) :
    Option hp_global_t :=
  if profile_curr then
    match end_fn_cb g env with
    | none => none
    | some g1 =>
      match g1.entries with
      | [] => none
      | cur_entry :: prev =>
        let g2 := hp_mode_common_endfn g1 cur_entry
        some (hp_fast_free_hprof_entry { g2 with entries := prev } cur_entry)
  else some g

/-- Restore cpu affinity mask: `cur_cpu_id` is reset when the call succeeds. -/
def restore_cpu_affinity (g : hp_global_t) (env : hp_env) : hp_global_t :=
  if env.affinity_ok then { g with cur_cpu_id := 0 } else g

/-- The loop `while (hp_globals.entries) END_PROFILING(..)` of `hp_stop`, run
at most `fuel` times; `envs i` is what the surroundings return in round `i`. -/
def hp_stop_loop : Nat → hp_global_t → (Nat → hp_env) → Option hp_global_t
  | 0, g, _ => if g.entries = [] then some g else none
  | fuel + 1, g, envs =>
    match g.entries with
    | [] => some g
    | _ :: _ =>
      match END_PROFILING g true (envs 0) with
      | none => none
      | some g1 => hp_stop_loop fuel g1 (fun i => envs (i + 1))

/-- Called from `xhprof_disable()`: ends any unfinished calls, restores the cpu
affinity and stops profiling.  `envs (i + 1)` serves the end of the `i`-th
unfinished call, `envs 0` the call of `restore_cpu_affinity`. -/
def hp_stop (fuel : Nat) (g : hp_global_t) (envs : Nat → hp_env) : Option hp_global_t :=
  match hp_stop_loop fuel g (fun i => envs (i + 1)) with
  | none => none
  | some g1 => some { restore_cpu_affinity g1 (envs 0) with enabled := 0 }

/-! ## Module init -/

/-- The global state after `PHP_MINIT_FUNCTION(xhprof)`: `hp_globals` has static
storage, so every field the function does not assign is zero (a null pointer,
an empty stack); `cpu_num` is the result of `sysconf`.  The four callback
pointers, null until `hp_begin` assigns them, are shown as the dummy
callbacks. -/
def PHP_MINIT_FUNCTION (cpu_num : Nat) : hp_global_t :=
  { enabled := 0
    ever_enabled := 0
    layers_count := none
    layers_definition := none
    stats_count := none
    profiler_level := 0
    entries := []
    entry_free_list := []
    mode_cb := ⟨.hp_mode_dummy_init_cb, .hp_mode_dummy_exit_cb,
      .hp_mode_dummy_beginfn_cb, .hp_mode_dummy_endfn_cb⟩
    last_sample_time := ⟨0, 0⟩
    last_sample_tsc := 0
    sampling_interval_tsc := 0
    cpu_frequencies := none
    cpu_num := cpu_num
    cur_cpu_id := 0
    xhprof_flags := 0
    func_hash_counters := fun _ => 0
    filtered_type := 0
    filtered_function_names := none
    filtered_function_filter := fun _ => 0
    argument_function_names := none
    argument_function_filter := fun _ => 0 }

/-! ## Specification-side definitions and predicates -/

/-- Spec side of the filter: a plain linear scan of the name list for `s`. -/
def linear_scan_spec : List CStr → CStr → Bool
  | [], _ => false
  | name :: names, s => if s = name then true else linear_scan_spec names s

/-- The bit of hash `h` is set in the bitmap `f`. -/
def filter_bit (f : Nat → Nat) (h : Nat) : Prop :=
  f (INDEX_2_BYTE h) &&& (INDEX_2_BIT h % 256) ≠ 0

/-- A state with the name list `names` under filter type `t`, as
`hp_parse_options_from_arg` leaves it after module init. -/
def filter_fixture (t : Int) (names : List CStr) : hp_global_t :=
  { PHP_MINIT_FUNCTION 1 with filtered_type := t, filtered_function_names := some names }

/-- A sequence of `hp_inc_count` calls on one counts value. -/
def hp_inc_count_seq (counts : hp_stat) (calls : List (CStr × Int)) : hp_stat :=
  calls.foldl (fun c p => hp_inc_count c p.1 p.2) counts

/-- The sum of the deltas that the calls pass for the field `name`. -/
def delta_sum (name : CStr) : List (CStr × Int) → Int
  | [] => 0
  | (n, d) :: calls => (if n = name then d else 0) + delta_sum name calls

/-- The long stored in field `name` of the counts array of `symbol`. -/
def hp_stat_field (a : Option hp_array) (symbol name : CStr) : Option Int :=
  match a with
  | none => none
  | some ht =>
    match zend_hash_find ht symbol with
    | some (.counts c) => zend_hash_find c name
    | _ => none

/-- Every value of the array is a counts array (no sample string). -/
def counts_only (ht : hp_array) : Prop :=
  ∀ k s, zend_hash_find ht k ≠ some (.sample s)

/-- What one end callback has done to the stats array `ht` when the array is
`ht1`: the fields `ct` and `wt` of `k` hold `ct` and `wt`, the other keys are
as in `ht`. -/
def stats_after (ht ht1 : hp_array) (k : CStr) (ct wt : Option Int) : Prop :=
  counts_only ht1 ∧ zend_hash_find ht1 k ≠ none ∧
  hp_stat_field (some ht1) k NAME_ct = ct ∧
  hp_stat_field (some ht1) k NAME_wt = wt ∧
  ∀ k' n, k' ≠ k → hp_stat_field (some ht1) k' n = hp_stat_field (some ht) k' n


/-- A frame named `name` at recursion level `rlvl`, its other fields zero. -/
def mk_entry (name : CStr) (rlvl : Nat) : hp_entry_t :=
  { name_hprof := name, rlvl_hprof := rlvl, tsc_start := 0, mu_start_hprof := 0,
    pmu_start_hprof := 0, ru_start_hprof := ⟨⟨0, 0⟩, ⟨0, 0⟩⟩,
    hash_code := hp_inline_hash name }

/-- The number of frames of a stack whose hash code is `h`. -/
def hash_count (entries : List hp_entry_t) (h : Nat) : Nat :=
  (entries.filter (fun e => decide (e.hash_code = h))).length

/-- A running hierarchical session with the stack `entries`: the state of
module init with the callbacks `hp_begin` registers for
`XHPROF_MODE_HIERARCHICAL`, an empty stats array, a measured frequency, and
each hash counter at the number of frames with that hash. -/
def hier_fixture (entries : List hp_entry_t) : hp_global_t :=
  { PHP_MINIT_FUNCTION 1 with
    enabled := 1
    ever_enabled := 1
    stats_count := some []
    profiler_level := 1
    entries := entries
    mode_cb := ⟨.hp_mode_dummy_init_cb, .hp_mode_dummy_exit_cb,
      .hp_mode_hier_beginfn_cb, .hp_mode_hier_endfn_cb⟩
    cpu_frequencies := some [2400]
    func_hash_counters := fun h => hash_count entries h % 256 }

/-- An environment in which the clock reads `tsc` and the wall time measured
is `wt`. -/
def env_fixture (tsc : Nat) (wt : Int) : hp_env :=
  { tsc := tsc, wt := wt, ru := ⟨⟨0, 0⟩, ⟨0, 0⟩⟩, mu := 0, pmu := 0,
    fresh := mk_entry [] 0, affinity_ok := true }

/-- Spec side of the rendering: the texts of the last `min level k` frames of
a stack of `k` frames, bottom to current, joined by `"==>"`.  The stack is
given top first. -/
def hp_stack_text_spec (stack : List hp_entry_t) (level : Nat) : CStr :=
  List.intercalate HP_STACK_DELIM
    (((stack.take (min level stack.length)).reverse).map hp_entry_text)

/-- The rendering of `entry` and the chain `prev` behind it, along the
recursion of `hp_get_function_stack`. -/
def hp_stack_text (entry : hp_entry_t) : List hp_entry_t → Nat → CStr
  | [], _ => hp_entry_text entry
  | p :: ps, level =>
    if level ≤ 1 then hp_entry_text entry
    else hp_stack_text p ps (level - 1) ++ HP_STACK_DELIM ++ hp_entry_text entry

/-- The names of the frames are well-formed C strings and not empty. -/
def names_ok (stack : List hp_entry_t) : Prop :=
  ∀ e ∈ stack, CStr.wf e.name_hprof ∧ e.name_hprof ≠ []

instance (stack : List hp_entry_t) : Decidable (names_ok stack) := by
  unfold names_ok; infer_instance

/-- The two states agree on everything but the stats array, the layers array
and the time of the last sample. -/
def same_tracker (g g1 : hp_global_t) : Prop :=
  g1 = { g with
    stats_count := g1.stats_count
    layers_count := g1.layers_count
    last_sample_time := g1.last_sample_time
    last_sample_tsc := g1.last_sample_tsc }

/-- What the end callback of the session needs in order to return: in
hierarchical mode a stats array of counts arrays and the measured frequencies
it reads; in sampled mode a sampling interval that is not zero cycles, a
`uint64` cycle count of the last sample, and the stats array. -/
def end_callback_ok (g : hp_global_t) : Prop :=
  (g.mode_cb.end_fn_cb = .hp_mode_hier_endfn_cb →
    ∀ ht, g.stats_count = some ht → counts_only ht ∧ g.cpu_frequencies ≠ none) ∧
  (g.mode_cb.end_fn_cb = .hp_mode_sampled_endfn_cb →
    0 < g.sampling_interval_tsc ∧ g.last_sample_tsc < 2 ^ 64 ∧ g.stats_count ≠ none)

/-- The number of frames of a stack that the hierarchical end callback records
under the key `k`. -/
def key_count : List hp_entry_t → CStr → Nat
  | [], _ => 0
  | e :: prev, k =>
    (if hp_function_stack_string (e :: prev) 2 SCRATCH_BUF_LEN = some k then 1 else 0) +
      key_count prev k

/-- A count after `n` additions of 1: as before when `n` is 0. -/
def ct_after (old : Option Int) (n : Nat) : Option Int :=
  if n = 0 then old else some (old.getD 0 + n)

/-- A run of `BEGIN_PROFILING` for each symbol of a list, in the same
surroundings. -/
def hp_run_begins : hp_global_t → List CStr → hp_env → Option hp_global_t
  | g, [], _ => some g
  | g, symbol :: symbols, env =>
    match BEGIN_PROFILING g symbol env with
    | none => none
    | some (g1, _) => hp_run_begins g1 symbols env

/-- The end callback has recorded a call under the key `k`: from `g` to `g1`
the count `ct` of `k` has grown by 1 and that of no other key has changed. -/
def recorded_under (g g1 : hp_global_t) (k : CStr) : Prop :=
  hp_stat_field g1.stats_count k NAME_ct =
    some ((hp_stat_field g.stats_count k NAME_ct).getD 0 + 1) ∧
  ∀ k', k' ≠ k → hp_stat_field g1.stats_count k' NAME_ct =
    hp_stat_field g.stats_count k' NAME_ct

/-- The state after a frame `cur` is pushed: the frame tops the stack, the free
list has lost its head (if it had one) and the counter of the hash of the
frame is bumped in its `uint8`. -/
def push_frame (g : hp_global_t) (cur : hp_entry_t) : hp_global_t :=
  { g with
    entries := cur :: g.entries
    entry_free_list := g.entry_free_list.tail
    func_hash_counters := array_set g.func_hash_counters cur.hash_code
      ((g.func_hash_counters cur.hash_code + 1) % 256) }

/-! ## Time arithmetic: truncation -/

/-- The total of a timestamp in microseconds. -/
def time_us (tv : timeval) : Int := tv.tv_sec * 1000000 + tv.tv_usec

/-- A timestamp as `gettimeofday` gives it: seconds not negative, microseconds
in `[0, 1000000)`. -/
def timeval_ok (tv : timeval) : Prop :=
  0 ≤ tv.tv_sec ∧ 0 ≤ tv.tv_usec ∧ tv.tv_usec < 1000000

instance (tv : timeval) : Decidable (timeval_ok tv) := by
  unfold timeval_ok; infer_instance

/-- Truncates the given timeval to the nearest slot begin, where the slot size
is `intr`: the total is taken in a `uint64`, divided by `intr` and multiplied
by it again.  `none` is the division by an `intr` of zero. -/
def hp_trunc_time (tv : timeval) (intr : Nat) : Option timeval :=
  if intr = 0 then none
  else
    let time_in_micro := (tv.tv_sec * 1000000 + tv.tv_usec) % 2 ^ 64
    let time_in_micro1 := time_in_micro / (intr : Int)
    let time_in_micro2 := (time_in_micro1 * (intr : Int)) % 2 ^ 64
    some { tv_sec := time_in_micro2 / 1000000, tv_usec := time_in_micro2 % 1000000 }

/-! ## Predicates for pairs of begin and end -/

/-- The two states agree on the configuration of the session: on everything
but the stack, the free list, the hash counters, the stats and layers arrays
and the time of the last sample. -/
def same_config (g g1 : hp_global_t) : Prop :=
  ∃ st lc t c e f ctr, g1 = { g with
    stats_count := st
    layers_count := lc
    last_sample_time := t
    last_sample_tsc := c
    entries := e
    entry_free_list := f
    func_hash_counters := ctr }

/-- The begin and end callbacks belong to one mode where sampling is
concerned, as `hp_begin` registers them: a sampled begin callback comes with
the sampled end callback. -/
def modes_paired (g : hp_global_t) : Prop :=
  g.mode_cb.begin_fn_cb = .hp_mode_sampled_beginfn_cb →
    g.mode_cb.end_fn_cb = .hp_mode_sampled_endfn_cb

/-- A run of `END_PROFILING` for `n` tracked calls, in the same surroundings. -/
def hp_run_ends : Nat → hp_global_t → hp_env → Option hp_global_t
  | 0, g, _ => some g
  | n + 1, g, env =>
    match END_PROFILING g true env with
    | none => none
    | some g1 => hp_run_ends n g1 env

/-! ## Sampled mode: the init callback and runs of sample checks -/

/-- Convert microseconds to equivalent TSC counter ticks:
`(uint64) (usecs * cpu_frequency)`.  The frequency is a measured `double`, in
general no whole number, and the product is taken in `double` arithmetic and
cut to its integer part.  This arithmetic is not computed here: as the wall
time `wt` of `hp_env` it is a reading of the surroundings, `product usecs
cpu_frequency` being the integer part of the product as the machine gives it.
The frequency is only handed on, as the natural number that stands for the
`double` in `cpu_frequencies`. -/
def get_tsc_from_us (product : Nat → Nat → Nat) (usecs cpu_frequency : Nat) : Nat :=
  product usecs cpu_frequency % 2 ^ 64

/-- The integer part of `usecs * cpu_frequency` at a frequency that is the
whole number `cpu_frequency` of cycles per microsecond. -/
def product_whole (usecs cpu_frequency : Nat) : Nat := usecs * cpu_frequency

/-- The integer part of `usecs * cpu_frequency` at a frequency of
`hz / 1000000` cycles per microsecond, whatever number stands for it. -/
def product_hz (hz : Nat) (usecs _cpu_frequency : Nat) : Nat := usecs * hz / 1000000

/-- The key that `hp_sample_stack` builds with `snprintf(key, sizeof(key),
"%d.%06d", ..)` from a sample time. -/
def hp_sample_key (tv : timeval) : CStr :=
  cstr_at (snprintf (scratch SCRATCH_BUF_LEN) 0 SCRATCH_BUF_LEN
    (fmt_int (long_to_int tv.tv_sec) ++ [46] ++ fmt_06d (long_to_int tv.tv_usec))) 0

/-- XHPROF_MODE_SAMPLED's init callback, with `cycle_timer()` reading `tsc`,
`gettimeofday` giving `now` and `product` giving the integer parts of the two
products of `get_tsc_from_us`.  `none` is the read of the frequency through a
null `cpu_frequencies` or behind its end. -/
def hp_mode_sampled_init_cb (g : hp_global_t) (tsc : Nat) (now : timeval)
    (product : Nat → Nat → Nat) : Option hp_global_t :=
  match g.cpu_frequencies with
  | none => none
  | some freqs =>
    match freqs.get? g.cur_cpu_id with
    | none => none
    | some cpu_freq =>
      match hp_trunc_time now XHPROF_SAMPLING_INTERVAL with
      | none => none
      | some last =>
        let truncated_us := (get_us_interval last now % 2 ^ 64).toNat
        let truncated_tsc := get_tsc_from_us product truncated_us cpu_freq
        let last_tsc := if tsc > truncated_tsc then tsc - truncated_tsc else tsc
        some { g with
          last_sample_tsc := last_tsc
          last_sample_time := last
          sampling_interval_tsc := get_tsc_from_us product XHPROF_SAMPLING_INTERVAL cpu_freq }

/-- One round of the loop of `hp_sample_check`: both bumps and the sample. -/
def hp_sample_round (g : hp_global_t) : Option hp_global_t :=
  hp_sample_stack { g with
    last_sample_tsc := (g.last_sample_tsc + g.sampling_interval_tsc) % 2 ^ 64
    last_sample_time := incr_us_interval g.last_sample_time XHPROF_SAMPLING_INTERVAL }

/-- A number of rounds of the loop of `hp_sample_check`, one after the other. -/
def hp_sample_rounds : Nat → hp_global_t → Option hp_global_t
  | 0, g => some g
  | k + 1, g =>
    match hp_sample_round g with
    | none => none
    | some g1 => hp_sample_rounds k g1

/-- A run of `hp_sample_check` calls on one stack, one call for each reading
of the cycle counter in `clock`. -/
def hp_run_sample_checks : hp_global_t → List Nat → hp_env → Option hp_global_t
  | g, [], _ => some g
  | g, t :: clock, env =>
    match hp_sample_check g { env with tsc := t } with
    | none => none
    | some g1 => hp_run_sample_checks g1 clock env

/-- The number of samples due when `d` cycles have gone by since the last
sample and the interval is `intr` cycles: the rounds for which the time gone
by is still above the interval. -/
def samples_due (d intr : Nat) : Nat := (d - 1) / intr

/-- The timestamp with the given total of microseconds. -/
def timeval_of_us (t : Int) : timeval := { tv_sec := t / 1000000, tv_usec := t % 1000000 }

/-- The stats array after `k` samples of the text `symbol`, taken at the
interval boundaries that follow the time `t` (in microseconds). -/
def samples_after (symbol : CStr) (t : Int) : Nat → hp_array → hp_array
  | 0, ht => ht
  | k + 1, ht =>
    zend_hash_update (samples_after symbol t k ht)
      (hp_sample_key (timeval_of_us (t + ((k : Int) + 1) * 100000))) (.sample symbol)

/-- A state of a sampled session with a stack and an empty stats array, before
the init callback has run. -/
def sampled_fixture (entries : List hp_entry_t) : hp_global_t :=
  { PHP_MINIT_FUNCTION 1 with
    enabled := 1
    ever_enabled := 1
    stats_count := some []
    profiler_level := XHPROF_MODE_SAMPLED
    entries := entries
    mode_cb := ⟨.hp_mode_sampled_init_cb, .hp_mode_dummy_exit_cb,
      .hp_mode_sampled_beginfn_cb, .hp_mode_sampled_endfn_cb⟩
    cpu_frequencies := some [2400]
    func_hash_counters := fun h => hash_count entries h % 256 }

/-- A sampled session inside `main()` as the init callback leaves it when the
session starts at 1700000000.060000 with the cycle counter at `10 ^ 12` and
2400 cycles to the microsecond: the last sample time is the boundary
1700000000.000000 and the cycle count is moved back by 60,000 microseconds. -/
def sampled_started : hp_global_t :=
  { sampled_fixture [mk_entry ROOT_SYMBOL 0] with
    last_sample_tsc := 10 ^ 12 - 144000000
    last_sample_time := ⟨1700000000, 0⟩
    sampling_interval_tsc := 240000000 }

/-! ## The arguments of the PHP functions -/

/-- An element of a PHP array of names or layers: a string (its bytes, which
may hold a NUL) or a value of another type. -/
inductive hp_zelem where
  | string (s : List Nat)
  | other
  deriving DecidableEq, Repr

/-- A key of a PHP array: an integer or a string. -/
inductive hp_zkey where
  | long (idx : Int)
  | string (s : CStr)
  deriving DecidableEq, Repr

/-- A value stored under a key of the options array: an array, a string or a
value of another type. -/
inductive hp_zitem where
  | array (ht : List (hp_zkey × hp_zelem))
  | string (s : List Nat)
  | other
  deriving DecidableEq, Repr

/-- The optional second argument of `xhprof_enable`, when it is given: an
array or a value of another type. -/
inductive hp_zarg where
  | array (ht : List (hp_zkey × hp_zitem))
  | other
  deriving DecidableEq, Repr

/-- What C code reads of the bytes of a PHP string: the bytes before the first
NUL (`strcmp`, `estrdup`). -/
def Z_STRVAL (s : List Nat) : CStr := s.takeWhile (fun b => decide (b ≠ 0))

/-- The lookup `zend_hash_find(ht, key, strlen(key) + 1, ..)` of a C string
key. -/
def zval_hash_find {α : Type} : List (hp_zkey × α) → CStr → Option α
  | [], _ => none
  | (k, v) :: rest, key => if k = .string key then some v else zval_hash_find rest key

/-- Look in the PHP assoc array to find a key and return the zval associated
with it. -/
def hp_zval_at_key (key : CStr) (values : hp_zarg) : Option hp_zitem :=
  match values with
  | .array ht => zval_hash_find ht key
  | .other => none

/-- The loop of `hp_strings_in_zval` over an array: the strings stored under
integer keys, but for `"main()"`. -/
def hp_strings_in_zval_loop : List (hp_zkey × hp_zelem) → List CStr
  | [] => []
  | (.long _, .string s) :: rest =>
    if Z_STRVAL s ≠ ROOT_SYMBOL then Z_STRVAL s :: hp_strings_in_zval_loop rest
    else hp_strings_in_zval_loop rest
  | _ :: rest => hp_strings_in_zval_loop rest

/-- Convert the PHP array of strings to an emalloced array of strings. -/
def hp_strings_in_zval (values : Option hp_zitem) : Option (List CStr) :=
  match values with
  | none => none
  | some (.array ht) => some (hp_strings_in_zval_loop ht)
  | some (.string s) => some [Z_STRVAL s]
  | some .other => none

/-- The copy of the layers array that `zend_hash_copy` makes.  The end
callback looks the table up by string keys only, so that the entries under
integer keys are never read and are left out.  An entry with a string key is
read by `Z_STRVAL_P`, whatever its type: for a string the label is its bytes
before the first NUL; for a value of another type the read is undefined (the
bytes behind an integer taken as a pointer), which happens when a call of the
function named by the key ends in hierarchical mode.  The layer table of the
state has no place for such a value and the result is `none`: the model does
not follow a session with such a table any further. -/
def layers_copy : List (hp_zkey × hp_zelem) → Option (List (CStr × CStr))
  | [] => some []
  | (.string k, .string s) :: rest =>
    match layers_copy rest with
    | none => none
    | some t => some ((k, Z_STRVAL s) :: t)
  | (.string _, .other) :: _ => none
  | (.long _, _) :: rest => layers_copy rest

/-- Copies the layers array to `hp_globals.layers_definition`; `none` for a
table with a label that is not a string (see `layers_copy`). -/
def hp_parse_layers_options_from_arg (g : hp_global_t) (layers : hp_zitem) :
    Option hp_global_t :=
  match layers with
  | .array ht =>
    match layers_copy ht with
    | none => none
    | some t => some { g with layers_definition := some t }
  | _ => some g

def KEY_ignored_functions : CStr :=
  [105, 103, 110, 111, 114, 101, 100, 95, 102, 117, 110, 99, 116, 105, 111, 110, 115]
def KEY_functions : CStr := [102, 117, 110, 99, 116, 105, 111, 110, 115]
def KEY_argument_functions : CStr :=
  [97, 114, 103, 117, 109, 101, 110, 116, 95, 102, 117, 110, 99, 116, 105, 111, 110, 115]
def KEY_layers : CStr := [108, 97, 121, 101, 114, 115]

/-- Parse the list of ignored functions from the zval argument; `none` for a
layer table with a label that is not a string (see `layers_copy`). -/
def hp_parse_options_from_arg (g : hp_global_t) (args : Option hp_zarg) :
    Option hp_global_t :=
  match args with
  | none => some { g with filtered_function_names := none, argument_function_names := none }
  | some args =>
    let zresult := hp_zval_at_key KEY_ignored_functions args
    let zresult1 := if zresult = none then hp_zval_at_key KEY_functions args else zresult
    let filtered_type :=
      if zresult = none then (if zresult1 ≠ none then 2 else g.filtered_type) else 1
    let g1 := { g with
      filtered_type := filtered_type
      filtered_function_names := hp_strings_in_zval zresult1
      argument_function_names :=
        hp_strings_in_zval (hp_zval_at_key KEY_argument_functions args) }
    match hp_zval_at_key KEY_layers args with
    | some (.array ht) => hp_parse_layers_options_from_arg g1 (.array ht)
    | _ => some g1

/-! ## Start and stop of a session -/

/-- What the surroundings return during one start of the profiler. -/
structure hp_start_env where
  /-- The surroundings of the begin of `main()`; its `affinity_ok` tells
  whether the `SET_AFFINITY` calls of this start succeed and its `tsc` is what
  the init callback reads from `cycle_timer()`. -/
  env : hp_env
  /-- Whether `malloc` returns memory for the frequency array. -/
  malloc_ok : Bool
  /-- The result of `get_cpu_frequency()` on the cpu with the given id: the
  natural number that stands for the `double` measured, which is that number
  of cycles per microsecond when the frequency is whole; 0 is the failure
  value `0.0`. -/
  frequency : Nat → Nat
  /-- The integer part of the `double` product `usecs * cpu_frequency` that
  `get_tsc_from_us` computes in the init callback of sampled mode. -/
  product : Nat → Nat → Nat
  /-- The result of `rand()`. -/
  rand : Nat
  /-- The time `gettimeofday` gives to the init callback. -/
  now : timeval

/-- Bind the current process to a specified CPU: the state and the value
returned, 0 on success and -1 on failure. -/
def bind_to_cpu (g : hp_global_t) (cpu_id : Nat) (env : hp_env) : hp_global_t × Int :=
  if env.affinity_ok then ({ g with cur_cpu_id := cpu_id }, 0) else (g, -1)

/-- Reclaim the memory allocated for `cpu_frequencies`. -/
def clear_frequencies (g : hp_global_t) (env : hp_env) : hp_global_t :=
  restore_cpu_affinity { g with cpu_frequencies := none } env

/-- The loop of `get_all_cpu_frequencies` from cpu `id` on, with `n` cpus to
go and the frequencies `acc` stored so far. -/
def get_all_cpu_frequencies_loop : Nat → Nat → hp_global_t → hp_start_env → List Nat →
    hp_global_t
  | 0, _, g, _, acc => { g with cpu_frequencies := some acc }
  | n + 1, id, g, senv, acc =>
    let b := bind_to_cpu g id senv.env
    if b.2 ≠ 0 then clear_frequencies b.1 senv.env
    else
      let frequency := senv.frequency id
      if frequency = 0 then clear_frequencies b.1 senv.env
      else get_all_cpu_frequencies_loop n (id + 1) b.1 senv (acc ++ [frequency])

/-- Calculate frequencies for all available cpus. -/
def get_all_cpu_frequencies (g : hp_global_t) (senv : hp_start_env) : hp_global_t :=
  if senv.malloc_ok then get_all_cpu_frequencies_loop g.cpu_num 0 g senv []
  else { g with cpu_frequencies := none }

/-- Initialize filter for argument functions using bit vector. -/
def hp_argument_functions_filter_init (g : hp_global_t) : hp_global_t :=
  match g.argument_function_names with
  | none => g
  | some names =>
    { g with argument_function_filter :=
        hp_filtered_functions_filter_init_loop names g.argument_function_filter }

/-- The call `hp_globals.mode_cb.init_cb()`. -/
def init_cb (g : hp_global_t) (senv : hp_start_env) : Option hp_global_t :=
  match g.mode_cb.init_cb with
  | .hp_mode_dummy_init_cb => some g
  | .hp_mode_sampled_init_cb => hp_mode_sampled_init_cb g senv.env.tsc senv.now senv.product

/-- The first part of `hp_init_profiler_state`, up to the fresh stats and
layers arrays.  A `layers_count` that is freed and not made anew keeps its
value (the pointer dangles); `last_error` and the exception fields are not
part of the state. -/
def hp_init_profiler_state_globals (g : hp_global_t) (level : Int) : hp_global_t :=
  let g1 := if g.ever_enabled = 0 then { g with ever_enabled := 1, entries := [] } else g
  let g2 := { g1 with profiler_level := level, stats_count := some [] }
  if g2.layers_definition ≠ none then { g2 with layers_count := some [] } else g2

/-- Initialize profiler state.  `none` is the division by a `cpu_num` of zero
or a crash of the init callback. -/
def hp_init_profiler_state (g : hp_global_t) (level : Int) (senv : hp_start_env) :
    Option hp_global_t :=
  let g3 := hp_init_profiler_state_globals g level
  let g4 :=
    if g3.cpu_frequencies = none then
      restore_cpu_affinity (get_all_cpu_frequencies g3 senv) senv.env
    else g3
  if g4.cpu_num = 0 then none
  else
    let g5 := (bind_to_cpu g4 (senv.rand % g4.cpu_num) senv.env).1
    match init_cb g5 senv with
    | none => none
    | some g6 => some (hp_argument_functions_filter_init (hp_filtered_functions_filter_init g6))

/-- The callbacks `hp_begin` registers for a level. -/
def hp_begin_callbacks (level : Int) : hp_mode_cb :=
  if level = XHPROF_MODE_HIERARCHICAL then
    ⟨.hp_mode_dummy_init_cb, .hp_mode_dummy_exit_cb,
      .hp_mode_hier_beginfn_cb, .hp_mode_hier_endfn_cb⟩
  else if level = XHPROF_MODE_SAMPLED then
    ⟨.hp_mode_sampled_init_cb, .hp_mode_dummy_exit_cb,
      .hp_mode_sampled_beginfn_cb, .hp_mode_sampled_endfn_cb⟩
  else
    ⟨.hp_mode_dummy_init_cb, .hp_mode_dummy_exit_cb,
      .hp_mode_dummy_beginfn_cb, .hp_mode_dummy_endfn_cb⟩

/-- This function gets called once when xhprof gets enabled.  The proxies it
installs for the engine hooks are not part of the state; the `long` level is
converted to the `int` parameter of `hp_init_profiler_state`. -/
def hp_begin (g : hp_global_t) (level xhprof_flags : Int) (senv : hp_start_env) :
    Option hp_global_t :=
  if g.enabled = 0 then
    let g1 := { g with
      enabled := 1
      xhprof_flags := (xhprof_flags % 2 ^ 32).toNat
      mode_cb := hp_begin_callbacks level }
    match hp_init_profiler_state g1 (long_to_int level) senv with
    | none => none
    | some g2 =>
      match BEGIN_PROFILING g2 ROOT_SYMBOL senv.env with
      | none => none
      | some (g3, _) => some g3
  else some g

/-- Start XHProf profiling in hierarchical mode: `xhprof_enable(flags, options)`,
with `none` for an options argument that is not given. -/
def xhprof_enable (g : hp_global_t) (xhprof_flags : Int) (optional_array : Option hp_zarg)
    (senv : hp_start_env) : Option hp_global_t :=
  match hp_parse_options_from_arg g optional_array with
  | none => none
  | some g1 => hp_begin g1 XHPROF_MODE_HIERARCHICAL xhprof_flags senv

/-- Start XHProf profiling in sampling mode. -/
def xhprof_sample_enable (g : hp_global_t) (senv : hp_start_env) : Option hp_global_t :=
  match hp_parse_options_from_arg g none with
  | none => none
  | some g1 => hp_begin g1 XHPROF_MODE_SAMPLED 0 senv

/-- The array a stop function returns: the stats array and, when
`xhprof_disable` has added them to the counts of `main()`, the layers counts
under the key `"layers"`. -/
structure hp_snapshot where
  stats : hp_array
  layers : Option hp_array
  deriving DecidableEq

/-- Stops XHProf from profiling in hierarchical mode and returns the profile
info: the state and the value returned, `none` for the null of a profiler that
is not enabled.  The entry `"layers"` that is added to the counts of `main()`
is shown in the value returned only; nothing reads the stats array of the
state again before `hp_init_profiler_state` replaces it.  The outer `none` is
a crash: that of `hp_stop`, a null stats array, or a sample string under
`"main()"` that is taken for an array. -/
def xhprof_disable (fuel : Nat) (g : hp_global_t) (envs : Nat → hp_env) :
    Option (hp_global_t × Option hp_snapshot) :=
  if g.enabled ≠ 0 then
    match hp_stop fuel g envs with
    | none => none
    | some g1 =>
      match g1.stats_count with
      | none => none
      | some stats =>
        match g1.layers_count with
        | none => some (g1, some ⟨stats, none⟩)
        | some layers =>
          match zend_hash_find stats ROOT_SYMBOL with
          | none => some (g1, some ⟨stats, none⟩)
          | some (.counts _) => some (g1, some ⟨stats, some layers⟩)
          | some (.sample _) => none
  else some (g, none)

/-- Stops XHProf from profiling in sampling mode and returns the profile info. -/
def xhprof_sample_disable (fuel : Nat) (g : hp_global_t) (envs : Nat → hp_env) :
    Option (hp_global_t × Option hp_snapshot) :=
  if g.enabled ≠ 0 then
    match hp_stop fuel g envs with
    | none => none
    | some g1 =>
      match g1.stats_count with
      | none => none
      | some stats => some (g1, some ⟨stats, none⟩)
  else some (g, none)

/-- The surroundings of a start on a machine with 2400 cycles to the
microsecond, at 1700000000.060000 with the cycle counter at `10 ^ 12`. -/
def start_env_fixture : hp_start_env :=
  { env := env_fixture (10 ^ 12) 0, malloc_ok := true, frequency := fun _ => 2400,
    product := product_whole, rand := 0, now := ⟨1700000000, 60000⟩ }

/-- The options array `['ignored_functions' => ['B']]`. -/
def blacklist_B : hp_zarg :=
  .array [(.string KEY_ignored_functions, .array [(.long 0, .string [66])])]

/-- The two states agree on everything but the calibration (the frequencies
and the cpu the process is bound to), the sampling clock and the two filter
bitmaps. -/
def same_session (g g1 : hp_global_t) : Prop :=
  ∃ fr id t c i ff af, g1 = { g with
    cpu_frequencies := fr
    cur_cpu_id := id
    last_sample_time := t
    last_sample_tsc := c
    sampling_interval_tsc := i
    filtered_function_filter := ff
    argument_function_filter := af }

/-- The init callback of sampled mode can run in a start from `g`: the
affinity calls succeed, the time of day is one `gettimeofday` can give, and the
frequencies have been measured for every cpu or can be measured now. -/
def sampled_start_ok (g : hp_global_t) (senv : hp_start_env) : Prop :=
  senv.env.affinity_ok = true ∧ timeval_ok senv.now ∧ time_us senv.now < 2 ^ 64 ∧
  ((g.cpu_frequencies = none ∧ senv.malloc_ok = true ∧
      ∀ id, id < g.cpu_num → senv.frequency id ≠ 0) ∨
    ∃ freqs, g.cpu_frequencies = some freqs ∧ freqs.length = g.cpu_num)

/-! ## The base file name -/

/-- The reverse search of `hp_get_base_filename`: `before` holds the bytes
from `ptr` down to the start of the string, `after` the bytes behind `ptr`,
`found` the count of `'/'` so far. -/
def hp_get_base_filename_loop : List Nat → Int → CStr → CStr → CStr
  | [], _, _, filename => filename
  | c :: before, found, after, filename =>
    let found1 := if c = 47 then found + 1 else found
    if found1 = 2 then after
    else hp_get_base_filename_loop before found1 (c :: after) filename

/-- Takes an input of the form /a/b/c/d/foo.php and returns a pointer to
one-level directory and basefile name (d/foo.php) in the same string; `none`
is the null pointer, for which the empty string is returned. -/
def hp_get_base_filename (filename : Option CStr) : CStr :=
  match filename with
  | none => []
  | some s => hp_get_base_filename_loop s.reverse 0 [] s

/-- The number of positive integers `j` with `j * intr < d`: the sampling
intervals that have gone by in full when `d` cycles have gone by since the
last sample. -/
def intervals_passed (d intr : Nat) : Nat :=
  ((Finset.range (d + 1)).filter (fun j => 0 < j ∧ j * intr < d)).card

/-- Spec side of the name list: the C strings of the values that are strings
held under integer keys and differ from `"main()"`, in the order of the array. -/
def kept_names_spec (ht : List (hp_zkey × hp_zelem)) : List CStr :=
  ht.filterMap (fun p =>
    match p with
    | (.long _, .string s) => if Z_STRVAL s = ROOT_SYMBOL then none else some (Z_STRVAL s)
    | _ => none)

/-- The options array `['ignored_functions' => 'main()']`. -/
def blacklist_main_string : hp_zarg :=
  .array [(.string KEY_ignored_functions, .string ROOT_SYMBOL)]

/-- The options array `['ignored_functions' => ['main()', 'B']]`. -/
def blacklist_main_array : hp_zarg :=
  .array [(.string KEY_ignored_functions,
    .array [(.long 0, .string ROOT_SYMBOL), (.long 1, .string [66])])]

/-- The surroundings of a start in which every `SET_AFFINITY` call fails. -/
def start_env_no_affinity : hp_start_env :=
  { start_env_fixture with env := { env_fixture (10 ^ 12) 0 with affinity_ok := false } }

/-- The surroundings of a start in which `get_cpu_frequency()` fails. -/
def start_env_no_frequency : hp_start_env :=
  { start_env_fixture with frequency := fun _ => 0 }

/-! ## Runs of calls and returns -/

/-- An event of the engine as the proxies see it: the call of a function with
a name, or the return from the call that is open. -/
inductive hp_event where
  | call (symbol : CStr)
  | ret
  deriving DecidableEq, Repr

/-- A run of calls and returns as `hp_execute` and `hp_execute_internal` make
them: a call runs `BEGIN_PROFILING` and keeps its `hp_profile_flag`; a return
runs `END_PROFILING` with the flag of its call when the stack is not empty
(`if (hp_globals.entries)`).  A return with no call open is no event of the
engine and is passed over.  The result is the state and the flags of the calls
still open, the innermost first. -/
def hp_run_events : hp_global_t → List Bool → List hp_event → hp_env →
    Option (hp_global_t × List Bool)
  | g, flags, [], _ => some (g, flags)
  | g, flags, .call symbol :: rest, env =>
    match BEGIN_PROFILING g symbol env with
    | none => none
    | some (g1, hp_profile_flag) => hp_run_events g1 (hp_profile_flag :: flags) rest env
  | g, [], .ret :: rest, env => hp_run_events g [] rest env
  | g, hp_profile_flag :: flags, .ret :: rest, env =>
    if g.entries = [] then hp_run_events g flags rest env
    else
      match END_PROFILING g hp_profile_flag env with
      | none => none
      | some g1 => hp_run_events g1 flags rest env

/-- Each hash counter holds the number of live frames with that hash code,
modulo 256. -/
def counters_ok (g : hp_global_t) : Prop :=
  ∀ h, g.func_hash_counters h = hash_count g.entries h % 256

/-! ## The fields of a stats entry -/

/-- The two optional blocks of `hp_mode_hier_endfn_cb` on the stats array
`ht`, for the counts array of the key `k` and the frame `top` that ends: the
field `cpu` under `XHPROF_FLAGS_CPU`, the fields `mu` and `pmu` under
`XHPROF_FLAGS_MEMORY`. -/
def hier_optional_counts (xhprof_flags : Nat) (top : hp_entry_t) (env : hp_env) (k : CStr)
    (ht : hp_array) : hp_array :=
  let ht1 :=
    if xhprof_flags &&& XHPROF_FLAGS_CPU ≠ 0 then
      hp_inc_count_at ht k NAME_cpu
        (get_us_interval top.ru_start_hprof.ru_utime env.ru.ru_utime +
         get_us_interval top.ru_start_hprof.ru_stime env.ru.ru_stime)
    else ht
  if xhprof_flags &&& XHPROF_FLAGS_MEMORY ≠ 0 then
    hp_inc_count_at (hp_inc_count_at ht1 k NAME_mu (env.mu - top.mu_start_hprof))
      k NAME_pmu (env.pmu - top.pmu_start_hprof)
  else ht1

/-- The counts array of the key `k` has the field `name`. -/
def has_field (ht : hp_array) (k name : CStr) : Prop :=
  hp_stat_field (some ht) k name ≠ none

instance (ht : hp_array) (k name : CStr) : Decidable (has_field ht k name) := by
  unfold has_field; infer_instance

/-- Every entry of the stats array has the fields `ct` and `wt`, the field
`cpu` exactly when `XHPROF_FLAGS_CPU` is set in the flags, and the fields `mu`
and `pmu` exactly when `XHPROF_FLAGS_MEMORY` is set. -/
def entry_fields_ok (xhprof_flags : Nat) (ht : hp_array) : Prop :=
  ∀ k, zend_hash_find ht k ≠ none →
    has_field ht k NAME_ct ∧ has_field ht k NAME_wt ∧
    (has_field ht k NAME_cpu ↔ xhprof_flags &&& XHPROF_FLAGS_CPU ≠ 0) ∧
    (has_field ht k NAME_mu ↔ xhprof_flags &&& XHPROF_FLAGS_MEMORY ≠ 0) ∧
    (has_field ht k NAME_pmu ↔ xhprof_flags &&& XHPROF_FLAGS_MEMORY ≠ 0)

/-- A running hierarchical session inside `A` called from `main()`, with the
blacklist `{"B"}` and its bitmap. -/
def blacklist_fixture : hp_global_t :=
  hp_filtered_functions_filter_init
    { hier_fixture [mk_entry [65] 0, mk_entry ROOT_SYMBOL 0] with
      filtered_type := 1
      filtered_function_names := some [[66]] }

/-! # Theorems -/

/-! ## The byte lists of the string constants -/

/-- The constants given as byte lists are the bytes of the C string literals. -/
theorem string_constants :
    ROOT_SYMBOL = cstr "main()" ∧ HP_STACK_DELIM = cstr "==>" ∧
    HP_STACK_DELIM_LEN = HP_STACK_DELIM.length ∧
    NAME_ct = cstr "ct" ∧ NAME_wt = cstr "wt" ∧ NAME_cpu = cstr "cpu" ∧
    NAME_mu = cstr "mu" ∧ NAME_pmu = cstr "pmu" ∧
    ([64] : CStr) = cstr "@" ∧ ([65] : CStr) = cstr "A" ∧ ([66] : CStr) = cstr "B" ∧
    ([102, 111, 111] : CStr) = cstr "foo" ∧ ([98, 97, 114] : CStr) = cstr "bar" := by
  decide

/-! ## The function filter: lemmas -/

theorem INDEX_2_BIT_mask (h : Nat) : INDEX_2_BIT h % 256 = 2 ^ (h &&& 7) := by
  have hk : h &&& 7 < 8 := Nat.and_lt_two_pow h (by decide : 7 < 2 ^ 3)
  have hp : 2 ^ (h &&& 7) < 256 := by
    have : 2 ^ (h &&& 7) < 2 ^ 8 := Nat.pow_lt_pow_right (by decide) hk
    simpa using this
  unfold INDEX_2_BIT
  rw [Nat.shiftLeft_eq, Nat.one_mul, Nat.mod_eq_of_lt hp]

theorem and_two_pow_ne_zero (x k : Nat) : x &&& 2 ^ k ≠ 0 ↔ x.testBit k = true := by
  constructor
  · intro h
    obtain ⟨i, hi⟩ := Nat.ne_zero_implies_bit_true h
    rw [Nat.testBit_and, Bool.and_eq_true] at hi
    have : k = i := by
      by_contra hne
      rw [Nat.testBit_two_pow_of_ne hne] at hi
      exact Bool.false_ne_true hi.2
    rw [this]; exact hi.1
  · intro h h0
    have : (x &&& 2 ^ k).testBit k = true := by
      rw [Nat.testBit_and, h, Nat.testBit_two_pow_self]; rfl
    rw [h0, Nat.zero_testBit] at this
    exact Bool.false_ne_true this

theorem filter_bit_iff (f : Nat → Nat) (h : Nat) :
    filter_bit f h ↔ (f (INDEX_2_BYTE h)).testBit (h &&& 7) = true := by
  unfold filter_bit
  rw [INDEX_2_BIT_mask, and_two_pow_ne_zero]

theorem filter_bit_set_self (f : Nat → Nat) (h : Nat) :
    filter_bit (array_set f (INDEX_2_BYTE h) ((f (INDEX_2_BYTE h) ||| INDEX_2_BIT h) % 256)) h := by
  have hk : h &&& 7 < 8 := Nat.and_lt_two_pow h (by decide : 7 < 2 ^ 3)
  rw [filter_bit_iff]
  simp only [array_set, if_true]
  have : (256 : Nat) = 2 ^ 8 := by norm_num
  rw [this, Nat.testBit_mod_two_pow, Nat.testBit_or]
  have h2 : INDEX_2_BIT h = 2 ^ (h &&& 7) := by
    unfold INDEX_2_BIT; rw [Nat.shiftLeft_eq, Nat.one_mul]
  rw [h2, Nat.testBit_two_pow_self]
  simp [hk]

theorem filter_bit_set_other (f : Nat → Nat) (h h' : Nat) (hb : filter_bit f h') :
    filter_bit (array_set f (INDEX_2_BYTE h) ((f (INDEX_2_BYTE h) ||| INDEX_2_BIT h) % 256)) h' := by
  have hk : h' &&& 7 < 8 := Nat.and_lt_two_pow h' (by decide : 7 < 2 ^ 3)
  rw [filter_bit_iff] at hb ⊢
  simp only [array_set]
  by_cases hidx : INDEX_2_BYTE h' = INDEX_2_BYTE h
  · rw [if_pos hidx]
    have : (256 : Nat) = 2 ^ 8 := by norm_num
    rw [this, Nat.testBit_mod_two_pow, Nat.testBit_or, ← hidx, hb]
    simp [hk]
  · rw [if_neg hidx]; exact hb

theorem filter_init_loop_keeps (names : List CStr) :
    ∀ (f : Nat → Nat) (h : Nat), filter_bit f h →
      filter_bit (hp_filtered_functions_filter_init_loop names f) h := by
  induction names with
  | nil => intro f h hb; exact hb
  | cons str names ih =>
    intro f h hb
    simp only [hp_filtered_functions_filter_init_loop]
    exact ih _ _ (filter_bit_set_other f (hp_inline_hash str) h hb)

theorem filter_init_loop_sets (names : List CStr) :
    ∀ (f : Nat → Nat), ∀ name ∈ names,
      filter_bit (hp_filtered_functions_filter_init_loop names f) (hp_inline_hash name) := by
  induction names with
  | nil => intro f name hn; cases hn
  | cons str names ih =>
    intro f name hn
    simp only [hp_filtered_functions_filter_init_loop]
    rcases List.mem_cons.mp hn with rfl | hn
    · exact filter_init_loop_keeps names _ _ (filter_bit_set_self f (hp_inline_hash name))
    · exact ih _ name hn

theorem filter_scan_eq (names : List CStr) (s : CStr) :
    hp_filter_entry_scan names s 0 = if s ∈ names then 1 else 0 := by
  induction names with
  | nil => simp [hp_filter_entry_scan]
  | cons name names ih =>
    simp only [hp_filter_entry_scan, List.mem_cons]
    by_cases h : s = name
    · simp [h]
    · simp [h, ih]

theorem linear_scan_spec_iff (names : List CStr) (s : CStr) :
    linear_scan_spec names s = true ↔ s ∈ names := by
  induction names with
  | nil => simp [linear_scan_spec]
  | cons name names ih =>
    simp only [linear_scan_spec, List.mem_cons]
    by_cases h : s = name
    · simp [h]
    · simp [h, ih]

/-- With the bits of all names of `names` set, the value of `filter` after the
gated scan is 1 when `s` is in the list and 0 when it is not. -/
theorem filter_match_eq (g : hp_global_t) (names : List CStr) (s : CStr)
    (hbits : ∀ name ∈ names, hp_filtered_functions_filter_collision g (hp_inline_hash name) ≠ 0) :
    hp_filter_entry_match g names (hp_inline_hash s) s = if s ∈ names then 1 else 0 := by
  unfold hp_filter_entry_match
  by_cases hc : hp_filtered_functions_filter_collision g (hp_inline_hash s) ≠ 0
  · rw [if_pos hc, filter_scan_eq]
  · rw [if_neg hc]
    have : s ∉ names := fun hm => hc (hbits s hm)
    rw [if_neg this]

theorem filter_init_bits (g : hp_global_t) (names : List CStr)
    (hn : g.filtered_function_names = some names) :
    (hp_filtered_functions_filter_init g).filtered_function_names = some names ∧
    (hp_filtered_functions_filter_init g).filtered_type = g.filtered_type ∧
    ∀ name ∈ names, hp_filtered_functions_filter_collision
      (hp_filtered_functions_filter_init g) (hp_inline_hash name) ≠ 0 := by
  unfold hp_filtered_functions_filter_init
  rw [hn]
  refine ⟨rfl, rfl, ?_⟩
  intro name hm
  exact filter_init_loop_sets names g.filtered_function_filter name hm

/-! ## The function filter: claims C4, C5, C6 -/

/-- C4. In blacklist mode (`filtered_type = 1`), with the bitmap built by
`hp_filtered_functions_filter_init` from the name list `L` (on top of whatever
bits the bitmap held before), `hp_filter_entry` reports a symbol `s` as
filtered exactly when `s` is string-equal to an element of `L`. -/
theorem C4_blacklist_filters_exactly_the_list (g : hp_global_t) (L : List CStr) (s : CStr)
    (htype : g.filtered_type = 1) (hnames : g.filtered_function_names = some L) :
    hp_filter_entry (hp_filtered_functions_filter_init g) (hp_inline_hash s) s = true ↔ s ∈ L := by
  obtain ⟨hn, ht, hbits⟩ := filter_init_bits g L hnames
  unfold hp_filter_entry
  rw [hn]
  simp only [hp_filter_entry_work, ht, htype]
  rw [filter_match_eq _ L s hbits]
  by_cases hm : s ∈ L <;> simp [hm]

/-- C4, the example of the spec: with the blacklist `{"B"}`, `B` is filtered
and `A` and `C` are tracked. -/
theorem C4_blacklist_witness :
    (filter_fixture 1 [[66]]).filtered_type = 1 ∧
    (filter_fixture 1 [[66]]).filtered_function_names = some [[66]] ∧
    (hp_filter_entry (hp_filtered_functions_filter_init (filter_fixture 1 [[66]]))
      (hp_inline_hash [66]) [66] = true ↔ [66] ∈ [[66]]) ∧
    hp_filter_entry (hp_filtered_functions_filter_init (filter_fixture 1 [[66]]))
      (hp_inline_hash [66]) [66] = true ∧
    hp_filter_entry (hp_filtered_functions_filter_init (filter_fixture 1 [[66]]))
      (hp_inline_hash [65]) [65] = false ∧
    hp_filter_entry (hp_filtered_functions_filter_init (filter_fixture 1 [[66]]))
      (hp_inline_hash [67]) [67] = false :=
  ⟨rfl, rfl, C4_blacklist_filters_exactly_the_list (filter_fixture 1 [[66]]) [[66]] [66] rfl rfl,
    by decide, by decide, by decide⟩

/-- C5. In whitelist mode (`filtered_type = 2`) with a non-null name list `L`
and the bitmap built from it, a symbol `s` is tracked (`hp_filter_entry` gives
0) exactly when `s` is string-equal to an element of `L` or is the root symbol
`"main()"`. -/
theorem C5_whitelist_tracks_list_and_root (g : hp_global_t) (L : List CStr) (s : CStr)
    (htype : g.filtered_type = 2) (hnames : g.filtered_function_names = some L) :
    hp_filter_entry (hp_filtered_functions_filter_init g) (hp_inline_hash s) s = false ↔
      (s ∈ L ∨ s = ROOT_SYMBOL) := by
  obtain ⟨hn, ht, hbits⟩ := filter_init_bits g L hnames
  unfold hp_filter_entry
  rw [hn]
  simp only [hp_filter_entry_work, ht, htype]
  rw [filter_match_eq _ L s hbits]
  by_cases hr : s = ROOT_SYMBOL
  · simp [hr]
  · by_cases hm : s ∈ L <;> simp [hm, hr]

/-- C5, the example of the spec: with the whitelist `{"A"}`, `A` and the root
symbol are tracked although the root is not in the list, and `B` is not. -/
theorem C5_whitelist_witness :
    (filter_fixture 2 [[65]]).filtered_type = 2 ∧
    (filter_fixture 2 [[65]]).filtered_function_names = some [[65]] ∧
    (hp_filter_entry (hp_filtered_functions_filter_init (filter_fixture 2 [[65]]))
      (hp_inline_hash ROOT_SYMBOL) ROOT_SYMBOL = false ↔
      (ROOT_SYMBOL ∈ [[65]] ∨ ROOT_SYMBOL = ROOT_SYMBOL)) ∧
    ROOT_SYMBOL ∉ [[65]] ∧
    hp_filter_entry (hp_filtered_functions_filter_init (filter_fixture 2 [[65]]))
      (hp_inline_hash [65]) [65] = false ∧
    hp_filter_entry (hp_filtered_functions_filter_init (filter_fixture 2 [[65]]))
      (hp_inline_hash [66]) [66] = true :=
  ⟨rfl, rfl,
    C5_whitelist_tracks_list_and_root (filter_fixture 2 [[65]]) [[65]] ROOT_SYMBOL rfl rfl,
    by decide, by decide, by decide⟩

/-- C6. The bloom pre-check never changes the answer: when the bitmap holds at
least the bits of the hashes of the names of `L`, the bitmap-gated exact scan
of `hp_filter_entry_work` finds a match for `s` exactly when a plain linear
scan of `L` finds one. -/
theorem C6_bloom_gate_agrees_with_linear_scan (g : hp_global_t) (L : List CStr) (s : CStr)
    (hbits : ∀ name ∈ L,
      hp_filtered_functions_filter_collision g (hp_inline_hash name) ≠ 0) :
    hp_filter_entry_match g L (hp_inline_hash s) s ≠ 0 ↔ linear_scan_spec L s = true := by
  rw [filter_match_eq g L s hbits, linear_scan_spec_iff]
  by_cases hm : s ∈ L <;> simp [hm]

/-- C6 at the list `{"B", "foo"}`, on a bitmap that `filter_init` filled over
bits left by an earlier list `{"A"}`. -/
theorem C6_bloom_gate_witness :
    (∀ name ∈ [[66], [102, 111, 111]],
      hp_filtered_functions_filter_collision
        (hp_filtered_functions_filter_init
          { hp_filtered_functions_filter_init (filter_fixture 1 [[65]]) with
            filtered_function_names := some [[66], [102, 111, 111]] })
        (hp_inline_hash name) ≠ 0) ∧
    (hp_filter_entry_match
        (hp_filtered_functions_filter_init
          { hp_filtered_functions_filter_init (filter_fixture 1 [[65]]) with
            filtered_function_names := some [[66], [102, 111, 111]] })
        [[66], [102, 111, 111]] (hp_inline_hash [102, 111, 111]) [102, 111, 111] ≠ 0 ↔
      linear_scan_spec [[66], [102, 111, 111]] [102, 111, 111] = true) :=
  ⟨by decide, C6_bloom_gate_agrees_with_linear_scan _ _ _ (by decide)⟩

/-! ## The stats arrays: lemmas -/

theorem find_update_same {α : Type} (ht : List (CStr × α)) (k : CStr) (v : α) :
    zend_hash_find (zend_hash_update ht k v) k = some v := by
  induction ht with
  | nil => simp [zend_hash_update, zend_hash_find]
  | cons p rest ih =>
    obtain ⟨k0, w⟩ := p
    by_cases h : k0 = k
    · simp [zend_hash_update, zend_hash_find, h]
    · simp [zend_hash_update, zend_hash_find, h, ih]

theorem find_update_other {α : Type} (ht : List (CStr × α)) (k k' : CStr) (v : α)
    (hne : k' ≠ k) :
    zend_hash_find (zend_hash_update ht k v) k' = zend_hash_find ht k' := by
  induction ht with
  | nil => simp [zend_hash_update, zend_hash_find, Ne.symm hne]
  | cons p rest ih =>
    obtain ⟨k0, w⟩ := p
    by_cases h : k0 = k
    · subst h
      simp [zend_hash_update, zend_hash_find, Ne.symm hne]
    · by_cases h' : k0 = k'
      · subst h'
        simp [zend_hash_update, zend_hash_find, h]
      · simp [zend_hash_update, zend_hash_find, h, h', ih]

/-- One `hp_inc_count` on a counts array: the field named gets the delta
added (from 0 when it is new), the other fields stay. -/
theorem hp_inc_count_counts (c : List (CStr × Int)) (name : CStr) (count : Int) :
    ∃ c', hp_inc_count (.counts c) name count = .counts c' ∧
      zend_hash_find c' name = some ((zend_hash_find c name).getD 0 + count) ∧
      ∀ n, n ≠ name → zend_hash_find c' n = zend_hash_find c n := by
  cases hf : zend_hash_find c name with
  | none =>
    refine ⟨zend_hash_update c name count, by simp [hp_inc_count, hf], ?_, ?_⟩
    · simp [find_update_same]
    · intro n hn; exact find_update_other c name n count hn
  | some v =>
    refine ⟨zend_hash_update c name (v + count), by simp [hp_inc_count, hf], ?_, ?_⟩
    · simp [find_update_same]
    · intro n hn; exact find_update_other c name n (v + count) hn

theorem delta_sum_eq_zero (name : CStr) (calls : List (CStr × Int))
    (hall : ∀ p ∈ calls, p.1 ≠ name) : delta_sum name calls = 0 := by
  induction calls with
  | nil => rfl
  | cons q calls ih =>
    obtain ⟨m, e⟩ := q
    have hm : m ≠ name := hall (m, e) (List.mem_cons_self _ _)
    have := ih (fun p hp => hall p (List.mem_cons_of_mem _ hp))
    simp [delta_sum, hm, this]

theorem delta_sum_append (name : CStr) (xs ys : List (CStr × Int)) :
    delta_sum name (xs ++ ys) = delta_sum name xs + delta_sum name ys := by
  induction xs with
  | nil => simp [delta_sum]
  | cons p xs ih => obtain ⟨n, d⟩ := p; simp [delta_sum, ih, add_assoc]

/-- The value of a field after a sequence of `hp_inc_count` calls. -/
theorem hp_inc_count_seq_field (calls : List (CStr × Int)) :
    ∀ (c : List (CStr × Int)) (name : CStr),
      ∃ c', hp_inc_count_seq (.counts c) calls = .counts c' ∧
        zend_hash_find c' name =
          if ∀ p ∈ calls, p.1 ≠ name then zend_hash_find c name
          else some ((zend_hash_find c name).getD 0 + delta_sum name calls) := by
  induction calls with
  | nil => intro c name; exact ⟨c, rfl, by simp⟩
  | cons p calls ih =>
    intro c name
    obtain ⟨n, d⟩ := p
    obtain ⟨c1, h1, hsame, hother⟩ := hp_inc_count_counts c n d
    obtain ⟨c2, h2, hf⟩ := ih c1 name
    refine ⟨c2, ?_, ?_⟩
    · simp only [hp_inc_count_seq, List.foldl_cons] at h2 ⊢
      rw [h1]; exact h2
    · rw [hf]
      by_cases hn : n = name
      · subst hn
        have hnot : ¬ ∀ p ∈ (n, d) :: calls, p.1 ≠ n := by
          intro h; exact h (n, d) (List.mem_cons_self _ _) rfl
        rw [if_neg hnot, hsame]
        by_cases hall : ∀ p ∈ calls, p.1 ≠ n
        · rw [if_pos hall]
          have hz : delta_sum n calls = 0 := delta_sum_eq_zero n calls hall
          simp [delta_sum, hz]
        · rw [if_neg hall]
          simp [delta_sum, add_assoc]
      · rw [hother name (Ne.symm hn)]
        by_cases hall : ∀ p ∈ calls, p.1 ≠ name
        · have hall' : ∀ p ∈ (n, d) :: calls, p.1 ≠ name := by
            intro p hp
            rcases List.mem_cons.mp hp with rfl | hp
            · exact hn
            · exact hall p hp
          rw [if_pos hall, if_pos hall']
        · have hall' : ¬ ∀ p ∈ (n, d) :: calls, p.1 ≠ name := by
            intro h; exact hall (fun p hp => h p (List.mem_cons_of_mem _ hp))
          rw [if_neg hall, if_neg hall']
          simp [delta_sum, hn]

theorem counts_only_update (ht : hp_array) (k : CStr) (c : List (CStr × Int))
    (h : counts_only ht) : counts_only (zend_hash_update ht k (.counts c)) := by
  intro k' s
  by_cases hk : k' = k
  · subst hk; rw [find_update_same]; simp
  · rw [find_update_other ht k k' _ hk]; exact h k' s

/-- The effect of `hp_inc_count` through a pointer into an array of counts
arrays, seen field by field. -/
theorem hp_inc_count_at_spec (ht : hp_array) (symbol name : CStr) (count : Int)
    (h : counts_only ht) (hp : zend_hash_find ht symbol ≠ none) :
    counts_only (hp_inc_count_at ht symbol name count) ∧
    zend_hash_find (hp_inc_count_at ht symbol name count) symbol ≠ none ∧
    hp_stat_field (some (hp_inc_count_at ht symbol name count)) symbol name =
      some ((hp_stat_field (some ht) symbol name).getD 0 + count) ∧
    ∀ k n, (k ≠ symbol ∨ n ≠ name) →
      hp_stat_field (some (hp_inc_count_at ht symbol name count)) k n =
        hp_stat_field (some ht) k n := by
  cases hf : zend_hash_find ht symbol with
  | none => exact absurd hf hp
  | some v =>
    cases v with
    | sample s => exact absurd hf (h symbol s)
    | counts c =>
      obtain ⟨c', hc', hsame, hother⟩ := hp_inc_count_counts c name count
      have hat : hp_inc_count_at ht symbol name count =
          zend_hash_update ht symbol (.counts c') := by
        simp [hp_inc_count_at, hf, hc']
      rw [hat]
      refine ⟨counts_only_update ht symbol c' h, ?_, ?_, ?_⟩
      · rw [find_update_same]; simp
      · simp [hp_stat_field, find_update_same, hf, hsame]
      · intro k n hkn
        by_cases hk : k = symbol
        · subst hk
          have hn : n ≠ name := by
            rcases hkn with h1 | h1
            · exact absurd rfl h1
            · exact h1
          simp [hp_stat_field, find_update_same, hf, hother n hn]
        · simp [hp_stat_field, find_update_other ht symbol k _ hk]

/-- The lookup-or-create of `hp_hash_lookup` on an array of counts arrays: the
symbol is present afterwards and no field has changed. -/
theorem hp_hash_lookup_spec (ht : hp_array) (symbol : CStr) (h : counts_only ht) :
    ∃ ht0 v, hp_hash_lookup (some ht) symbol = some (ht0, v) ∧ counts_only ht0 ∧
      zend_hash_find ht0 symbol ≠ none ∧
      ∀ k n, hp_stat_field (some ht0) k n = hp_stat_field (some ht) k n := by
  cases hf : zend_hash_find ht symbol with
  | some v =>
    refine ⟨ht, v, by simp [hp_hash_lookup, hf], h, by simp [hf], fun _ _ => rfl⟩
  | none =>
    refine ⟨zend_hash_update ht symbol (.counts []), .counts [],
      by simp [hp_hash_lookup, hf], counts_only_update ht symbol [] h, ?_, ?_⟩
    · rw [find_update_same]; simp
    · intro k n
      by_cases hk : k = symbol
      · subst hk
        simp [hp_stat_field, find_update_same, hf, zend_hash_find]
      · simp [hp_stat_field, find_update_other ht symbol k _ hk]

theorem layers_only_layers (g : hp_global_t) (wt : Int) :
    ∃ lc, hp_mode_shared_endfn_layers g wt = { g with layers_count := lc } := by
  unfold hp_mode_shared_endfn_layers
  split
  · exact ⟨g.layers_count, rfl⟩
  · split
    · exact ⟨g.layers_count, rfl⟩
    · split
      · exact ⟨g.layers_count, rfl⟩
      · split
        · exact ⟨g.layers_count, rfl⟩
        · exact ⟨_, rfl⟩

theorem stats_after_inc (ht ht1 : hp_array) (k name : CStr) (ct wt : Option Int) (count : Int)
    (h : stats_after ht ht1 k ct wt) (h1 : name ≠ NAME_ct) (h2 : name ≠ NAME_wt) :
    stats_after ht (hp_inc_count_at ht1 k name count) k ct wt := by
  obtain ⟨hco, hp, hct, hwt, ho⟩ := h
  obtain ⟨hco', hp', _, ho'⟩ := hp_inc_count_at_spec ht1 k name count hco hp
  refine ⟨hco', hp', ?_, ?_, ?_⟩
  · rw [ho' k NAME_ct (Or.inr (Ne.symm h1))]; exact hct
  · rw [ho' k NAME_wt (Or.inr (Ne.symm h2))]; exact hwt
  · intro k' n hk'
    rw [ho' k' n (Or.inl hk')]; exact ho k' n hk'

theorem hp_stats_inc_eq (g : hp_global_t) (ht : hp_array) (symbol name : CStr) (count : Int)
    (h : g.stats_count = some ht) :
    hp_stats_inc g symbol name count =
      { g with stats_count := some (hp_inc_count_at ht symbol name count) } := by
  simp [hp_stats_inc, h]

/-- One run of the hierarchical end callback in a session whose stats array
holds counts arrays and whose frequencies are measured: it returns, changes
only the stats and the layers array, and in the stats array adds 1 to `ct` and
the wall time to `wt` of the key of the top frame, leaving every other key as
it was. -/
theorem hp_mode_hier_endfn_cb_spec (g : hp_global_t) (env : hp_env) (ht : hp_array)
    (fr : List Nat) (k : CStr)
    (hst : g.stats_count = some ht) (hco : counts_only ht)
    (hfr : g.cpu_frequencies = some fr)
    (hk : hp_function_stack_string g.entries 2 SCRATCH_BUF_LEN = some k) :
    ∃ ht1 lc, hp_mode_hier_endfn_cb g env =
        some { g with stats_count := some ht1, layers_count := lc } ∧
      stats_after ht ht1 k (some ((hp_stat_field (some ht) k NAME_ct).getD 0 + 1))
        (some ((hp_stat_field (some ht) k NAME_wt).getD 0 + env.wt)) := by
  obtain ⟨ht0, v, hl, hco0, hp0, hf0⟩ := hp_hash_lookup_spec ht k hco
  obtain ⟨hcoA, hpA, hctA, hoA⟩ := hp_inc_count_at_spec ht0 k NAME_ct 1 hco0 hp0
  obtain ⟨hcoB, hpB, hwtB, hoB⟩ :=
    hp_inc_count_at_spec (hp_inc_count_at ht0 k NAME_ct 1) k NAME_wt env.wt hcoA hpA
  have hB : stats_after ht (hp_inc_count_at (hp_inc_count_at ht0 k NAME_ct 1) k NAME_wt env.wt) k
      (some ((hp_stat_field (some ht) k NAME_ct).getD 0 + 1))
      (some ((hp_stat_field (some ht) k NAME_wt).getD 0 + env.wt)) := by
    refine ⟨hcoB, hpB, ?_, ?_, ?_⟩
    · rw [hoB k NAME_ct (Or.inr (by decide)), hctA, hf0]
    · rw [hwtB, hoA k NAME_wt (Or.inr (by decide)), hf0]
    · intro k' n hk'
      rw [hoB k' n (Or.inl hk'), hoA k' n (Or.inl hk'), hf0]
  cases g with
  | mk enabled ever_enabled layers_count layers_definition stats_count profiler_level entries
      entry_free_list mode_cb last_sample_time last_sample_tsc sampling_interval_tsc
      cpu_frequencies cpu_num cur_cpu_id xhprof_flags func_hash_counters filtered_type
      filtered_function_names filtered_function_filter argument_function_names
      argument_function_filter =>
  simp only at hst hfr hk
  subst hst hfr
  obtain ⟨lc, hlc⟩ := layers_only_layers
    { enabled := enabled, ever_enabled := ever_enabled, layers_count := layers_count,
      layers_definition := layers_definition,
      stats_count := some (hp_inc_count_at (hp_inc_count_at ht0 k NAME_ct 1) k NAME_wt env.wt),
      profiler_level := profiler_level, entries := entries, entry_free_list := entry_free_list,
      mode_cb := mode_cb, last_sample_time := last_sample_time,
      last_sample_tsc := last_sample_tsc, sampling_interval_tsc := sampling_interval_tsc,
      cpu_frequencies := some fr, cpu_num := cpu_num, cur_cpu_id := cur_cpu_id,
      xhprof_flags := xhprof_flags, func_hash_counters := func_hash_counters,
      filtered_type := filtered_type, filtered_function_names := filtered_function_names,
      filtered_function_filter := filtered_function_filter,
      argument_function_names := argument_function_names,
      argument_function_filter := argument_function_filter }
    env.wt
  cases entries with
  | nil => simp [hp_function_stack_string] at hk
  | cons top prev =>
    have hC := stats_after_inc ht _ k NAME_cpu _ _
      (get_us_interval top.ru_start_hprof.ru_utime env.ru.ru_utime +
        get_us_interval top.ru_start_hprof.ru_stime env.ru.ru_stime) hB (by decide) (by decide)
    have hM1 := stats_after_inc ht _ k NAME_mu _ _ (env.mu - top.mu_start_hprof) hB
      (by decide) (by decide)
    have hM2 := stats_after_inc ht _ k NAME_pmu _ _ (env.pmu - top.pmu_start_hprof) hM1
      (by decide) (by decide)
    have hCM1 := stats_after_inc ht _ k NAME_mu _ _ (env.mu - top.mu_start_hprof) hC
      (by decide) (by decide)
    have hCM2 := stats_after_inc ht _ k NAME_pmu _ _ (env.pmu - top.pmu_start_hprof) hCM1
      (by decide) (by decide)
    by_cases hcpu : xhprof_flags &&& XHPROF_FLAGS_CPU ≠ 0
    · by_cases hmem : xhprof_flags &&& XHPROF_FLAGS_MEMORY ≠ 0
      · refine ⟨_, lc, ?_, hCM2⟩
        simp only [hp_mode_hier_endfn_cb, hk, hp_mode_shared_endfn_cb, hl, hlc]
        simp only [hcpu, hmem, hp_stats_inc, ne_eq, not_false_eq_true, if_true]
      · refine ⟨_, lc, ?_, hC⟩
        simp only [hp_mode_hier_endfn_cb, hk, hp_mode_shared_endfn_cb, hl, hlc]
        simp only [hcpu, hmem, hp_stats_inc, ne_eq, not_false_eq_true, if_true, if_false]
    · by_cases hmem : xhprof_flags &&& XHPROF_FLAGS_MEMORY ≠ 0
      · refine ⟨_, lc, ?_, hM2⟩
        simp only [hp_mode_hier_endfn_cb, hk, hp_mode_shared_endfn_cb, hl, hlc]
        simp only [hcpu, hmem, hp_stats_inc, ne_eq, not_false_eq_true, if_true, if_false]
      · refine ⟨_, lc, ?_, hB⟩
        simp only [hp_mode_hier_endfn_cb, hk, hp_mode_shared_endfn_cb, hl, hlc]
        simp only [hcpu, hmem, hp_stats_inc, ne_eq, not_false_eq_true, if_true, if_false]

/-! ## Additive statistics: claim C3 -/

theorem counts_only_nil : counts_only [] := by
  intro k s; simp [zend_hash_find]

/-- C3. Stats accumulate additively.  After any sequence of `hp_inc_count`
calls on a new counts array, the field `name` is absent when no call named it
and otherwise holds the sum of the deltas passed for it.  And when the
hierarchical end callback runs twice on frames with the same key `k`, a key
that was not in the stats array before, the entry of `k` ends with `ct = 2`
and `wt` the sum of the two wall times (25 for 10 and 15). -/
theorem C3_stats_accumulate_additively (calls : List (CStr × Int)) (name : CStr)
    (g : hp_global_t) (env1 env2 : hp_env) (ht : hp_array) (fr : List Nat) (k : CStr)
    (entries2 : List hp_entry_t)
    (hst : g.stats_count = some ht) (hco : counts_only ht)
    (hfr : g.cpu_frequencies = some fr)
    (hk : hp_function_stack_string g.entries 2 SCRATCH_BUF_LEN = some k)
    (hk2 : hp_function_stack_string entries2 2 SCRATCH_BUF_LEN = some k)
    (hnew : zend_hash_find ht k = none) :
    (∃ c, hp_inc_count_seq (.counts []) calls = .counts c ∧
      zend_hash_find c name =
        if ∀ p ∈ calls, p.1 ≠ name then none else some (delta_sum name calls)) ∧
    (∃ g1 g2, hp_mode_hier_endfn_cb g env1 = some g1 ∧
      hp_mode_hier_endfn_cb { g1 with entries := entries2 } env2 = some g2 ∧
      hp_stat_field g2.stats_count k NAME_ct = some 2 ∧
      hp_stat_field g2.stats_count k NAME_wt = some (env1.wt + env2.wt)) := by
  constructor
  · obtain ⟨c, hc, hf⟩ := hp_inc_count_seq_field calls [] name
    refine ⟨c, hc, ?_⟩
    rw [hf]
    simp [zend_hash_find]
  · obtain ⟨ht1, lc1, h1, hco1, _, hct1, hwt1, _⟩ :=
      hp_mode_hier_endfn_cb_spec g env1 ht fr k hst hco hfr hk
    obtain ⟨ht2, lc2, h2, _, _, hct2, hwt2, _⟩ :=
      hp_mode_hier_endfn_cb_spec
        { { g with stats_count := some ht1, layers_count := lc1 } with entries := entries2 }
        env2 ht1 fr k rfl hco1 hfr hk2
    refine ⟨_, _, h1, h2, ?_, ?_⟩
    · have h0 : hp_stat_field (some ht) k NAME_ct = none := by
        simp [hp_stat_field, hnew]
      show hp_stat_field (some ht2) k NAME_ct = some 2
      rw [hct2, hct1, h0]; rfl
    · have h0 : hp_stat_field (some ht) k NAME_wt = none := by
        simp [hp_stat_field, hnew]
      show hp_stat_field (some ht2) k NAME_wt = some (env1.wt + env2.wt)
      rw [hwt2, hwt1, h0]; simp

set_option maxRecDepth 100000 in
/-- C3 on the calls `ct += 1, wt += 10, ct += 1, wt += 15`, and on two calls of
`foo` from `main()` with wall times 10 and 15: `ct = 2` and `wt = 25`. -/
theorem C3_stats_accumulate_witness :
    delta_sum NAME_wt [(NAME_ct, 1), (NAME_wt, 10), (NAME_ct, 1), (NAME_wt, 15)] = 25 ∧
    (env_fixture 100 10).wt + (env_fixture 200 15).wt = 25 ∧
    hp_function_stack_string [mk_entry [102, 111, 111] 0, mk_entry ROOT_SYMBOL 0] 2
      SCRATCH_BUF_LEN = some (ROOT_SYMBOL ++ HP_STACK_DELIM ++ [102, 111, 111]) ∧
    ((∃ c, hp_inc_count_seq (.counts [])
        [(NAME_ct, 1), (NAME_wt, 10), (NAME_ct, 1), (NAME_wt, 15)] = .counts c ∧
      zend_hash_find c NAME_wt =
        if ∀ p ∈ [(NAME_ct, (1 : Int)), (NAME_wt, 10), (NAME_ct, 1), (NAME_wt, 15)],
            p.1 ≠ NAME_wt then none
        else some (delta_sum NAME_wt
          [(NAME_ct, 1), (NAME_wt, 10), (NAME_ct, 1), (NAME_wt, 15)])) ∧
    (∃ g1 g2,
      hp_mode_hier_endfn_cb
        (hier_fixture [mk_entry [102, 111, 111] 0, mk_entry ROOT_SYMBOL 0])
        (env_fixture 100 10) = some g1 ∧
      hp_mode_hier_endfn_cb
        { g1 with entries := [mk_entry [102, 111, 111] 0, mk_entry ROOT_SYMBOL 0] }
        (env_fixture 200 15) = some g2 ∧
      hp_stat_field g2.stats_count (ROOT_SYMBOL ++ HP_STACK_DELIM ++ [102, 111, 111]) NAME_ct
        = some 2 ∧
      hp_stat_field g2.stats_count (ROOT_SYMBOL ++ HP_STACK_DELIM ++ [102, 111, 111]) NAME_wt
        = some ((env_fixture 100 10).wt + (env_fixture 200 15).wt))) :=
  ⟨by decide, by decide, by decide,
   C3_stats_accumulate_additively
    [(NAME_ct, 1), (NAME_wt, 10), (NAME_ct, 1), (NAME_wt, 15)] NAME_wt
    (hier_fixture [mk_entry [102, 111, 111] 0, mk_entry ROOT_SYMBOL 0])
    (env_fixture 100 10) (env_fixture 200 15) [] [2400]
    (ROOT_SYMBOL ++ HP_STACK_DELIM ++ [102, 111, 111])
    [mk_entry [102, 111, 111] 0, mk_entry ROOT_SYMBOL 0]
    rfl counts_only_nil rfl (by decide) (by decide) rfl⟩

/-! ## Character buffers: lemmas -/

theorem mem_write_length (m : List Nat) (off : Nat) (bs : List Nat) :
    (mem_write m off bs).length = m.length := by
  unfold mem_write
  simp only [List.length_take, List.length_append, List.length_drop]
  omega

/-- The bytes before the offset written to stay. -/
theorem mem_write_take_before (m : List Nat) (off : Nat) (bs : List Nat) (p : Nat)
    (hp : p ≤ off) : (mem_write m off bs).take p = m.take p := by
  unfold mem_write
  rw [List.take_take]
  by_cases hm : off ≤ m.length
  · have h1 : min p m.length = p := by omega
    rw [h1, List.append_assoc, List.take_append_of_le_length (by simp; omega), List.take_take]
    congr 1; omega
  · have h2 : m.take off = m := List.take_of_length_le (by omega)
    have h3 : m.drop (off + bs.length) = [] := List.drop_of_length_le (by omega)
    rw [h2, h3, List.append_nil]
    by_cases hpm : p ≤ m.length
    · have h1 : min p m.length = p := by omega
      rw [h1, List.take_append_of_le_length hpm]
    · have h1 : min p m.length = m.length := by omega
      rw [h1, List.take_left']
      · rw [List.take_of_length_le (by omega)]
      · rfl

/-- The bytes written are in the buffer when they fit. -/
theorem mem_write_take_written (m : List Nat) (off : Nat) (bs : List Nat)
    (h : off + bs.length ≤ m.length) :
    (mem_write m off bs).take (off + bs.length) = m.take off ++ bs := by
  unfold mem_write
  rw [List.take_take]
  have h1 : min (off + bs.length) m.length = off + bs.length := by omega
  rw [h1]
  have h2 : (m.take off ++ bs).length = off + bs.length := by
    simp only [List.length_append, List.length_take]; omega
  rw [← h2, List.take_left']
  rfl

/-- The bytes behind the bytes written stay. -/
theorem mem_write_drop_after (m : List Nat) (off : Nat) (bs : List Nat) (p : Nat)
    (hp : off + bs.length ≤ p) : (mem_write m off bs).drop p = m.drop p := by
  unfold mem_write
  by_cases hm : p ≤ m.length
  · have hlen : (m.take off ++ bs ++ m.drop (off + bs.length)).length = m.length := by
      simp only [List.length_take, List.length_append, List.length_drop]; omega
    rw [List.take_of_length_le (by omega)]
    have h2 : (m.take off ++ bs).length = off + bs.length := by
      simp only [List.length_append, List.length_take]; omega
    have h3 : p = (m.take off ++ bs).length + (p - (off + bs.length)) := by omega
    rw [h3, List.drop_append, List.drop_drop, h2]
  · rw [List.drop_of_length_le (by simp only [List.length_take]; omega),
      List.drop_of_length_le (by omega)]

/-- The string at `off` when the bytes there are `s` and a terminator. -/
theorem cstr_at_of_take (m : List Nat) (off : Nat) (s : CStr) (hs : ∀ b ∈ s, b ≠ 0)
    (h : (m.drop off).take (s.length + 1) = s ++ [0]) : cstr_at m off = s := by
  unfold cstr_at
  have h1 : m.drop off = (m.drop off).take (s.length + 1) ++ (m.drop off).drop (s.length + 1) :=
    (List.take_append_drop _ _).symm
  rw [h1, h, List.append_assoc, List.takeWhile_append_of_pos]
  · simp [List.takeWhile]
  · intro b hb; simpa using hs b hb


/-- The text of `%d` holds digits only. -/
theorem fmt_d_loop_digits (fuel : Nat) :
    ∀ (n : Nat) (acc : List Nat), (∀ b ∈ acc, b ≠ 0 ∧ b < 256) →
      ∀ b ∈ fmt_d_loop fuel n acc, b ≠ 0 ∧ b < 256 := by
  induction fuel with
  | zero => intro n acc h; exact h
  | succ fuel ih =>
    intro n acc h
    have hacc : ∀ b ∈ (48 + n % 10) :: acc, b ≠ 0 ∧ b < 256 := by
      intro b hb
      rcases List.mem_cons.mp hb with rfl | hb
      · constructor <;> omega
      · exact h b hb
    simp only [fmt_d_loop]
    split
    · exact hacc
    · exact ih _ _ hacc

theorem fmt_d_wf (n : Nat) : CStr.wf (fmt_d n) := by
  intro b hb
  exact fmt_d_loop_digits (n + 1) n [] (by simp) b hb

/-- The text printed for an entry with a well-formed name is well formed, and
not empty when the name is not. -/
theorem hp_entry_text_wf (e : hp_entry_t) (h : CStr.wf e.name_hprof) :
    CStr.wf (hp_entry_text e) := by
  unfold hp_entry_text
  split
  · intro b hb
    rcases List.mem_append.mp hb with hb | hb
    · rcases List.mem_append.mp hb with hb | hb
      · exact h b hb
      · simp at hb; subst hb; constructor <;> omega
    · exact fmt_d_wf _ b hb
  · exact h

theorem hp_entry_text_ne_nil (e : hp_entry_t) (h : e.name_hprof ≠ []) :
    hp_entry_text e ≠ [] := by
  unfold hp_entry_text
  split
  · simp
  · exact h

/-- The function `hp_get_entry_name` in a buffer with room for the whole text: the text and
a terminator stand at `off`, the bytes before `off` and from
`off + result_len` on are as before. -/
theorem hp_get_entry_name_fits (e : hp_entry_t) (m : List Nat) (off rl : Nat)
    (hwf : CStr.wf (hp_entry_text e)) (hne : hp_entry_text e ≠ [])
    (hfit : (hp_entry_text e).length + 1 ≤ rl) (hm : off + rl ≤ m.length) :
    (hp_get_entry_name e m off rl).1 = (hp_entry_text e).length ∧
    (hp_get_entry_name e m off rl).2.length = m.length ∧
    (hp_get_entry_name e m off rl).2.take (off + (hp_entry_text e).length + 1) =
      m.take off ++ hp_entry_text e ++ [0] ∧
    (hp_get_entry_name e m off rl).2.drop (off + rl) = m.drop (off + rl) := by
  have hpos : 0 < (hp_entry_text e).length := List.length_pos.mpr hne
  have hrl : ¬ rl ≤ 1 := by omega
  have hsz : ¬ rl = 0 := by omega
  have htake : (hp_entry_text e).take (rl - 1) = hp_entry_text e :=
    List.take_of_length_le (by omega)
  have hE : hp_get_entry_name e m off rl =
      (strlen (mem_write (mem_write m off (hp_entry_text e ++ [0])) (off + (rl - 1)) [0]) off,
       mem_write (mem_write m off (hp_entry_text e ++ [0])) (off + (rl - 1)) [0]) := by
    simp only [hp_get_entry_name, if_neg hrl, snprintf, if_neg hsz, htake]
  rw [hE]
  set m1 := mem_write m off (hp_entry_text e ++ [0]) with hm1
  set m2 := mem_write m1 (off + (rl - 1)) [0] with hm2
  have hl1 : m1.length = m.length := mem_write_length _ _ _
  have hl2 : m2.length = m.length := by rw [hm2, mem_write_length, hl1]
  have hw1 : m1.take (off + (hp_entry_text e).length + 1) = m.take off ++ hp_entry_text e ++ [0] := by
    have := mem_write_take_written m off (hp_entry_text e ++ [0])
      (by simp only [List.length_append, List.length_singleton]; omega)
    simp only [List.length_append, List.length_singleton] at this
    rw [← List.append_assoc] at this
    rw [← this]; congr 1
  have hw2 : m2.take (off + (hp_entry_text e).length + 1) = m.take off ++ hp_entry_text e ++ [0] := by
    by_cases hx : off + (hp_entry_text e).length + 1 ≤ off + (rl - 1)
    · rw [hm2, mem_write_take_before _ _ _ _ hx, hw1]
    · have hx' : off + (rl - 1) = off + (hp_entry_text e).length := by omega
      have h3 := mem_write_take_written m1 (off + (rl - 1)) [0]
        (by simp only [List.length_singleton]; omega)
      simp only [List.length_singleton] at h3
      rw [hx'] at h3
      rw [hm2, hx', h3]
      have h4 : m1.take (off + (hp_entry_text e).length) = m.take off ++ hp_entry_text e := by
        have h5 := congrArg (List.take (off + (hp_entry_text e).length)) hw1
        rw [List.take_take] at h5
        have h6 : min (off + (hp_entry_text e).length) (off + (hp_entry_text e).length + 1)
            = off + (hp_entry_text e).length := by omega
        rw [h6] at h5
        rw [h5, List.take_append_of_le_length (by
          simp only [List.length_append, List.length_take]; omega)]
        apply List.take_of_length_le
        simp only [List.length_append, List.length_take]; omega
      rw [h4]
  refine ⟨?_, hl2, hw2, ?_⟩
  · unfold strlen
    rw [cstr_at_of_take m2 off (hp_entry_text e) (fun b hb => (hwf b hb).1)]
    have h7 := congrArg (List.drop off) hw2
    rw [List.drop_take] at h7
    have h8 : off + (hp_entry_text e).length + 1 - off = (hp_entry_text e).length + 1 := by omega
    rw [h8] at h7
    rw [h7, List.append_assoc, List.drop_left']
    simp only [List.length_take]; omega
  · rw [hm2, mem_write_drop_after _ _ _ _ (by simp only [List.length_singleton]; omega),
      hm1, mem_write_drop_after _ _ _ _ (by
        simp only [List.length_append, List.length_singleton]; omega)]

/-! ## The rendering of the stack: lemmas -/

theorem intercalate_append_singleton (sep : CStr) (xs : List CStr) (x : CStr) (h : xs ≠ []) :
    List.intercalate sep (xs ++ [x]) = List.intercalate sep xs ++ sep ++ x := by
  induction xs with
  | nil => exact absurd rfl h
  | cons y ys ih =>
    cases ys with
    | nil => simp [List.intercalate, List.intersperse]
    | cons z zs =>
      have := ih (by simp)
      simp only [List.intercalate, List.cons_append, List.intersperse, List.flatten_cons,
        List.append_assoc, List.append_eq] at this ⊢
      rw [this]

/-- The recursion of `hp_get_function_stack` renders what the spec describes. -/
theorem hp_stack_text_eq_spec (prev : List hp_entry_t) :
    ∀ (entry : hp_entry_t) (level : Nat), 1 ≤ level →
      hp_stack_text entry prev level = hp_stack_text_spec (entry :: prev) level := by
  induction prev with
  | nil =>
    intro entry level hl
    have : min level 1 = 1 := by omega
    simp [hp_stack_text, hp_stack_text_spec, this, List.intercalate, List.intersperse]
  | cons p ps ih =>
    intro entry level hl
    by_cases h1 : level ≤ 1
    · have hl1 : level = 1 := by omega
      subst hl1
      simp [hp_stack_text, hp_stack_text_spec, List.intercalate, List.intersperse]
    · have hrec := ih p (level - 1) (by omega)
      simp only [hp_stack_text, if_neg h1, hrec, hp_stack_text_spec, List.length_cons]
      have hmin : min level (ps.length + 1 + 1) = min (level - 1) (ps.length + 1) + 1 := by omega
      rw [hmin, List.take_succ_cons, List.reverse_cons, List.map_append, List.map_singleton]
      rw [intercalate_append_singleton]
      intro hnil
      have hlen := congrArg List.length hnil
      simp only [List.length_map, List.length_reverse, List.length_take, List.length_cons,
        List.length_nil] at hlen
      omega

theorem hp_stack_text_wf (prev : List hp_entry_t) :
    ∀ (entry : hp_entry_t) (level : Nat), names_ok (entry :: prev) →
      CStr.wf (hp_stack_text entry prev level) ∧ hp_stack_text entry prev level ≠ [] := by
  induction prev with
  | nil =>
    intro entry level h
    have he := h entry (List.mem_cons_self _ _)
    exact ⟨hp_entry_text_wf entry he.1, hp_entry_text_ne_nil entry he.2⟩
  | cons p ps ih =>
    intro entry level h
    have he := h entry (List.mem_cons_self _ _)
    have hp := ih p (level - 1) (fun e hm => h e (List.mem_cons_of_mem _ hm))
    simp only [hp_stack_text]
    split
    · exact ⟨hp_entry_text_wf entry he.1, hp_entry_text_ne_nil entry he.2⟩
    · constructor
      · intro b hb
        rcases List.mem_append.mp hb with hb | hb
        · rcases List.mem_append.mp hb with hb | hb
          · exact hp.1 b hb
          · simp only [HP_STACK_DELIM, List.mem_cons, List.mem_singleton, List.not_mem_nil,
              or_false] at hb
            rcases hb with rfl | rfl | rfl <;> constructor <;> omega
        · exact hp_entry_text_wf entry he.1 b hb
      · have := hp_entry_text_ne_nil entry he.2
        simp [this]

/-- The function `hp_get_function_stack` in a buffer with room for the whole rendering: the
length returned is that of the rendering, the rendering and a terminator stand
at the start of the buffer, and the bytes from `result_len` on are untouched. -/
theorem hp_get_function_stack_fits (prev : List hp_entry_t) :
    ∀ (entry : hp_entry_t) (level : Nat) (m : List Nat) (rl : Nat),
      names_ok (entry :: prev) →
      (hp_stack_text entry prev level).length + 1 ≤ rl → rl ≤ m.length →
      (hp_get_function_stack entry prev level m rl).1 = (hp_stack_text entry prev level).length ∧
      (hp_get_function_stack entry prev level m rl).2.length = m.length ∧
      (hp_get_function_stack entry prev level m rl).2.take
        ((hp_stack_text entry prev level).length + 1) = hp_stack_text entry prev level ++ [0] ∧
      (hp_get_function_stack entry prev level m rl).2.drop rl = m.drop rl := by
  induction prev with
  | nil =>
    intro entry level m rl hok hfit hm
    have he := hok entry (List.mem_cons_self _ _)
    have := hp_get_entry_name_fits entry m 0 rl (hp_entry_text_wf entry he.1)
      (hp_entry_text_ne_nil entry he.2) hfit (by omega)
    simpa [hp_get_function_stack, hp_stack_text] using this
  | cons p ps ih =>
    intro entry level m rl hok hfit hm
    have he := hok entry (List.mem_cons_self _ _)
    by_cases h1 : level ≤ 1
    · have := hp_get_entry_name_fits entry m 0 rl (hp_entry_text_wf entry he.1)
        (hp_entry_text_ne_nil entry he.2) (by simpa [hp_stack_text, h1] using hfit) (by omega)
      simpa [hp_get_function_stack, hp_stack_text, h1] using this
    · have hokp : names_ok (p :: ps) := fun e hmem => hok e (List.mem_cons_of_mem _ hmem)
      have hT : hp_stack_text entry (p :: ps) level =
          hp_stack_text p ps (level - 1) ++ HP_STACK_DELIM ++ hp_entry_text entry := by
        simp [hp_stack_text, h1]
      rw [hT] at hfit ⊢
      simp only [List.length_append] at hfit ⊢
      have hdl : HP_STACK_DELIM.length = 3 := rfl
      rw [hdl] at hfit ⊢
      obtain ⟨hwfa, hnea⟩ := hp_stack_text_wf ps p (level - 1) hokp
      have hposa : 0 < (hp_stack_text p ps (level - 1)).length := List.length_pos.mpr hnea
      obtain ⟨hr1, hr2, hr3, hr4⟩ := ih p (level - 1) m rl hokp (by omega) hm
      set r := hp_get_function_stack p ps (level - 1) m rl with hr
      set Ta := hp_stack_text p ps (level - 1) with hTa
      have hlt : ¬ rl < r.1 + HP_STACK_DELIM_LEN := by
        rw [hr1]; simp only [HP_STACK_DELIM_LEN]; omega
      have hne0 : r.1 ≠ 0 := by rw [hr1]; omega
      -- the delimiter
      have hs0 : strlen r.2 r.1 = 0 := by
        unfold strlen
        rw [cstr_at_of_take r.2 r.1 [] (by simp)]
        · rfl
        · have h5 := congrArg (List.drop Ta.length) hr3
          rw [List.drop_take] at h5
          have h6 : Ta.length + 1 - Ta.length = 1 := by omega
          rw [h6, List.drop_left] at h5
          rw [hr1]; simpa using h5
      have htk : HP_STACK_DELIM.take (rl - r.1) = HP_STACK_DELIM :=
        List.take_of_length_le (by rw [hr1, hdl]; omega)
      have hcat : strncat r.2 r.1 HP_STACK_DELIM (rl - r.1) =
          mem_write r.2 Ta.length (HP_STACK_DELIM ++ [0]) := by
        rw [hr1] at hs0 htk
        simp only [strncat, hs0, htk, Nat.add_zero, hr1]
      set m1 := mem_write r.2 Ta.length (HP_STACK_DELIM ++ [0]) with hm1
      have hl1 : m1.length = m.length := by rw [hm1, mem_write_length, hr2]
      have hw1 : m1.take (Ta.length + 3) = Ta ++ HP_STACK_DELIM := by
        have h7 := mem_write_take_written r.2 Ta.length (HP_STACK_DELIM ++ [0])
          (by simp only [List.length_append, List.length_singleton, hdl]; omega)
        simp only [List.length_append, List.length_singleton, hdl] at h7
        have h8 := congrArg (List.take (Ta.length + 3)) h7
        rw [List.take_take] at h8
        have h9 : min (Ta.length + 3) (Ta.length + (3 + 1)) = Ta.length + 3 := by omega
        rw [h9] at h8
        rw [hm1, h8]
        have h10 : r.2.take Ta.length = Ta := by
          have h11 := congrArg (List.take Ta.length) hr3
          rw [List.take_take] at h11
          have h12 : min Ta.length (Ta.length + 1) = Ta.length := by omega
          rw [h12, List.take_left] at h11
          exact h11
        rw [h10, ← List.append_assoc]
        have h13 : (Ta ++ HP_STACK_DELIM).length = Ta.length + 3 := by
          simp only [List.length_append, hdl]
        rw [← h13, List.take_left]
      have hd1 : m1.drop rl = m.drop rl := by
        rw [hm1, mem_write_drop_after _ _ _ _ (by
          simp only [List.length_append, List.length_singleton, hdl]; omega), hr4]
      -- the name of the entry
      obtain ⟨he1, he2, he3, he4⟩ := hp_get_entry_name_fits entry m1 (Ta.length + 3)
        (rl - (Ta.length + 3)) (hp_entry_text_wf entry he.1) (hp_entry_text_ne_nil entry he.2)
        (by omega) (by omega)
      have hG : hp_get_function_stack entry (p :: ps) level m rl =
          (Ta.length + 3 + (hp_get_entry_name entry m1 (Ta.length + 3) (rl - (Ta.length + 3))).1,
           (hp_get_entry_name entry m1 (Ta.length + 3) (rl - (Ta.length + 3))).2) := by
        have hlt2 : ¬ rl < Ta.length + 3 := by omega
        have hne2 : Ta.length ≠ 0 := by omega
        have hcat2 : strncat r.2 Ta.length HP_STACK_DELIM (rl - Ta.length) = m1 := by
          rw [← hr1]; exact hcat
        simp only [hp_get_function_stack, if_neg h1]
        rw [← hr]
        simp only [hr1, HP_STACK_DELIM_LEN, if_neg hlt2, if_pos hne2, hcat2]
      rw [hG]
      refine ⟨?_, ?_, ?_, ?_⟩
      · simp only [he1]
      · simp only [he2, hl1]
      · simp only
        rw [he3, hw1]
      · simp only
        have h14 : Ta.length + 3 + (rl - (Ta.length + 3)) = rl := by omega
        rw [h14] at he4
        rw [he4, hd1]

/-! ## The rendering of the stack: claims C7 and C9 -/

/-- The string read back from a local buffer of `n` bytes is the rendering of
the spec when the rendering and its terminator fit in the buffer. -/
theorem hp_function_stack_string_fits (entry : hp_entry_t) (prev : List hp_entry_t)
    (level n : Nat) (hok : names_ok (entry :: prev)) (hl : 1 ≤ level)
    (hfit : (hp_stack_text_spec (entry :: prev) level).length + 1 ≤ n) :
    hp_function_stack_string (entry :: prev) level n =
      some (hp_stack_text_spec (entry :: prev) level) := by
  rw [← hp_stack_text_eq_spec prev entry level hl] at hfit ⊢
  obtain ⟨_, _, h3, _⟩ := hp_get_function_stack_fits prev entry level (scratch n) n hok hfit
    (by simp [scratch])
  simp only [hp_function_stack_string]
  rw [cstr_at_of_take _ 0 _ (fun b hb => ((hp_stack_text_wf prev entry level hok).1 b hb).1)]
  simpa using h3

/-- C7. For a chain of live frames with well-formed non-empty names, a level
of at least 1 and a result buffer with room for the whole output and its
terminator, `hp_get_function_stack` leaves in the buffer the texts of the last
`min level k` frames, bottom to current, joined by `"==>"` (a frame's text is
its name, with `@n` added when its recursion level `n` is not 0), and returns
the length of that string. -/
theorem C7_function_stack_renders_chain (entry : hp_entry_t) (prev : List hp_entry_t)
    (level : Nat) (m : List Nat) (result_len : Nat)
    (hok : names_ok (entry :: prev)) (hlevel : 1 ≤ level)
    (hfit : (hp_stack_text_spec (entry :: prev) level).length + 1 ≤ result_len)
    (hm : result_len ≤ m.length) :
    cstr_at (hp_get_function_stack entry prev level m result_len).2 0 =
      hp_stack_text_spec (entry :: prev) level ∧
    (hp_get_function_stack entry prev level m result_len).1 =
      (hp_stack_text_spec (entry :: prev) level).length := by
  rw [← hp_stack_text_eq_spec prev entry level hlevel] at hfit ⊢
  obtain ⟨h1, _, h3, _⟩ := hp_get_function_stack_fits prev entry level m result_len hok hfit hm
  refine ⟨?_, h1⟩
  rw [cstr_at_of_take _ 0 _ (fun b hb => ((hp_stack_text_wf prev entry level hok).1 b hb).1)]
  simpa using h3

/-- C7 on the chain `foo`, `bar`, `foo@1` at level 2 and at level 5, in a
buffer of 20 bytes that held other bytes before. -/
theorem C7_function_stack_witness :
    names_ok [mk_entry [102, 111, 111] 1, mk_entry [98, 97, 114] 0, mk_entry [102, 111, 111] 0] ∧
    hp_stack_text_spec
      [mk_entry [102, 111, 111] 1, mk_entry [98, 97, 114] 0, mk_entry [102, 111, 111] 0] 2
      = [98, 97, 114, 61, 61, 62, 102, 111, 111, 64, 49] ∧
    hp_stack_text_spec
      [mk_entry [102, 111, 111] 1, mk_entry [98, 97, 114] 0, mk_entry [102, 111, 111] 0] 5
      = [102, 111, 111, 61, 61, 62, 98, 97, 114, 61, 61, 62, 102, 111, 111, 64, 49] ∧
    (cstr_at (hp_get_function_stack (mk_entry [102, 111, 111] 1)
        [mk_entry [98, 97, 114] 0, mk_entry [102, 111, 111] 0] 5 (List.replicate 20 7) 20).2 0 =
      hp_stack_text_spec
        [mk_entry [102, 111, 111] 1, mk_entry [98, 97, 114] 0, mk_entry [102, 111, 111] 0] 5 ∧
    (hp_get_function_stack (mk_entry [102, 111, 111] 1)
        [mk_entry [98, 97, 114] 0, mk_entry [102, 111, 111] 0] 5 (List.replicate 20 7) 20).1 =
      (hp_stack_text_spec
        [mk_entry [102, 111, 111] 1, mk_entry [98, 97, 114] 0, mk_entry [102, 111, 111] 0]
        5).length) :=
  ⟨by decide, by decide, by decide,
   C7_function_stack_renders_chain (mk_entry [102, 111, 111] 1)
    [mk_entry [98, 97, 114] 0, mk_entry [102, 111, 111] 0] 5 (List.replicate 20 7) 20
    (by decide) (by decide) (by decide) (by decide)⟩

set_option maxRecDepth 100000 in
/-- C9, the failing input.  With a buffer of `result_len = 4` bytes, the caller
`a` and the callee `b`, the test `result_len < len + 3` lets `strncat` append
the three bytes of `"==>"` and a terminator behind the one byte of `a`: the
terminator lands on the byte after the buffer, and the length returned is 4,
not at most 3.  In the 512 bytes of the hierarchical end callback the same
happens for a caller name of 509 bytes: the length returned is 512, the byte
after the buffer (7 before the call) is 0, and the key read back has 512
bytes. -/
theorem C9_function_stack_overruns_at_exact_fit :
    hp_get_function_stack (mk_entry [98] 0) [mk_entry [97] 0] 2 [7, 7, 7, 7, 7, 7] 4 =
      (4, [97, 61, 61, 62, 0, 7]) ∧
    4 ≤ (hp_get_function_stack (mk_entry [98] 0) [mk_entry [97] 0] 2 [7, 7, 7, 7, 7, 7] 4).1 ∧
    ([7, 7, 7, 7, 7, 7] : List Nat).drop 4 ≠
      (hp_get_function_stack (mk_entry [98] 0) [mk_entry [97] 0] 2 [7, 7, 7, 7, 7, 7] 4).2.drop 4 ∧
    (hp_get_function_stack (mk_entry [98] 0) [mk_entry (List.replicate 509 97) 0] 2
      (List.replicate 513 7) SCRATCH_BUF_LEN).1 = 512 ∧
    (hp_get_function_stack (mk_entry [98] 0) [mk_entry (List.replicate 509 97) 0] 2
      (List.replicate 513 7) SCRATCH_BUF_LEN).2.drop 512 = [0] ∧
    (hp_function_stack_string [mk_entry [98] 0, mk_entry (List.replicate 509 97) 0] 2
      SCRATCH_BUF_LEN).map List.length = some 512 := by
  refine ⟨by decide, by decide, by decide, by decide, by decide, by decide⟩

/-! ## The profiling macros: lemmas -/

theorem hp_fast_alloc_state (g : hp_global_t) (env : hp_env) :
    (hp_fast_alloc_hprof_entry g env).1 =
      { g with entry_free_list := g.entry_free_list.tail } := by
  unfold hp_fast_alloc_hprof_entry
  cases h : g.entry_free_list with
  | nil => apply hp_global_t.ext <;> simp [h]
  | cons p rest => rfl

theorem hp_mode_hier_beginfn_cb_keeps (g : hp_global_t) (c : hp_entry_t) (env : hp_env) :
    (hp_mode_hier_beginfn_cb g c env).name_hprof = c.name_hprof ∧
    (hp_mode_hier_beginfn_cb g c env).hash_code = c.hash_code ∧
    (hp_mode_hier_beginfn_cb g c env).rlvl_hprof = c.rlvl_hprof := by
  unfold hp_mode_hier_beginfn_cb
  split <;> split <;> exact ⟨rfl, rfl, rfl⟩

/-- The macro `BEGIN_PROFILING` in hierarchical mode for a symbol the filter accepts: the
state after it, with the new frame `cur` on the stack. -/
theorem BEGIN_PROFILING_hier (g : hp_global_t) (symbol : CStr) (env : hp_env)
    (hmode : g.mode_cb.begin_fn_cb = .hp_mode_hier_beginfn_cb)
    (hacc : hp_filter_entry g (hp_inline_hash symbol) symbol = false) :
    ∃ cur, BEGIN_PROFILING g symbol env = some ({ g with
        entries := cur :: g.entries,
        entry_free_list := g.entry_free_list.tail,
        func_hash_counters := array_set g.func_hash_counters (hp_inline_hash symbol)
          ((g.func_hash_counters (hp_inline_hash symbol) + 1) % 256) }, true) ∧
      cur.name_hprof = symbol ∧ cur.hash_code = hp_inline_hash symbol ∧
      cur.rlvl_hprof = (if g.func_hash_counters (hp_inline_hash symbol) > 0
        then hp_recurse_level g.entries symbol else 0) := by
  simp only [BEGIN_PROFILING, hacc, Bool.not_false, if_true, hp_fast_alloc_state,
    hp_mode_common_beginfn, begin_fn_cb, hmode]
  refine ⟨_, rfl, ?_, ?_, ?_⟩
  · rw [(hp_mode_hier_beginfn_cb_keeps _ _ env).1]
  · rw [(hp_mode_hier_beginfn_cb_keeps _ _ env).2.1]
  · rw [(hp_mode_hier_beginfn_cb_keeps _ _ env).2.2]

theorem same_tracker_refl (g : hp_global_t) : same_tracker g g := by
  unfold same_tracker; rfl

theorem same_tracker_trans (g g1 g2 : hp_global_t) (h1 : same_tracker g g1)
    (h2 : same_tracker g1 g2) : same_tracker g g2 := by
  unfold same_tracker at *
  rw [h2, h1]

theorem same_tracker_of_stats (g : hp_global_t) (st lc : Option hp_array) :
    same_tracker g { g with stats_count := st, layers_count := lc } := by
  unfold same_tracker; rfl

/-- The stack sample of `hp_sample_stack` changes the stats array only. -/
theorem hp_sample_stack_spec (g : hp_global_t) (hent : g.entries ≠ [])
    (hst : g.stats_count ≠ none) :
    ∃ ht, hp_sample_stack g = some { g with stats_count := some ht } := by
  unfold hp_sample_stack
  cases he : g.entries with
  | nil => exact absurd he hent
  | cons e prev =>
    cases hs : g.stats_count with
    | none => exact absurd hs hst
    | some ht => exact ⟨_, rfl⟩

/-- The loop of `hp_sample_check` ends when the sampling interval is not zero:
with fuel above the cycles elapsed since the last sample it returns a state. -/
theorem hp_sample_check_loop_returns (now : Nat) (fuel : Nat) :
    ∀ g : hp_global_t, 0 < g.sampling_interval_tsc → g.last_sample_tsc < 2 ^ 64 →
      g.stats_count ≠ none → g.entries ≠ [] →
      (now + 2 ^ 64 - g.last_sample_tsc) % 2 ^ 64 < fuel →
      ∃ g1, hp_sample_check_loop fuel g now = some g1 ∧ same_tracker g g1 ∧
        g1.last_sample_tsc < 2 ^ 64 ∧ g1.stats_count ≠ none := by
  induction fuel with
  | zero => intro g _ _ _ _ h; omega
  | succ fuel ih =>
    intro g hint hlast hst hent hfuel
    by_cases hc : (now + 2 ^ 64 - g.last_sample_tsc) % 2 ^ 64 > g.sampling_interval_tsc
    · let g2 : hp_global_t := { g with
          last_sample_tsc := (g.last_sample_tsc + g.sampling_interval_tsc) % 2 ^ 64,
          last_sample_time := incr_us_interval g.last_sample_time XHPROF_SAMPLING_INTERVAL }
      obtain ⟨ht, hs⟩ := hp_sample_stack_spec g2 hent hst
      have hlt : (g.last_sample_tsc + g.sampling_interval_tsc) % 2 ^ 64 < 2 ^ 64 :=
        Nat.mod_lt _ (by positivity)
      have hdec : (now + 2 ^ 64 - (g.last_sample_tsc + g.sampling_interval_tsc) % 2 ^ 64) % 2 ^ 64
          < fuel := by
        have hd_lt : (now + 2 ^ 64 - g.last_sample_tsc) % 2 ^ 64 < 2 ^ 64 :=
          Nat.mod_lt _ (by positivity)
        have hcong : (now + 2 ^ 64 - (g.last_sample_tsc + g.sampling_interval_tsc) % 2 ^ 64
            + g.sampling_interval_tsc) % 2 ^ 64 = (now + 2 ^ 64 - g.last_sample_tsc) % 2 ^ 64 := by
          have h1 := Nat.mod_add_div (g.last_sample_tsc + g.sampling_interval_tsc) (2 ^ 64)
          have h2 : (g.last_sample_tsc + g.sampling_interval_tsc) / 2 ^ 64 ≤ 1 := by
            have : g.sampling_interval_tsc < 2 ^ 64 := by omega
            apply Nat.le_of_lt_succ
            apply Nat.div_lt_of_lt_mul
            omega
          interval_cases hq : (g.last_sample_tsc + g.sampling_interval_tsc) / 2 ^ 64
          · have : (g.last_sample_tsc + g.sampling_interval_tsc) % 2 ^ 64 =
                g.last_sample_tsc + g.sampling_interval_tsc := by omega
            rw [this]
            congr 1; omega
          · have : (g.last_sample_tsc + g.sampling_interval_tsc) % 2 ^ 64 =
                g.last_sample_tsc + g.sampling_interval_tsc - 2 ^ 64 := by omega
            rw [this]
            have h3 : now + 2 ^ 64 - (g.last_sample_tsc + g.sampling_interval_tsc - 2 ^ 64)
                + g.sampling_interval_tsc = (now + 2 ^ 64 - g.last_sample_tsc) + 2 ^ 64 := by omega
            rw [h3, Nat.add_mod_right]
        omega
      obtain ⟨g1, hg1, hsame, hl1, hs1⟩ :=
        ih { g2 with stats_count := some ht } hint hlt (by simp) hent hdec
      refine ⟨g1, ?_, ?_, hl1, hs1⟩
      · simp only [hp_sample_check_loop, if_pos hc, hs]
        exact hg1
      · refine same_tracker_trans g _ g1 ?_ hsame
        unfold same_tracker; rfl
    · exact ⟨g, by simp only [hp_sample_check_loop, if_neg hc], same_tracker_refl g, hlast, hst⟩


/-- The end callback of a session, called with a frame on the stack: it
returns, and leaves the stack, the free list and the hash counters alone.  In
hierarchical mode with a stats array it adds 1 to `ct` of the key of the top
frame and leaves `ct` of every other key as it was. -/
theorem end_fn_cb_spec (g : hp_global_t) (env : hp_env) (hok : end_callback_ok g)
    (hne : g.entries ≠ []) :
    ∃ g1, end_fn_cb g env = some g1 ∧ same_tracker g g1 ∧ end_callback_ok g1 ∧
      (g.mode_cb.end_fn_cb = .hp_mode_hier_endfn_cb → g.stats_count ≠ none →
        g1.stats_count ≠ none ∧
        ∀ k0, hp_function_stack_string g.entries 2 SCRATCH_BUF_LEN = some k0 →
          hp_stat_field g1.stats_count k0 NAME_ct =
            some ((hp_stat_field g.stats_count k0 NAME_ct).getD 0 + 1) ∧
          ∀ k, k ≠ k0 → hp_stat_field g1.stats_count k NAME_ct =
            hp_stat_field g.stats_count k NAME_ct) := by
  obtain ⟨hokh, hoks⟩ := hok
  cases hmode : g.mode_cb.end_fn_cb with
  | hp_mode_dummy_endfn_cb =>
    refine ⟨g, by simp [end_fn_cb, hmode], same_tracker_refl g, ⟨hokh, hoks⟩, ?_⟩
    intro h; cases h
  | hp_mode_sampled_endfn_cb =>
    obtain ⟨hint, hlast, hst⟩ := hoks hmode
    obtain ⟨g1, hg1, hsame, hl1, hs1⟩ := hp_sample_check_loop_returns env.tsc (2 ^ 64) g hint
      hlast hst hne (Nat.mod_lt _ (by positivity))
    have hm1 : g1.mode_cb = g.mode_cb := by
      have := congrArg hp_global_t.mode_cb hsame; simpa using this
    have hi1 : g1.sampling_interval_tsc = g.sampling_interval_tsc := by
      have := congrArg hp_global_t.sampling_interval_tsc hsame; simpa using this
    refine ⟨g1, ?_, hsame, ⟨?_, ?_⟩, ?_⟩
    · simp only [end_fn_cb, hmode, hp_sample_check]
      cases he : g.entries with
      | nil => exact absurd he hne
      | cons e prev => simpa using hg1
    · intro h; rw [hm1, hmode] at h; cases h
    · intro _; rw [hi1]; exact ⟨hint, hl1, hs1⟩
    · intro h; cases h
  | hp_mode_hier_endfn_cb =>
    cases he : g.entries with
    | nil => exact absurd he hne
    | cons top prev =>
      have hkk : ∃ k0, hp_function_stack_string g.entries 2 SCRATCH_BUF_LEN = some k0 := by
        rw [he]; exact ⟨_, rfl⟩
      obtain ⟨k0, hk0⟩ := hkk
      cases hst : g.stats_count with
      | none =>
        refine ⟨g, ?_, same_tracker_refl g, ⟨hokh, hoks⟩, ?_⟩
        · simp only [end_fn_cb, hmode, hp_mode_hier_endfn_cb, he]
          rw [← he, hk0]
          simp only [hp_mode_shared_endfn_cb, hst, hp_hash_lookup]
        · intro _ h; exact absurd rfl h
      | some ht =>
        obtain ⟨hco, hfr⟩ := hokh hmode ht hst
        obtain ⟨fr, hfr'⟩ := Option.ne_none_iff_exists'.mp hfr
        obtain ⟨ht1, lc, hcb, hco1, hp1, hct1, hwt1, ho1⟩ :=
          hp_mode_hier_endfn_cb_spec g env ht fr k0 hst hco hfr' hk0
        refine ⟨_, by simp only [end_fn_cb, hmode]; exact hcb, same_tracker_of_stats g _ _,
          ⟨?_, ?_⟩, ?_⟩
        · intro _ ht' hht'
          simp only [Option.some.injEq] at hht'
          subst hht'
          exact ⟨hco1, hfr⟩
        · intro h
          simp only at h
          rw [hmode] at h; cases h
        · intro _ _
          refine ⟨by simp, ?_⟩
          intro k0' hk0'
          rw [← he, hk0] at hk0'
          simp only [Option.some.injEq] at hk0'
          subst hk0'
          exact ⟨hct1, fun k hk => ho1 k NAME_ct hk⟩

/-- The macro `END_PROFILING` with a frame `cur` on the stack: the end callback runs on
the state, then the counter of the hash of `cur` is decremented, `cur` leaves
the stack and heads the free list. -/
theorem END_PROFILING_spec (g : hp_global_t) (env : hp_env) (cur : hp_entry_t)
    (prev : List hp_entry_t) (hok : end_callback_ok g) (hent : g.entries = cur :: prev) :
    ∃ g1, end_fn_cb g env = some g1 ∧ same_tracker g g1 ∧ end_callback_ok g1 ∧
      END_PROFILING g true env = some { g1 with
        func_hash_counters := array_set g.func_hash_counters cur.hash_code
          ((g.func_hash_counters cur.hash_code + 255) % 256),
        entries := prev,
        entry_free_list := cur :: g.entry_free_list } ∧
      (g.mode_cb.end_fn_cb = .hp_mode_hier_endfn_cb → g.stats_count ≠ none →
        g1.stats_count ≠ none ∧
        ∀ k0, hp_function_stack_string g.entries 2 SCRATCH_BUF_LEN = some k0 →
          hp_stat_field g1.stats_count k0 NAME_ct =
            some ((hp_stat_field g.stats_count k0 NAME_ct).getD 0 + 1) ∧
          ∀ k, k ≠ k0 → hp_stat_field g1.stats_count k NAME_ct =
            hp_stat_field g.stats_count k NAME_ct) := by
  obtain ⟨g1, hcb, hsame, hok1, hct⟩ := end_fn_cb_spec g env hok (by rw [hent]; simp)
  have he1 : g1.entries = g.entries := by
    have := congrArg hp_global_t.entries hsame; simpa using this
  have hf1 : g1.entry_free_list = g.entry_free_list := by
    have := congrArg hp_global_t.entry_free_list hsame; simpa using this
  have hc1 : g1.func_hash_counters = g.func_hash_counters := by
    have := congrArg hp_global_t.func_hash_counters hsame; simpa using this
  refine ⟨g1, hcb, hsame, hok1, ?_, hct⟩
  simp only [END_PROFILING, if_true, hcb, he1, hent, hp_mode_common_endfn,
    hp_fast_free_hprof_entry, hc1, hf1]

/-- The loop of `hp_stop` on a stack `L`: with fuel for every frame it returns
a state with an empty stack, the frames of `L` on the free list, the bottom
one first, each hash counter decremented once per frame with that hash, and in
hierarchical mode `ct` of each key raised by the number of frames recorded
under it. -/
theorem hp_stop_loop_spec (L : List hp_entry_t) :
    ∀ (g : hp_global_t) (fuel : Nat) (envs : Nat → hp_env),
      g.entries = L → L.length ≤ fuel → end_callback_ok g →
      ∃ g', hp_stop_loop fuel g envs = some g' ∧ g'.entries = [] ∧
        g'.entry_free_list = L.reverse ++ g.entry_free_list ∧
        g'.enabled = g.enabled ∧ g'.mode_cb = g.mode_cb ∧
        (∀ h, g'.func_hash_counters h =
          if hash_count L h = 0 then g.func_hash_counters h
          else (g.func_hash_counters h + 255 * hash_count L h) % 256) ∧
        (g.mode_cb.end_fn_cb = .hp_mode_hier_endfn_cb → g.stats_count ≠ none →
          ∀ k, hp_stat_field g'.stats_count k NAME_ct =
            ct_after (hp_stat_field g.stats_count k NAME_ct) (key_count L k)) := by
  induction L with
  | nil =>
    intro g fuel envs hent _ _
    refine ⟨g, ?_, hent, by simp, rfl, rfl, ?_, ?_⟩
    · cases fuel with
      | zero => simp [hp_stop_loop, hent]
      | succ n => simp [hp_stop_loop, hent]
    · intro h; simp [hash_count]
    · intro _ _ k; simp [key_count, ct_after]
  | cons cur prev ih =>
    intro g fuel envs hent hfuel hok
    cases fuel with
    | zero => simp at hfuel
    | succ fuel =>
      obtain ⟨g1, hcb, hsame, hok1, hend, hct⟩ := END_PROFILING_spec g (envs 0) cur prev hok hent
      have hm1 : g1.mode_cb = g.mode_cb := by
        have := congrArg hp_global_t.mode_cb hsame; simpa using this
      have hen1 : g1.enabled = g.enabled := by
        have := congrArg hp_global_t.enabled hsame; simpa using this
      obtain ⟨g', hloop, he', hf', hen', hm', hc', hs'⟩ := ih
        { g1 with
          func_hash_counters := array_set g.func_hash_counters cur.hash_code
            ((g.func_hash_counters cur.hash_code + 255) % 256),
          entries := prev,
          entry_free_list := cur :: g.entry_free_list }
        fuel (fun i => envs (i + 1)) rfl (by simpa using hfuel) hok1
      refine ⟨g', ?_, he', ?_, ?_, ?_, ?_, ?_⟩
      · simp only [hp_stop_loop, hent, hend]
        exact hloop
      · rw [hf']; simp
      · rw [hen']; exact hen1
      · rw [hm']; exact hm1
      · intro h
        rw [hc' h]
        simp only [array_set, hash_count, List.filter_cons]
        by_cases hh : cur.hash_code = h
        · subst hh
          simp only [decide_True, if_true, List.length_cons]
          split <;> simp <;> omega
        · have hh' : ¬ h = cur.hash_code := fun e => hh e.symm
          simp only [hh, hh', decide_False, if_false, Bool.false_eq_true]
      · intro hmode hst k
        obtain ⟨hst1, hk⟩ := hct hmode hst
        have hmode1 : g1.mode_cb.end_fn_cb = .hp_mode_hier_endfn_cb := by rw [hm1]; exact hmode
        rw [hs' hmode1 hst1 k]
        simp only
        obtain ⟨hk0, hother⟩ := hk _ (by rw [hent]; rfl)
        simp only [key_count]
        by_cases hkk : hp_function_stack_string (cur :: prev) 2 SCRATCH_BUF_LEN = some k
        · have hk0' := (hk _ (by rw [hent]; exact hkk)).1
          rw [hk0', if_pos hkk]
          unfold ct_after
          by_cases hz : key_count prev k = 0
          · simp [hz]
          · have : 1 + key_count prev k ≠ 0 := by omega
            simp only [hz, this, if_false, Option.getD_some, Option.some.injEq]
            push_cast; ring
        · have hne : k ≠ cstr_at (hp_get_function_stack cur prev 2 (scratch SCRATCH_BUF_LEN)
              SCRATCH_BUF_LEN).2 0 := by
            intro e; apply hkk; rw [e]; rfl
          rw [hother k hne, if_neg hkk, Nat.zero_add]

/-! ## Stopping the profiler: claim C10 -/

theorem hier_fixture_ok (entries : List hp_entry_t) : end_callback_ok (hier_fixture entries) := by
  constructor
  · intro _ ht hht
    have : ht = [] := by
      simp only [hier_fixture, Option.some.injEq] at hht; exact hht.symm
    subst this
    exact ⟨counts_only_nil, by simp [hier_fixture]⟩
  · intro h; simp [hier_fixture] at h

/-- C10. For a stack of any depth `d` and fuel for `d` rounds, `hp_stop`
returns a state with an empty stack and `enabled = 0`; the `d` frames are on
the free list, the one ended first (the innermost) deepest; every hash counter
is back at the value `c0` it had before the `d` frames were pushed (each push
adds 1 modulo 256 to the counter of the frame's hash); and in hierarchical
mode the count `ct` of every key has grown by the number of open frames
recorded under that key.  The end callback must be able to return: see
`end_callback_ok`. -/
theorem C10_hp_stop_unwinds_the_stack (g : hp_global_t) (fuel : Nat) (envs : Nat → hp_env)
    (hfuel : g.entries.length ≤ fuel) (hok : end_callback_ok g) :
    ∃ g', hp_stop fuel g envs = some g' ∧ g'.entries = [] ∧ g'.enabled = 0 ∧
      g'.entry_free_list = g.entries.reverse ++ g.entry_free_list ∧
      (∀ c0 : Nat → Nat, (∀ h, c0 h < 256) →
        (∀ h, g.func_hash_counters h = (c0 h + hash_count g.entries h) % 256) →
        ∀ h, g'.func_hash_counters h = c0 h) ∧
      (g.mode_cb.end_fn_cb = .hp_mode_hier_endfn_cb → g.stats_count ≠ none →
        ∀ k, hp_stat_field g'.stats_count k NAME_ct =
          ct_after (hp_stat_field g.stats_count k NAME_ct) (key_count g.entries k)) := by
  obtain ⟨g1, hloop, he, hf, _, _, hc, hs⟩ :=
    hp_stop_loop_spec g.entries g fuel (fun i => envs (i + 1)) rfl hfuel hok
  refine ⟨{ restore_cpu_affinity g1 (envs 0) with enabled := 0 }, ?_, ?_, rfl, ?_, ?_, ?_⟩
  · simp only [hp_stop, hloop]
  · simp only [restore_cpu_affinity]; split <;> exact he
  · simp only [restore_cpu_affinity]; split <;> exact hf
  · intro c0 hc0 hg h
    have h1 : ({ restore_cpu_affinity g1 (envs 0) with enabled := 0 } : hp_global_t).func_hash_counters
        = g1.func_hash_counters := by
      simp only [restore_cpu_affinity]; split <;> rfl
    rw [h1, hc h, hg h]
    have := hc0 h
    split <;> omega
  · intro hmode hst k
    have h1 : ({ restore_cpu_affinity g1 (envs 0) with enabled := 0 } : hp_global_t).stats_count
        = g1.stats_count := by
      simp only [restore_cpu_affinity]; split <;> rfl
    rw [h1]
    exact hs hmode hst k

set_option maxRecDepth 100000 in
/-- C10 on a hierarchical session stopped inside `foo` called from `bar`
called from `foo`: four frames are ended, `main()==>foo`, `foo==>bar`,
`bar==>foo@1` and `main()` get `ct = 1`, and all counters are back at 0. -/
theorem C10_hp_stop_witness :
    (hier_fixture [mk_entry [102, 111, 111] 1, mk_entry [98, 97, 114] 0,
      mk_entry [102, 111, 111] 0, mk_entry ROOT_SYMBOL 0]).entries.length ≤ 4 ∧
    key_count [mk_entry [102, 111, 111] 1, mk_entry [98, 97, 114] 0,
      mk_entry [102, 111, 111] 0, mk_entry ROOT_SYMBOL 0]
      [98, 97, 114, 61, 61, 62, 102, 111, 111, 64, 49] = 1 ∧
    (hp_stop 4 (hier_fixture [mk_entry [102, 111, 111] 1, mk_entry [98, 97, 114] 0,
      mk_entry [102, 111, 111] 0, mk_entry ROOT_SYMBOL 0]) (fun _ => env_fixture 0 5)).map
      (fun g' => (g'.entries, g'.enabled, g'.entry_free_list.length,
        g'.func_hash_counters (hp_inline_hash [102, 111, 111]),
        hp_stat_field g'.stats_count [98, 97, 114, 61, 61, 62, 102, 111, 111, 64, 49] NAME_ct,
        hp_stat_field g'.stats_count ROOT_SYMBOL NAME_ct)) =
      some ([], 0, 4, 0, some 1, some 1) ∧
    ∃ g', hp_stop 4 (hier_fixture [mk_entry [102, 111, 111] 1, mk_entry [98, 97, 114] 0,
        mk_entry [102, 111, 111] 0, mk_entry ROOT_SYMBOL 0]) (fun _ => env_fixture 0 5)
        = some g' ∧ g'.entries = [] ∧ g'.enabled = 0 ∧
      g'.entry_free_list =
        (hier_fixture [mk_entry [102, 111, 111] 1, mk_entry [98, 97, 114] 0,
          mk_entry [102, 111, 111] 0, mk_entry ROOT_SYMBOL 0]).entries.reverse ++
        (hier_fixture [mk_entry [102, 111, 111] 1, mk_entry [98, 97, 114] 0,
          mk_entry [102, 111, 111] 0, mk_entry ROOT_SYMBOL 0]).entry_free_list ∧
      (∀ c0 : Nat → Nat, (∀ h, c0 h < 256) →
        (∀ h, (hier_fixture [mk_entry [102, 111, 111] 1, mk_entry [98, 97, 114] 0,
          mk_entry [102, 111, 111] 0, mk_entry ROOT_SYMBOL 0]).func_hash_counters h =
          (c0 h + hash_count (hier_fixture [mk_entry [102, 111, 111] 1, mk_entry [98, 97, 114] 0,
            mk_entry [102, 111, 111] 0, mk_entry ROOT_SYMBOL 0]).entries h) % 256) →
        ∀ h, g'.func_hash_counters h = c0 h) ∧
      ((hier_fixture [mk_entry [102, 111, 111] 1, mk_entry [98, 97, 114] 0,
          mk_entry [102, 111, 111] 0, mk_entry ROOT_SYMBOL 0]).mode_cb.end_fn_cb =
          .hp_mode_hier_endfn_cb →
        (hier_fixture [mk_entry [102, 111, 111] 1, mk_entry [98, 97, 114] 0,
          mk_entry [102, 111, 111] 0, mk_entry ROOT_SYMBOL 0]).stats_count ≠ none →
        ∀ k, hp_stat_field g'.stats_count k NAME_ct =
          ct_after (hp_stat_field (hier_fixture [mk_entry [102, 111, 111] 1,
            mk_entry [98, 97, 114] 0, mk_entry [102, 111, 111] 0,
            mk_entry ROOT_SYMBOL 0]).stats_count k NAME_ct)
            (key_count (hier_fixture [mk_entry [102, 111, 111] 1, mk_entry [98, 97, 114] 0,
              mk_entry [102, 111, 111] 0, mk_entry ROOT_SYMBOL 0]).entries k)) :=
  ⟨by decide, by decide, rfl,
   C10_hp_stop_unwinds_the_stack _ 4 (fun _ => env_fixture 0 5) (by decide)
     (hier_fixture_ok _)⟩

/-! ## The key of the hierarchical end callback: claim C8 -/

theorem hp_stack_text_spec_single (e : hp_entry_t) (level : Nat) (hl : 1 ≤ level) :
    hp_stack_text_spec [e] level = hp_entry_text e := by
  rw [← hp_stack_text_eq_spec [] e level hl]; rfl

theorem hp_stack_text_spec_two (e c : hp_entry_t) (rest : List hp_entry_t) :
    hp_stack_text_spec (e :: c :: rest) 2 =
      hp_entry_text c ++ HP_STACK_DELIM ++ hp_entry_text e := by
  rw [← hp_stack_text_eq_spec (c :: rest) e 2 (by decide)]
  cases rest with
  | nil => simp [hp_stack_text]
  | cons p ps => simp [hp_stack_text]

/-- C8, as amended.  In hierarchical mode, when the names of the top frame and
of its caller are well-formed and the depth-2 rendering fits in the 512-byte
scratch buffer with its terminator, the end callback records the call under
that rendering: `caller==>callee`, each side with its `@n` suffix when its
level is not 0, when the frame has a caller, and the bare text of the frame
when it is the bottom frame. -/
theorem C8_hier_key_is_depth2_rendering (g : hp_global_t) (env : hp_env)
    (entry : hp_entry_t) (prev : List hp_entry_t) (ht : hp_array) (fr : List Nat)
    (hent : g.entries = entry :: prev) (hok : names_ok (entry :: prev))
    (hst : g.stats_count = some ht) (hco : counts_only ht)
    (hfr : g.cpu_frequencies = some fr)
    (hfit : (hp_stack_text_spec (entry :: prev) 2).length < SCRATCH_BUF_LEN) :
    hp_stack_text_spec (entry :: prev) 2 =
      (match prev with
        | [] => hp_entry_text entry
        | caller :: _ => hp_entry_text caller ++ HP_STACK_DELIM ++ hp_entry_text entry) ∧
    ∃ g1, hp_mode_hier_endfn_cb g env = some g1 ∧
      recorded_under g g1 (hp_stack_text_spec (entry :: prev) 2) := by
  constructor
  · cases prev with
    | nil => exact hp_stack_text_spec_single entry 2 (by decide)
    | cons c rest => exact hp_stack_text_spec_two entry c rest
  · have hk : hp_function_stack_string g.entries 2 SCRATCH_BUF_LEN =
        some (hp_stack_text_spec (entry :: prev) 2) := by
      rw [hent]
      exact hp_function_stack_string_fits entry prev 2 SCRATCH_BUF_LEN hok (by decide)
        (by omega)
    obtain ⟨ht1, lc, hcb, _, _, hct, _, ho⟩ :=
      hp_mode_hier_endfn_cb_spec g env ht fr _ hst hco hfr hk
    refine ⟨_, hcb, ?_, ?_⟩
    · simp only [hst]; exact hct
    · intro k' hk'
      simp only [hst]; exact ho k' NAME_ct hk'

set_option maxRecDepth 100000 in
/-- C8 on the sequence `foo`, `bar`, `foo` begun in a session that holds the
root frame: the innermost call is recorded under `bar==>foo@1`; and the root
frame is recorded under `main()`. -/
theorem C8_hier_key_witness :
    (hp_run_begins (hier_fixture [mk_entry ROOT_SYMBOL 0])
        [[102, 111, 111], [98, 97, 114], [102, 111, 111]] (env_fixture 0 0)).map
        (fun g => g.entries) =
      some [mk_entry [102, 111, 111] 1, mk_entry [98, 97, 114] 0,
        mk_entry [102, 111, 111] 0, mk_entry ROOT_SYMBOL 0] ∧
    hp_stack_text_spec [mk_entry [102, 111, 111] 1, mk_entry [98, 97, 114] 0,
        mk_entry [102, 111, 111] 0, mk_entry ROOT_SYMBOL 0] 2 =
      [98, 97, 114, 61, 61, 62, 102, 111, 111, 64, 49] ∧
    hp_stack_text_spec [mk_entry ROOT_SYMBOL 0] 2 = ROOT_SYMBOL ∧
    (∃ g1, hp_mode_hier_endfn_cb (hier_fixture [mk_entry ROOT_SYMBOL 0]) (env_fixture 9 9)
        = some g1 ∧
      recorded_under (hier_fixture [mk_entry ROOT_SYMBOL 0]) g1
        (hp_stack_text_spec [mk_entry ROOT_SYMBOL 0] 2)) ∧
    (hp_stack_text_spec [mk_entry [102, 111, 111] 1, mk_entry [98, 97, 114] 0,
        mk_entry [102, 111, 111] 0, mk_entry ROOT_SYMBOL 0] 2 =
      (match [mk_entry [98, 97, 114] 0, mk_entry [102, 111, 111] 0, mk_entry ROOT_SYMBOL 0] with
        | [] => hp_entry_text (mk_entry [102, 111, 111] 1)
        | caller :: _ =>
          hp_entry_text caller ++ HP_STACK_DELIM ++ hp_entry_text (mk_entry [102, 111, 111] 1)) ∧
    ∃ g1, hp_mode_hier_endfn_cb (hier_fixture [mk_entry [102, 111, 111] 1,
        mk_entry [98, 97, 114] 0, mk_entry [102, 111, 111] 0, mk_entry ROOT_SYMBOL 0])
        (env_fixture 9 9) = some g1 ∧
      recorded_under (hier_fixture [mk_entry [102, 111, 111] 1, mk_entry [98, 97, 114] 0,
        mk_entry [102, 111, 111] 0, mk_entry ROOT_SYMBOL 0]) g1
        (hp_stack_text_spec [mk_entry [102, 111, 111] 1, mk_entry [98, 97, 114] 0,
          mk_entry [102, 111, 111] 0, mk_entry ROOT_SYMBOL 0] 2)) :=
  ⟨by decide, by decide, by decide,
    (C8_hier_key_is_depth2_rendering (hier_fixture [mk_entry ROOT_SYMBOL 0]) (env_fixture 9 9)
      (mk_entry ROOT_SYMBOL 0) [] [] [2400] rfl (by decide) rfl counts_only_nil rfl
      (by decide)).2,
    C8_hier_key_is_depth2_rendering (hier_fixture [mk_entry [102, 111, 111] 1,
        mk_entry [98, 97, 114] 0, mk_entry [102, 111, 111] 0, mk_entry ROOT_SYMBOL 0])
      (env_fixture 9 9) (mk_entry [102, 111, 111] 1)
      [mk_entry [98, 97, 114] 0, mk_entry [102, 111, 111] 0, mk_entry ROOT_SYMBOL 0] [] [2400]
      rfl (by decide) rfl counts_only_nil rfl (by decide)⟩

set_option maxRecDepth 100000 in
/-- C8 as stated fails for long names: with a caller and a callee of 300 bytes
each, both well-formed, the end callback records nothing under
`caller==>callee`; the call is recorded under the first 511 bytes of it. -/
theorem C8_hier_key_counterexample :
    names_ok [mk_entry (List.replicate 300 98) 0, mk_entry (List.replicate 300 97) 0] ∧
    (hp_mode_hier_endfn_cb
      (hier_fixture [mk_entry (List.replicate 300 98) 0, mk_entry (List.replicate 300 97) 0])
      (env_fixture 9 9)).map
      (fun g1 => (hp_stat_field g1.stats_count
          (List.replicate 300 97 ++ HP_STACK_DELIM ++ List.replicate 300 98) NAME_ct,
        hp_stat_field g1.stats_count
          ((List.replicate 300 97 ++ HP_STACK_DELIM ++ List.replicate 300 98).take 511) NAME_ct))
      = some (none, some 1) := by
  refine ⟨by decide, by rfl⟩

/-! ## Recursion levels and keys: claim C2 -/

theorem ROOT_SYMBOL_ok : CStr.wf ROOT_SYMBOL ∧ ROOT_SYMBOL ≠ [] := by decide

theorem hp_entry_text_level (e : hp_entry_t) (n : Nat) (hn : e.rlvl_hprof = n) :
    hp_entry_text e = if n ≠ 0 then e.name_hprof ++ [64] ++ fmt_d n else e.name_hprof := by
  subst hn; rfl

/-- One tracked call ended in hierarchical mode, stated for the chain of C2:
the call is recorded under the rendering `k` of the top two frames and the top
frame leaves the stack. -/
theorem END_PROFILING_hier_recorded (g : hp_global_t) (env : hp_env) (cur : hp_entry_t)
    (prev : List hp_entry_t) (k : CStr)
    (hmode : g.mode_cb.end_fn_cb = .hp_mode_hier_endfn_cb)
    (hok : end_callback_ok g) (hst : g.stats_count ≠ none)
    (hent : g.entries = cur :: prev) (hnames : names_ok (cur :: prev))
    (hk : hp_stack_text_spec (cur :: prev) 2 = k) (hfit : k.length < SCRATCH_BUF_LEN) :
    ∃ g', END_PROFILING g true env = some g' ∧ g'.entries = prev ∧
      g'.mode_cb = g.mode_cb ∧ end_callback_ok g' ∧ g'.stats_count ≠ none ∧
      recorded_under g g' k := by
  obtain ⟨g1, _, hsame, hok1, hend, hct⟩ := END_PROFILING_spec g env cur prev hok hent
  have hm1 : g1.mode_cb = g.mode_cb := by
    have := congrArg hp_global_t.mode_cb hsame; simpa using this
  obtain ⟨hst1, hrec⟩ := hct hmode hst
  have hkey : hp_function_stack_string g.entries 2 SCRATCH_BUF_LEN = some k := by
    rw [hent, ← hk]
    exact hp_function_stack_string_fits cur prev 2 SCRATCH_BUF_LEN hnames (by decide)
      (by rw [hk]; omega)
  exact ⟨_, hend, rfl, hm1, hok1, hst1, hrec k hkey⟩

/-- The macro `BEGIN_PROFILING` in hierarchical mode for a symbol the filter accepts
pushes a frame for the symbol, at the level `hp_mode_common_beginfn` finds. -/
theorem BEGIN_PROFILING_hier_push (g : hp_global_t) (symbol : CStr) (env : hp_env)
    (hmode : g.mode_cb.begin_fn_cb = .hp_mode_hier_beginfn_cb)
    (hacc : hp_filter_entry g (hp_inline_hash symbol) symbol = false) :
    ∃ cur, BEGIN_PROFILING g symbol env = some (push_frame g cur, true) ∧
      cur.name_hprof = symbol ∧ cur.hash_code = hp_inline_hash symbol ∧
      cur.rlvl_hprof = (if g.func_hash_counters (hp_inline_hash symbol) > 0
        then hp_recurse_level g.entries symbol else 0) := by
  obtain ⟨cur, h1, h2, h3, h4⟩ := BEGIN_PROFILING_hier g symbol env hmode hacc
  refine ⟨cur, ?_, h2, h3, h4⟩
  rw [h1]; unfold push_frame; rw [h3]

/-- C2, as amended.  Let `A` be a well-formed, non-empty symbol name other
than the root symbol, short enough for `A@1==>A@2` to fit in the 512-byte
scratch buffer (`2 * |A| + 7 < 512`) and accepted by the filter.  In a
hierarchical session whose stack holds only the root frame and whose hash
counters count the live frames, the calls `A, A, A` push three frames with
recursion levels 0, 1, 2, and the three ends record the calls under
`A@1==>A@2`, `A==>A@1` and `main()==>A`, leaving the root frame. -/
theorem C2_triple_recursion_levels_and_keys (g : hp_global_t) (A : CStr) (root : hp_entry_t)
    (e1 e2 e3 e4 e5 e6 : hp_env) (ht : hp_array) (fr : List Nat)
    (hA : CStr.wf A) (hne : A ≠ []) (hroot : A ≠ ROOT_SYMBOL)
    (hlen : 2 * A.length + 7 < SCRATCH_BUF_LEN)
    (hent : g.entries = [root]) (hrn : root.name_hprof = ROOT_SYMBOL)
    (hrl : root.rlvl_hprof = 0)
    (hcnt : ∀ h, g.func_hash_counters h = hash_count g.entries h % 256)
    (hb : g.mode_cb.begin_fn_cb = .hp_mode_hier_beginfn_cb)
    (he : g.mode_cb.end_fn_cb = .hp_mode_hier_endfn_cb)
    (hst : g.stats_count = some ht) (hco : counts_only ht)
    (hfr : g.cpu_frequencies = some fr)
    (hacc : hp_filter_entry g (hp_inline_hash A) A = false) :
    ∃ g1 g2 g3 g4 g5 g6,
      BEGIN_PROFILING g A e1 = some (g1, true) ∧
      BEGIN_PROFILING g1 A e2 = some (g2, true) ∧
      BEGIN_PROFILING g2 A e3 = some (g3, true) ∧
      g3.entries.map (fun e => (e.name_hprof, e.rlvl_hprof)) =
        [(A, 2), (A, 1), (A, 0), (ROOT_SYMBOL, 0)] ∧
      END_PROFILING g3 true e4 = some g4 ∧
      recorded_under g3 g4 (A ++ [64, 49] ++ HP_STACK_DELIM ++ (A ++ [64, 50])) ∧
      END_PROFILING g4 true e5 = some g5 ∧
      recorded_under g4 g5 (A ++ HP_STACK_DELIM ++ (A ++ [64, 49])) ∧
      END_PROFILING g5 true e6 = some g6 ∧
      recorded_under g5 g6 (ROOT_SYMBOL ++ HP_STACK_DELIM ++ A) ∧
      g6.entries = [root] := by
  have hdl : HP_STACK_DELIM.length = 3 := rfl
  have hsb : SCRATCH_BUF_LEN = 512 := rfl
  have hrootlen : ROOT_SYMBOL.length = 6 := rfl
  have hc0 : g.func_hash_counters (hp_inline_hash A) ≤ 1 := by
    rw [hcnt, hent]
    simp only [hash_count, List.filter_cons, List.filter_nil]
    split <;> simp
  -- the three begins
  obtain ⟨c1, hB1, hn1, hh1, hl1⟩ := BEGIN_PROFILING_hier_push g A e1 hb hacc
  have hl1' : c1.rlvl_hprof = 0 := by
    rw [hl1, hent]
    have : ¬ A = root.name_hprof := by rw [hrn]; exact hroot
    simp [hp_recurse_level, this]
  obtain ⟨c2, hB2, hn2, hh2, hl2⟩ := BEGIN_PROFILING_hier_push (push_frame g c1) A e2 hb hacc
  have hl2' : c2.rlvl_hprof = 1 := by
    rw [hl2]
    simp only [push_frame, hh1]
    rw [if_pos (by simp only [array_set, if_true]; omega)]
    simp only [hp_recurse_level, hn1, hl1', if_true]
  obtain ⟨c3, hB3, hn3, hh3, hl3⟩ :=
    BEGIN_PROFILING_hier_push (push_frame (push_frame g c1) c2) A e3 hb hacc
  have hl3' : c3.rlvl_hprof = 2 := by
    rw [hl3]
    simp only [push_frame, hh1, hh2]
    rw [if_pos (by simp only [array_set, if_true]; omega)]
    simp only [hp_recurse_level, hn2, hl2', if_true]
  -- the texts of the four frames
  have ht1 : hp_entry_text c1 = A := by rw [hp_entry_text_level c1 0 hl1', hn1]; rfl
  have ht2 : hp_entry_text c2 = A ++ [64, 49] := by
    rw [hp_entry_text_level c2 1 hl2', hn2]; simp [fmt_d, fmt_d_loop]
  have ht3 : hp_entry_text c3 = A ++ [64, 50] := by
    rw [hp_entry_text_level c3 2 hl3', hn3]; simp [fmt_d, fmt_d_loop]
  have htr : hp_entry_text root = ROOT_SYMBOL := by
    rw [hp_entry_text_level root 0 hrl, hrn]; rfl
  have hnames : names_ok [c3, c2, c1, root] := by
    intro e hm
    simp only [List.mem_cons, List.mem_singleton, List.not_mem_nil, or_false] at hm
    rcases hm with rfl | rfl | rfl | rfl
    · rw [hn3]; exact ⟨hA, hne⟩
    · rw [hn2]; exact ⟨hA, hne⟩
    · rw [hn1]; exact ⟨hA, hne⟩
    · rw [hrn]; exact ROOT_SYMBOL_ok
  have hnames2 : names_ok [c2, c1, root] := fun e hm => hnames e (List.mem_cons_of_mem _ hm)
  have hnames1 : names_ok [c1, root] := fun e hm => hnames2 e (List.mem_cons_of_mem _ hm)
  have hok0 : end_callback_ok g := by
    constructor
    · intro _ ht' hht'
      rw [hst] at hht'
      simp only [Option.some.injEq] at hht'
      subst hht'
      exact ⟨hco, by rw [hfr]; simp⟩
    · intro h; rw [he] at h; cases h
  -- the three ends
  obtain ⟨g4, hE4, hent4, hm4, hok4, hst4, hrec4⟩ := END_PROFILING_hier_recorded
    (push_frame (push_frame (push_frame g c1) c2) c3)
    e4 c3 [c2, c1, root] (A ++ [64, 49] ++ HP_STACK_DELIM ++ (A ++ [64, 50]))
    he hok0 (by simp [push_frame, hst]) (by simp [push_frame, hent]) hnames
    (by rw [hp_stack_text_spec_two, ht2, ht3])
    (by simp only [List.length_append, List.length_cons, List.length_nil, hdl, hsb] at *; omega)
  obtain ⟨g5, hE5, hent5, hm5, hok5, hst5, hrec5⟩ := END_PROFILING_hier_recorded
    g4 e5 c2 [c1, root] (A ++ HP_STACK_DELIM ++ (A ++ [64, 49]))
    (by rw [hm4]; exact he) hok4 hst4 hent4 hnames2
    (by rw [hp_stack_text_spec_two, ht1, ht2])
    (by simp only [List.length_append, List.length_cons, List.length_nil, hdl, hsb] at *; omega)
  obtain ⟨g6, hE6, hent6, hm6, hok6, hst6, hrec6⟩ := END_PROFILING_hier_recorded
    g5 e6 c1 [root] (ROOT_SYMBOL ++ HP_STACK_DELIM ++ A)
    (by rw [hm5, hm4]; exact he) hok5 hst5 hent5 hnames1
    (by rw [hp_stack_text_spec_two, htr, ht1])
    (by simp only [List.length_append, hrootlen, hdl, hsb] at *; omega)
  refine ⟨_, _, _, g4, g5, g6, hB1, hB2, hB3, ?_, hE4, hrec4, hE5, hrec5, hE6, hrec6, hent6⟩
  simp [push_frame, hent, hn1, hn2, hn3, hl1', hl2', hl3', hrn, hrl]

set_option maxRecDepth 100000 in
/-- C2 at `A = "A"` in the session that holds the root frame. -/
theorem C2_triple_recursion_witness :
    CStr.wf [65] ∧ ([65] : CStr) ≠ ROOT_SYMBOL ∧ 2 * ([65] : CStr).length + 7 < SCRATCH_BUF_LEN ∧
    hp_filter_entry (hier_fixture [mk_entry ROOT_SYMBOL 0]) (hp_inline_hash [65]) [65] = false ∧
    ∃ g1 g2 g3 g4 g5 g6,
      BEGIN_PROFILING (hier_fixture [mk_entry ROOT_SYMBOL 0]) [65] (env_fixture 1 0)
        = some (g1, true) ∧
      BEGIN_PROFILING g1 [65] (env_fixture 2 0) = some (g2, true) ∧
      BEGIN_PROFILING g2 [65] (env_fixture 3 0) = some (g3, true) ∧
      g3.entries.map (fun e => (e.name_hprof, e.rlvl_hprof)) =
        [([65], 2), ([65], 1), ([65], 0), (ROOT_SYMBOL, 0)] ∧
      END_PROFILING g3 true (env_fixture 4 1) = some g4 ∧
      recorded_under g3 g4 ([65] ++ [64, 49] ++ HP_STACK_DELIM ++ ([65] ++ [64, 50])) ∧
      END_PROFILING g4 true (env_fixture 5 1) = some g5 ∧
      recorded_under g4 g5 ([65] ++ HP_STACK_DELIM ++ ([65] ++ [64, 49])) ∧
      END_PROFILING g5 true (env_fixture 6 1) = some g6 ∧
      recorded_under g5 g6 (ROOT_SYMBOL ++ HP_STACK_DELIM ++ [65]) ∧
      g6.entries = [mk_entry ROOT_SYMBOL 0] :=
  ⟨by decide, by decide, by decide, rfl,
   C2_triple_recursion_levels_and_keys (hier_fixture [mk_entry ROOT_SYMBOL 0]) [65]
    (mk_entry ROOT_SYMBOL 0) (env_fixture 1 0) (env_fixture 2 0) (env_fixture 3 0)
    (env_fixture 4 1) (env_fixture 5 1) (env_fixture 6 1) [] [2400]
    (by decide) (by decide) (by decide) (by decide) rfl rfl rfl (fun _ => rfl) rfl rfl rfl
    counts_only_nil rfl rfl⟩

set_option maxRecDepth 100000 in
/-- C2 as stated fails in two ways.  For a name `A` of 300 bytes the second
frame is at level 1, but its end is not recorded under `A==>A@1`: the key is
cut to the 511 bytes the scratch buffer holds.  And for a name on the
blacklist, `BEGIN_PROFILING` pushes no frame at all. -/
theorem C2_triple_recursion_counterexample :
    CStr.wf (List.replicate 300 97) ∧ List.replicate 300 97 ≠ ROOT_SYMBOL ∧
    ((hp_run_begins (hier_fixture [mk_entry ROOT_SYMBOL 0])
        [List.replicate 300 97, List.replicate 300 97] (env_fixture 1 0)).map
      (fun g => g.entries.map (fun e => e.rlvl_hprof))) = some [1, 0, 0] ∧
    (((hp_run_begins (hier_fixture [mk_entry ROOT_SYMBOL 0])
        [List.replicate 300 97, List.replicate 300 97] (env_fixture 1 0)).bind
      (fun g => hp_mode_hier_endfn_cb g (env_fixture 2 1))).map
      (fun g => (hp_stat_field g.stats_count
          (List.replicate 300 97 ++ HP_STACK_DELIM ++ (List.replicate 300 97 ++ [64, 49]))
          NAME_ct,
        hp_stat_field g.stats_count
          ((List.replicate 300 97 ++ HP_STACK_DELIM ++
            (List.replicate 300 97 ++ [64, 49])).take 511) NAME_ct)))
      = some (none, some 1) ∧
    (BEGIN_PROFILING
      (hp_filtered_functions_filter_init
        { hier_fixture [mk_entry ROOT_SYMBOL 0] with
          filtered_type := 1, filtered_function_names := some [[65]] })
      [65] (env_fixture 1 0)).map (fun r => (r.2, r.1.entries.length)) = some (false, 1) := by
  refine ⟨by decide, by decide, by rfl, by rfl, by rfl⟩

/-! ## Recursion levels and the 8-bit counters: claim C1 -/

set_option maxRecDepth 1000000 in
/-- C1, the failing input: 257 nested calls of one function `A` under the root
frame.  After 256 of them the `uint8` counter of the hash of `A` has wrapped
to 0 although 256 frames named `A` are live; the 257th frame therefore skips
the scan and gets recursion level 0, with 256 frames of its name below it. -/
theorem C1_recursion_level_wraps_after_256_frames :
    ((hp_run_begins (hier_fixture [mk_entry ROOT_SYMBOL 0]) (List.replicate 256 [65])
        (env_fixture 1 0)).map
      (fun g => (g.func_hash_counters (hp_inline_hash [65]),
        (g.entries.filter (fun e => decide (e.name_hprof = [65]))).length))) = some (0, 256) ∧
    ((hp_run_begins (hier_fixture [mk_entry ROOT_SYMBOL 0]) (List.replicate 257 [65])
        (env_fixture 1 0)).map
      (fun g => (g.entries.head?.map (fun e => (e.name_hprof, e.rlvl_hprof)),
        (g.entries.tail.filter (fun e => decide (e.name_hprof = [65]))).length)))
      = some (some ([65], 0), 256) := by
  refine ⟨by rfl, by rfl⟩

/-! ## Time arithmetic: claims C17 and C18 -/

theorem time_us_mk (t : Int) (ht : 0 ≤ t) :
    time_us { tv_sec := t / 1000000, tv_usec := t % 1000000 } = t ∧
    timeval_ok { tv_sec := t / 1000000, tv_usec := t % 1000000 } := by
  refine ⟨?_, ?_, ?_, ?_⟩
  · simp only [time_us]; omega
  · simp only; omega
  · simp only; omega
  · simp only; omega

/-- The timestamp `hp_trunc_time` computes from a total in `[0, 2^64)`. -/
theorem hp_trunc_time_eq (tv : timeval) (intr : Nat) (hintr : 0 < intr)
    (ht0 : 0 ≤ time_us tv) (hno : time_us tv < 2 ^ 64) :
    hp_trunc_time tv intr = some
      ⟨time_us tv / (intr : Int) * (intr : Int) / 1000000,
       time_us tv / (intr : Int) * (intr : Int) % 1000000⟩ := by
  have hi : (0 : Int) < (intr : Int) := by exact_mod_cast hintr
  have hmod : (tv.tv_sec * 1000000 + tv.tv_usec) % 2 ^ 64 = time_us tv :=
    Int.emod_eq_of_lt ht0 hno
  have hq0 : 0 ≤ time_us tv / (intr : Int) := Int.ediv_nonneg ht0 (le_of_lt hi)
  have hle : time_us tv / (intr : Int) * (intr : Int) ≤ time_us tv :=
    Int.ediv_mul_le _ (ne_of_gt hi)
  have hp0 : 0 ≤ time_us tv / (intr : Int) * (intr : Int) := mul_nonneg hq0 (le_of_lt hi)
  have hmod2 : (time_us tv / (intr : Int) * (intr : Int)) % 2 ^ 64 =
      time_us tv / (intr : Int) * (intr : Int) :=
    Int.emod_eq_of_lt hp0 (lt_of_le_of_lt hle hno)
  simp only [hp_trunc_time, if_neg (Nat.pos_iff_ne_zero.mp hintr), hmod, hmod2]

/-- C17. For an interval `intr > 0` and a timestamp with seconds not negative,
microseconds in `[0, 1000000)` and a total `t` below `2^64`, `hp_trunc_time`
gives the timestamp whose total is `t / intr * intr`: a multiple of `intr`
with `result <= t < result + intr`, its microseconds again in `[0, 1000000)`;
and truncating the result again gives the same timestamp. -/
theorem C17_trunc_time_is_bucket_start (tv : timeval) (intr : Nat) (hintr : 0 < intr)
    (htv : timeval_ok tv) (hno : time_us tv < 2 ^ 64) :
    ∃ tv1, hp_trunc_time tv intr = some tv1 ∧
      time_us tv1 = time_us tv / (intr : Int) * (intr : Int) ∧
      time_us tv1 % (intr : Int) = 0 ∧
      time_us tv1 ≤ time_us tv ∧ time_us tv < time_us tv1 + (intr : Int) ∧
      timeval_ok tv1 ∧
      hp_trunc_time tv1 intr = some tv1 := by
  obtain ⟨hs, hu0, hu1⟩ := htv
  have hi : (0 : Int) < (intr : Int) := by exact_mod_cast hintr
  have ht0 : 0 ≤ time_us tv := by simp only [time_us]; omega
  have hq0 : 0 ≤ time_us tv / (intr : Int) := Int.ediv_nonneg ht0 (le_of_lt hi)
  have hle : time_us tv / (intr : Int) * (intr : Int) ≤ time_us tv :=
    Int.ediv_mul_le _ (ne_of_gt hi)
  have hp0 : 0 ≤ time_us tv / (intr : Int) * (intr : Int) := mul_nonneg hq0 (le_of_lt hi)
  have hlt : time_us tv < time_us tv / (intr : Int) * (intr : Int) + (intr : Int) := by
    have := Int.lt_ediv_add_one_mul_self (time_us tv) hi
    linarith
  obtain ⟨hT, hok⟩ := time_us_mk (time_us tv / (intr : Int) * (intr : Int)) hp0
  refine ⟨_, hp_trunc_time_eq tv intr hintr ht0 hno, hT, ?_, ?_, ?_, hok, ?_⟩
  · rw [hT]; exact Int.mul_emod_left _ _
  · rw [hT]; exact hle
  · rw [hT]; exact hlt
  · rw [hp_trunc_time_eq _ intr hintr (by rw [hT]; exact hp0)
      (by rw [hT]; exact lt_of_le_of_lt hle hno), hT,
      Int.mul_ediv_cancel _ (ne_of_gt hi)]

/-- C17 at the timestamp 1700000000.123456 and the sampling interval. -/
theorem C17_trunc_time_witness :
    timeval_ok ⟨1700000000, 123456⟩ ∧
    hp_trunc_time ⟨1700000000, 123456⟩ XHPROF_SAMPLING_INTERVAL = some ⟨1700000000, 100000⟩ ∧
    ∃ tv1, hp_trunc_time ⟨1700000000, 123456⟩ 100000 = some tv1 ∧
      time_us tv1 = time_us ⟨1700000000, 123456⟩ / ((100000 : Nat) : Int) * ((100000 : Nat) : Int) ∧
      time_us tv1 % ((100000 : Nat) : Int) = 0 ∧
      time_us tv1 ≤ time_us ⟨1700000000, 123456⟩ ∧
      time_us ⟨1700000000, 123456⟩ < time_us tv1 + ((100000 : Nat) : Int) ∧
      timeval_ok tv1 ∧
      hp_trunc_time tv1 100000 = some tv1 :=
  ⟨by decide, by decide,
   C17_trunc_time_is_bucket_start ⟨1700000000, 123456⟩ 100000 (by decide) (by decide)
    (by decide)⟩

/-- C18. For a timestamp with seconds not negative and microseconds in
`[0, 1000000)` and an increment `n` with `total + n` below `2^64`,
`incr_us_interval` gives the timestamp whose total is the old total plus `n`,
with microseconds in `[0, 1000000)`; so `get_us_interval` from the old to the
new timestamp is `n`. -/
theorem C18_incr_us_interval_adds_exactly (tv : timeval) (n : Nat)
    (htv : timeval_ok tv) (hno : time_us tv + (n : Int) < 2 ^ 64) :
    time_us (incr_us_interval tv n) = time_us tv + (n : Int) ∧
    timeval_ok (incr_us_interval tv n) ∧
    get_us_interval tv (incr_us_interval tv n) = (n : Int) := by
  obtain ⟨hs, hu0, hu1⟩ := htv
  have ht0 : 0 ≤ time_us tv := by simp only [time_us]; omega
  have hn0 : (0 : Int) ≤ (n : Int) := Int.ofNat_nonneg n
  have hsum0 : 0 ≤ (n : Int) + time_us tv := by omega
  have hmod : ((n : Int) + (tv.tv_sec * 1000000 + tv.tv_usec)) % 2 ^ 64 =
      (n : Int) + time_us tv := by
    show ((n : Int) + time_us tv) % 2 ^ 64 = _
    exact Int.emod_eq_of_lt hsum0 (by omega)
  obtain ⟨hT, hok⟩ := time_us_mk ((n : Int) + time_us tv) hsum0
  have hE : incr_us_interval tv n =
      ⟨((n : Int) + time_us tv) / 1000000, ((n : Int) + time_us tv) % 1000000⟩ := by
    simp only [incr_us_interval, hmod]
  rw [hE]
  refine ⟨by rw [hT]; omega, hok, ?_⟩
  have : get_us_interval tv
      ⟨((n : Int) + time_us tv) / 1000000, ((n : Int) + time_us tv) % 1000000⟩ =
      time_us ⟨((n : Int) + time_us tv) / 1000000, ((n : Int) + time_us tv) % 1000000⟩
        - time_us tv := by
    simp only [get_us_interval, time_us]; ring
  rw [this, hT]; omega

/-- C18 at 1700000000.950000 plus one sampling interval. -/
theorem C18_incr_us_interval_witness :
    timeval_ok ⟨1700000000, 950000⟩ ∧
    incr_us_interval ⟨1700000000, 950000⟩ XHPROF_SAMPLING_INTERVAL = ⟨1700000001, 50000⟩ ∧
    (time_us (incr_us_interval ⟨1700000000, 950000⟩ 100000) =
        time_us ⟨1700000000, 950000⟩ + ((100000 : Nat) : Int) ∧
      timeval_ok (incr_us_interval ⟨1700000000, 950000⟩ 100000) ∧
      get_us_interval ⟨1700000000, 950000⟩ (incr_us_interval ⟨1700000000, 950000⟩ 100000) =
        ((100000 : Nat) : Int)) :=
  ⟨by decide, by decide,
   C18_incr_us_interval_adds_exactly ⟨1700000000, 950000⟩ 100000 (by decide) (by decide)⟩

/-! ## Pairs of begin and end: claims C14, C15 and C16 -/

theorem same_tracker_exists (g g1 : hp_global_t) (h : same_tracker g g1) :
    ∃ st lc t c, g1 = { g with
      stats_count := st, layers_count := lc, last_sample_time := t, last_sample_tsc := c } :=
  ⟨_, _, _, _, h⟩

theorem same_config_refl (g : hp_global_t) : same_config g g :=
  ⟨_, _, _, _, _, _, _, rfl⟩

theorem same_config_trans (g g1 g2 : hp_global_t) (h1 : same_config g g1)
    (h2 : same_config g1 g2) : same_config g g2 := by
  obtain ⟨st, lc, t, c, e, f, ctr, rfl⟩ := h1
  obtain ⟨st2, lc2, t2, c2, e2, f2, ctr2, rfl⟩ := h2
  exact ⟨_, _, _, _, _, _, _, rfl⟩

/-- The filter looks at the configuration only. -/
theorem hp_filter_entry_same_config (g g1 : hp_global_t) (h : same_config g g1)
    (hash_code : Nat) (s : CStr) : hp_filter_entry g1 hash_code s = hp_filter_entry g hash_code s := by
  obtain ⟨st, lc, t, c, e, f, ctr, rfl⟩ := h
  rfl

theorem modes_paired_same_config (g g1 : hp_global_t) (h : same_config g g1)
    (hp : modes_paired g) : modes_paired g1 := by
  obtain ⟨st, lc, t, c, e, f, ctr, rfl⟩ := h
  exact hp

/-- The begin callback of a session returns, changes neither the stack, the
free list nor the counters, and leaves name, hash and level of the new entry
as they are. -/
theorem begin_fn_cb_spec (g : hp_global_t) (cur : hp_entry_t) (env : hp_env)
    (hok : end_callback_ok g) (hpair : modes_paired g) :
    ∃ g1 cur1, begin_fn_cb g cur env = some (g1, cur1) ∧ same_tracker g g1 ∧
      end_callback_ok g1 ∧ cur1.name_hprof = cur.name_hprof ∧
      cur1.hash_code = cur.hash_code ∧ cur1.rlvl_hprof = cur.rlvl_hprof := by
  cases hmode : g.mode_cb.begin_fn_cb with
  | hp_mode_dummy_beginfn_cb =>
    exact ⟨g, cur, by simp [begin_fn_cb, hmode], same_tracker_refl g, hok, rfl, rfl, rfl⟩
  | hp_mode_hier_beginfn_cb =>
    obtain ⟨h1, h2, h3⟩ := hp_mode_hier_beginfn_cb_keeps g cur env
    exact ⟨g, _, by simp [begin_fn_cb, hmode], same_tracker_refl g, hok, h1, h2, h3⟩
  | hp_mode_sampled_beginfn_cb =>
    have hend := hpair hmode
    obtain ⟨hint, hlast, hst⟩ := hok.2 hend
    cases he : g.entries with
    | nil =>
      refine ⟨g, cur, ?_, same_tracker_refl g, hok, rfl, rfl, rfl⟩
      simp [begin_fn_cb, hmode, hp_sample_check, he]
    | cons e prev =>
      obtain ⟨g1, hg1, hsame, hl1, hs1⟩ := hp_sample_check_loop_returns env.tsc (2 ^ 64) g hint
        hlast hst (by rw [he]; simp) (Nat.mod_lt _ (by positivity))
      have hm1 : g1.mode_cb = g.mode_cb := by
        have := congrArg hp_global_t.mode_cb hsame; simpa using this
      have hi1 : g1.sampling_interval_tsc = g.sampling_interval_tsc := by
        have := congrArg hp_global_t.sampling_interval_tsc hsame; simpa using this
      refine ⟨g1, cur, ?_, hsame, ⟨?_, ?_⟩, rfl, rfl, rfl⟩
      · simp only [begin_fn_cb, hmode, hp_sample_check, he, hg1, Option.map_some']
      · intro h; rw [hm1, hend] at h; cases h
      · intro _; rw [hi1]; exact ⟨hint, hl1, hs1⟩

/-- The macro `BEGIN_PROFILING` for a symbol the filter accepts, in any mode
whose callbacks can return: a frame for the symbol tops the stack, the free
list has lost its head, the counter of the hash is bumped, and the
configuration is as before. -/
theorem BEGIN_PROFILING_spec (g : hp_global_t) (symbol : CStr) (env : hp_env)
    (hok : end_callback_ok g) (hpair : modes_paired g)
    (hacc : hp_filter_entry g (hp_inline_hash symbol) symbol = false) :
    ∃ g1 cur, BEGIN_PROFILING g symbol env = some (g1, true) ∧
      same_config g g1 ∧ end_callback_ok g1 ∧
      g1.entries = cur :: g.entries ∧
      g1.entry_free_list = g.entry_free_list.tail ∧
      g1.func_hash_counters = array_set g.func_hash_counters (hp_inline_hash symbol)
        ((g.func_hash_counters (hp_inline_hash symbol) + 1) % 256) ∧
      cur.name_hprof = symbol ∧ cur.hash_code = hp_inline_hash symbol ∧
      cur.rlvl_hprof = (if g.func_hash_counters (hp_inline_hash symbol) > 0
        then hp_recurse_level g.entries symbol else 0) := by
  obtain ⟨g1, cur1, hcb, hsame, hok1, hn, hh, hl⟩ := begin_fn_cb_spec
    { g with
      entry_free_list := g.entry_free_list.tail,
      func_hash_counters := array_set g.func_hash_counters (hp_inline_hash symbol)
        ((g.func_hash_counters (hp_inline_hash symbol) + 1) % 256) }
    { (hp_fast_alloc_hprof_entry g env).2 with
      hash_code := hp_inline_hash symbol,
      name_hprof := symbol,
      rlvl_hprof := (if g.func_hash_counters (hp_inline_hash symbol) > 0
        then hp_recurse_level g.entries symbol else 0) }
    env hok hpair
  obtain ⟨st, lc, t, c, hg1⟩ := same_tracker_exists _ _ hsame
  subst hg1
  refine ⟨{ g with
      stats_count := st, layers_count := lc, last_sample_time := t, last_sample_tsc := c,
      entries := cur1 :: g.entries,
      entry_free_list := g.entry_free_list.tail,
      func_hash_counters := array_set g.func_hash_counters (hp_inline_hash symbol)
        ((g.func_hash_counters (hp_inline_hash symbol) + 1) % 256) }, cur1, ?_,
    ⟨_, _, _, _, _, _, _, rfl⟩, ?_, rfl, rfl, rfl, hn, hh, hl⟩
  · simp only [BEGIN_PROFILING, hacc, Bool.not_false, if_true, hp_fast_alloc_state,
      hp_mode_common_beginfn]
    rw [hcb]
  · exact hok1

/-- The macro `BEGIN_PROFILING` for a symbol the filter rejects does nothing
but clear `profile_curr`. -/
theorem BEGIN_PROFILING_rejected (g : hp_global_t) (symbol : CStr) (env : hp_env)
    (hrej : hp_filter_entry g (hp_inline_hash symbol) symbol = true) :
    BEGIN_PROFILING g symbol env = some (g, false) := by
  simp [BEGIN_PROFILING, hrej]

/-- The macro `END_PROFILING` on a stack with top `cur`: it returns, the top
is unlinked and put on the free list, the counter of its hash goes down by
one in `uint8`, and the configuration is as before. -/
theorem END_PROFILING_fields (g : hp_global_t) (env : hp_env) (cur : hp_entry_t)
    (prev : List hp_entry_t) (hok : end_callback_ok g) (hent : g.entries = cur :: prev) :
    ∃ g2, END_PROFILING g true env = some g2 ∧ same_config g g2 ∧ end_callback_ok g2 ∧
      g2.entries = prev ∧ g2.entry_free_list = cur :: g.entry_free_list ∧
      g2.func_hash_counters = array_set g.func_hash_counters cur.hash_code
        ((g.func_hash_counters cur.hash_code + 255) % 256) := by
  obtain ⟨g1, _, hsame, hok1, hend, _⟩ := END_PROFILING_spec g env cur prev hok hent
  obtain ⟨st, lc, t, c, hg1⟩ := same_tracker_exists g g1 hsame
  subst hg1
  exact ⟨_, hend, ⟨_, _, _, _, _, _, _, rfl⟩, hok1, rfl, rfl, rfl⟩

/-- A counter below 256 that is bumped and then lowered in `uint8` is back at
its value, and no other counter has moved. -/
theorem array_set_bump_lower (a : Nat → Nat) (i : Nat) (hi : a i < 256) :
    array_set (array_set a i ((a i + 1) % 256)) i
      ((array_set a i ((a i + 1) % 256) i + 255) % 256) = a := by
  funext j
  by_cases hj : j = i
  · subst hj
    simp only [array_set, if_true]
    omega
  · simp [array_set, hj]

/-- A run of `BEGIN_PROFILING` over symbols the filter accepts: it returns with
one new frame per symbol on the stack and as many entries fewer on the free
list. -/
theorem hp_run_begins_spec (env : hp_env) (symbols : List CStr) :
    ∀ g : hp_global_t, end_callback_ok g → modes_paired g →
      (∀ s ∈ symbols, hp_filter_entry g (hp_inline_hash s) s = false) →
      ∃ g1 frames, hp_run_begins g symbols env = some g1 ∧ same_config g g1 ∧
        end_callback_ok g1 ∧ g1.entries = frames ++ g.entries ∧
        frames.length = symbols.length ∧
        g1.entry_free_list = g.entry_free_list.drop symbols.length := by
  induction symbols with
  | nil =>
    intro g hok _ _
    exact ⟨g, [], rfl, same_config_refl g, hok, rfl, rfl, rfl⟩
  | cons s rest ih =>
    intro g hok hpair hacc
    obtain ⟨g1, cur, hb, hcfg, hok1, he, hf, _, _, _, _⟩ :=
      BEGIN_PROFILING_spec g s env hok hpair (hacc s (List.mem_cons_self _ _))
    obtain ⟨g2, frames, hr, hcfg2, hok2, he2, hlen, hf2⟩ := ih g1 hok1
      (modes_paired_same_config g g1 hcfg hpair)
      (fun x hx => by
        rw [hp_filter_entry_same_config g g1 hcfg]
        exact hacc x (List.mem_cons_of_mem _ hx))
    refine ⟨g2, frames ++ [cur], ?_, same_config_trans g g1 g2 hcfg hcfg2, hok2, ?_, ?_, ?_⟩
    · simp only [hp_run_begins, hb]; exact hr
    · rw [he2, he]; simp
    · simp [hlen]
    · rw [hf2, hf, List.drop_tail]; rfl

/-- A run of `END_PROFILING` over the top `n` frames of a stack: it returns,
the frames are gone from the stack and on the free list, the one ended last on
top. -/
theorem hp_run_ends_spec (env : hp_env) (n : Nat) :
    ∀ g : hp_global_t, end_callback_ok g → n ≤ g.entries.length →
      ∃ g1, hp_run_ends n g env = some g1 ∧ same_config g g1 ∧ end_callback_ok g1 ∧
        g1.entries = g.entries.drop n ∧
        g1.entry_free_list = (g.entries.take n).reverse ++ g.entry_free_list := by
  induction n with
  | zero =>
    intro g hok _
    exact ⟨g, rfl, same_config_refl g, hok, rfl, rfl⟩
  | succ n ih =>
    intro g hok hn
    cases hent : g.entries with
    | nil => rw [hent] at hn; simp at hn
    | cons cur prev =>
      obtain ⟨g1, hend, hcfg, hok1, he, hf, _⟩ := END_PROFILING_fields g env cur prev hok hent
      obtain ⟨g2, hr, hcfg2, hok2, he2, hf2⟩ := ih g1 hok1 (by
        rw [he]; rw [hent] at hn; simpa using hn)
      refine ⟨g2, ?_, same_config_trans g g1 g2 hcfg hcfg2, hok2, ?_, ?_⟩
      · simp only [hp_run_ends, hend]; exact hr
      · rw [he2, he]; rfl
      · rw [hf2, hf, he]; simp

/-- C14. When `hp_filter_entry` rejects the symbol, `BEGIN_PROFILING` returns
with `profile_curr = 0` and the state it was given, whole (stack, hash
counters, free list, stats array and all the rest), and `END_PROFILING` with
`profile_curr = 0` returns the state it was given as well. -/
theorem C14_rejected_call_records_nothing (g : hp_global_t) (symbol : CStr) (env env1 : hp_env)
    (hrej : hp_filter_entry g (hp_inline_hash symbol) symbol = true) :
    BEGIN_PROFILING g symbol env = some (g, false) ∧
      END_PROFILING g false env1 = some g :=
  ⟨BEGIN_PROFILING_rejected g symbol env hrej, rfl⟩

/-- C14 on the blacklist `{"B"}`: the call of `B` is rejected and the pair of
macros leaves the state alone. -/
theorem C14_rejected_call_witness :
    hp_filter_entry (hp_filtered_functions_filter_init (filter_fixture 1 [[66]]))
      (hp_inline_hash [66]) [66] = true ∧
    BEGIN_PROFILING (hp_filtered_functions_filter_init (filter_fixture 1 [[66]])) [66]
      (env_fixture 7 5) =
      some (hp_filtered_functions_filter_init (filter_fixture 1 [[66]]), false) ∧
    END_PROFILING (hp_filtered_functions_filter_init (filter_fixture 1 [[66]])) false
      (env_fixture 9 5) =
      some (hp_filtered_functions_filter_init (filter_fixture 1 [[66]])) :=
  ⟨by decide,
    C14_rejected_call_records_nothing (hp_filtered_functions_filter_init (filter_fixture 1 [[66]]))
      [66] (env_fixture 7 5) (env_fixture 9 5) (by decide)⟩

/-- C15. In a state whose callbacks can return (`end_callback_ok`, and a
sampled begin callback paired with the sampled end callback) and whose counter
for the hash of the symbol is a `uint8` value, `BEGIN_PROFILING` of an accepted
symbol `s` returns with `profile_curr = 1` and a frame named `s` on top of the
old stack, and the `END_PROFILING` that follows returns with the stack (every
frame, in order) and every hash counter equal to what they were before the
pair; the frame ends up on top of the free list. -/
theorem C15_begin_end_pair_restores_stack_and_counters (g : hp_global_t) (symbol : CStr)
    (env env1 : hp_env) (hok : end_callback_ok g) (hpair : modes_paired g)
    (hctr : g.func_hash_counters (hp_inline_hash symbol) < 256)
    (hacc : hp_filter_entry g (hp_inline_hash symbol) symbol = false) :
    ∃ g1 cur g2, BEGIN_PROFILING g symbol env = some (g1, true) ∧
      g1.entries = cur :: g.entries ∧ cur.name_hprof = symbol ∧
      END_PROFILING g1 true env1 = some g2 ∧
      g2.entries = g.entries ∧
      g2.func_hash_counters = g.func_hash_counters ∧
      g2.entry_free_list = cur :: g.entry_free_list.tail := by
  obtain ⟨g1, cur, hb, _, hok1, he, hf, hc, hn, hh, _⟩ :=
    BEGIN_PROFILING_spec g symbol env hok hpair hacc
  obtain ⟨g2, hend, _, _, he2, hf2, hc2⟩ := END_PROFILING_fields g1 env1 cur g.entries hok1 he
  refine ⟨g1, cur, g2, hb, he, hn, hend, he2, ?_, ?_⟩
  · rw [hc2, hh, hc]
    exact array_set_bump_lower g.func_hash_counters (hp_inline_hash symbol) hctr
  · rw [hf2, hf]

/-- C15 on a hierarchical session inside `foo` called from `main()`: a call of
`bar` begins and ends. -/
theorem C15_begin_end_pair_witness :
    ∃ g1 cur g2,
      BEGIN_PROFILING (hier_fixture [mk_entry [102, 111, 111] 0, mk_entry ROOT_SYMBOL 0])
        [98, 97, 114] (env_fixture 7 5) = some (g1, true) ∧
      g1.entries = cur :: (hier_fixture [mk_entry [102, 111, 111] 0,
        mk_entry ROOT_SYMBOL 0]).entries ∧
      cur.name_hprof = [98, 97, 114] ∧
      END_PROFILING g1 true (env_fixture 9 5) = some g2 ∧
      g2.entries = (hier_fixture [mk_entry [102, 111, 111] 0, mk_entry ROOT_SYMBOL 0]).entries ∧
      g2.func_hash_counters =
        (hier_fixture [mk_entry [102, 111, 111] 0, mk_entry ROOT_SYMBOL 0]).func_hash_counters ∧
      g2.entry_free_list = cur :: (hier_fixture [mk_entry [102, 111, 111] 0,
        mk_entry ROOT_SYMBOL 0]).entry_free_list.tail :=
  C15_begin_end_pair_restores_stack_and_counters
    (hier_fixture [mk_entry [102, 111, 111] 0, mk_entry ROOT_SYMBOL 0]) [98, 97, 114]
    (env_fixture 7 5) (env_fixture 9 5) (hier_fixture_ok _) (by intro h; cases h)
    (Nat.mod_lt _ (by decide)) rfl

/-- C16. From a state with an empty free list whose callbacks can return, `N`
nested calls of accepted symbols followed by their `N` ends leave the old
stack and exactly `N` entries on the free list; in the next run of `N` nested
calls of accepted symbols the state before call number `k + 1` has `N - k`
entries on the free list, so `hp_fast_alloc_hprof_entry` hands out the head of
the free list whatever `malloc` would have returned; and at depth `N` the free
list is empty. -/
theorem C16_free_list_is_reused (g : hp_global_t) (first next : List CStr) (env : hp_env)
    (hok : end_callback_ok g) (hpair : modes_paired g)
    (hempty : g.entry_free_list = [])
    (hfirst : ∀ s ∈ first, hp_filter_entry g (hp_inline_hash s) s = false)
    (hnext : ∀ s ∈ next, hp_filter_entry g (hp_inline_hash s) s = false)
    (hlen : next.length = first.length) :
    ∃ g1 g2 g3, hp_run_begins g first env = some g1 ∧
      g1.entries.length = g.entries.length + first.length ∧
      hp_run_ends first.length g1 env = some g2 ∧
      g2.entries = g.entries ∧ g2.entry_free_list.length = first.length ∧
      (∀ k, k < first.length → ∃ gk p rest, hp_run_begins g2 (next.take k) env = some gk ∧
        gk.entry_free_list.length = first.length - k ∧
        gk.entry_free_list = p :: rest ∧
        ∀ env1, hp_fast_alloc_hprof_entry gk env1 = ({ gk with entry_free_list := rest }, p)) ∧
      hp_run_begins g2 next env = some g3 ∧ g3.entry_free_list = [] ∧
      g3.entries.length = g.entries.length + first.length := by
  obtain ⟨g1, frames, hr1, hcfg1, hok1, he1, hfl, hf1⟩ :=
    hp_run_begins_spec env first g hok hpair hfirst
  obtain ⟨g2, hr2, hcfg2, hok2, he2, hf2⟩ := hp_run_ends_spec env first.length g1 hok1
    (by rw [he1]; simp [hfl])
  have hcfg := same_config_trans g g1 g2 hcfg1 hcfg2
  have hpair2 := modes_paired_same_config g g2 hcfg hpair
  have hacc2 : ∀ s ∈ next, hp_filter_entry g2 (hp_inline_hash s) s = false := by
    intro s hs; rw [hp_filter_entry_same_config g g2 hcfg]; exact hnext s hs
  have hent2 : g2.entries = g.entries := by
    rw [he2, he1, ← hfl]; simp
  have hfree2 : g2.entry_free_list = frames.reverse := by
    rw [hf2, he1, hf1, hempty, ← hfl]; simp
  obtain ⟨g3, frames3, hr3, _, _, he3, hfl3, hf3⟩ :=
    hp_run_begins_spec env next g2 hok2 hpair2 hacc2
  refine ⟨g1, g2, g3, hr1, ?_, hr2, hent2, ?_, ?_, hr3, ?_, ?_⟩
  · rw [he1]; simp [hfl]; omega
  · rw [hfree2]; simp [hfl]
  · intro k hk
    obtain ⟨gk, framesk, hrk, _, _, _, _, hfk⟩ :=
      hp_run_begins_spec env (next.take k) g2 hok2 hpair2
        (fun s hs => hacc2 s (List.mem_of_mem_take hs))
    have hklen : (next.take k).length = k := by
      rw [List.length_take, hlen]; omega
    have hlk : gk.entry_free_list.length = first.length - k := by
      rw [hfk, hklen, hfree2]; simp [hfl]
    cases hcase : gk.entry_free_list with
    | nil => rw [hcase] at hlk; simp at hlk; omega
    | cons p rest =>
      refine ⟨gk, p, rest, hrk, hlk, hcase, ?_⟩
      intro env1; simp [hp_fast_alloc_hprof_entry, hcase]
  · rw [hf3, hfree2, hlen]
    apply List.drop_eq_nil_of_le; simp [hfl]
  · rw [he3, hent2]; simp [hfl3, hlen]; omega

/-- C16 on a hierarchical session inside `main()`: the calls `foo` and `bar`
unwind, and the calls `a` and `b` reuse their two entries. -/
theorem C16_free_list_witness :
    (hier_fixture [mk_entry ROOT_SYMBOL 0]).entry_free_list = [] ∧
    ∃ g1 g2 g3, hp_run_begins (hier_fixture [mk_entry ROOT_SYMBOL 0])
        [[102, 111, 111], [98, 97, 114]] (env_fixture 7 5) = some g1 ∧
      g1.entries.length = (hier_fixture [mk_entry ROOT_SYMBOL 0]).entries.length + 2 ∧
      hp_run_ends 2 g1 (env_fixture 7 5) = some g2 ∧
      g2.entries = (hier_fixture [mk_entry ROOT_SYMBOL 0]).entries ∧
      g2.entry_free_list.length = 2 ∧
      (∀ k, k < 2 → ∃ gk p rest,
        hp_run_begins g2 ([[97], [98]].take k) (env_fixture 7 5) = some gk ∧
        gk.entry_free_list.length = 2 - k ∧
        gk.entry_free_list = p :: rest ∧
        ∀ env1, hp_fast_alloc_hprof_entry gk env1 = ({ gk with entry_free_list := rest }, p)) ∧
      hp_run_begins g2 [[97], [98]] (env_fixture 7 5) = some g3 ∧ g3.entry_free_list = [] ∧
      g3.entries.length = (hier_fixture [mk_entry ROOT_SYMBOL 0]).entries.length + 2 :=
  ⟨rfl, C16_free_list_is_reused (hier_fixture [mk_entry ROOT_SYMBOL 0])
    [[102, 111, 111], [98, 97, 114]] [[97], [98]] (env_fixture 7 5) (hier_fixture_ok _)
    (by intro h; cases h) rfl (fun _ _ => rfl) (fun _ _ => rfl) rfl⟩

/-! ## Sampled mode: claims C19 and C20 -/

/-- The sample taken by `hp_sample_stack`: the text of the whole stack, stored
under the key of the last sample time. -/
theorem hp_sample_stack_eq (g : hp_global_t) (ht : hp_array) (sym : CStr)
    (hsym : hp_function_stack_string g.entries INT_MAX (SCRATCH_BUF_LEN * 1000) = some sym)
    (hst : g.stats_count = some ht) :
    hp_sample_stack g = some { g with
      stats_count := some (zend_hash_update ht (hp_sample_key g.last_sample_time)
        (.sample sym)) } := by
  unfold hp_sample_stack
  rw [hsym, hst]
  rfl

/-- A stack that is not empty has a text in the buffer of `hp_sample_stack`. -/
theorem hp_function_stack_string_some (stack : List hp_entry_t) (level n : Nat)
    (hent : stack ≠ []) : ∃ sym, hp_function_stack_string stack level n = some sym := by
  cases stack with
  | nil => exact absurd rfl hent
  | cons e prev => exact ⟨_, rfl⟩

/-- One round of the loop of `hp_sample_check` on a stack with text `sym`. -/
theorem hp_sample_round_eq (g : hp_global_t) (ht : hp_array) (sym : CStr)
    (hsym : hp_function_stack_string g.entries INT_MAX (SCRATCH_BUF_LEN * 1000) = some sym)
    (hst : g.stats_count = some ht) :
    hp_sample_round g = some { g with
      last_sample_tsc := (g.last_sample_tsc + g.sampling_interval_tsc) % 2 ^ 64,
      last_sample_time := incr_us_interval g.last_sample_time XHPROF_SAMPLING_INTERVAL,
      stats_count := some (zend_hash_update ht
        (hp_sample_key (incr_us_interval g.last_sample_time XHPROF_SAMPLING_INTERVAL))
        (.sample sym)) } := by
  unfold hp_sample_round
  exact hp_sample_stack_eq _ ht sym hsym hst

/-- The loop of `hp_sample_check` is a run of rounds. -/
theorem hp_sample_check_loop_succ (fuel : Nat) (g : hp_global_t) (now : Nat) :
    hp_sample_check_loop (fuel + 1) g now =
      if (now + 2 ^ 64 - g.last_sample_tsc) % 2 ^ 64 > g.sampling_interval_tsc then
        (hp_sample_round g).bind (fun g3 => hp_sample_check_loop fuel g3 now)
      else some g := by
  simp only [hp_sample_check_loop, hp_sample_round]
  split
  · cases hp_sample_stack _ <;> rfl
  · rfl

theorem hp_sample_rounds_succ (k : Nat) (g : hp_global_t) :
    hp_sample_rounds (k + 1) g = (hp_sample_round g).bind (hp_sample_rounds k) := by
  simp only [hp_sample_rounds]
  cases hp_sample_round g <;> rfl

/-- What a round leaves alone, and what it does to the cycle count. -/
theorem hp_sample_round_some (g g1 : hp_global_t) (h : hp_sample_round g = some g1) :
    g1.entries = g.entries ∧ g1.sampling_interval_tsc = g.sampling_interval_tsc ∧
      g1.last_sample_tsc = (g.last_sample_tsc + g.sampling_interval_tsc) % 2 ^ 64 := by
  unfold hp_sample_round hp_sample_stack at h
  simp only at h
  split at h
  · simp only [Option.some.injEq] at h
    subst h
    exact ⟨rfl, rfl, rfl⟩
  · cases h

theorem samples_due_zero (d intr : Nat) (h : d ≤ intr) (hi : 0 < intr) :
    samples_due d intr = 0 := by
  unfold samples_due
  apply Nat.div_eq_of_lt
  omega

theorem samples_due_succ (d intr : Nat) (h : intr < d) (hi : 0 < intr) :
    samples_due d intr = samples_due (d - intr) intr + 1 := by
  unfold samples_due
  have : d - 1 = (d - intr - 1) + intr := by omega
  rw [this, Nat.add_div_right _ hi]

/-- With the clock at `now`, not behind the last sample, the loop of
`hp_sample_check` runs as many rounds as samples are due. -/
theorem hp_sample_check_loop_eq_rounds (now : Nat) (hnow : now < 2 ^ 64) (fuel : Nat) :
    ∀ g : hp_global_t, 0 < g.sampling_interval_tsc → g.last_sample_tsc ≤ now →
      samples_due (now - g.last_sample_tsc) g.sampling_interval_tsc < fuel →
      hp_sample_check_loop fuel g now =
        hp_sample_rounds (samples_due (now - g.last_sample_tsc) g.sampling_interval_tsc) g := by
  induction fuel with
  | zero => intro g _ _ h; omega
  | succ fuel ih =>
    intro g hint hlast hfuel
    have hd : (now + 2 ^ 64 - g.last_sample_tsc) % 2 ^ 64 = now - g.last_sample_tsc := by
      have : now + 2 ^ 64 - g.last_sample_tsc = (now - g.last_sample_tsc) + 2 ^ 64 := by omega
      rw [this, Nat.add_mod_right]
      exact Nat.mod_eq_of_lt (by omega)
    rw [hp_sample_check_loop_succ, hd]
    by_cases hc : now - g.last_sample_tsc > g.sampling_interval_tsc
    · rw [if_pos hc, samples_due_succ _ _ hc hint, hp_sample_rounds_succ]
      cases hr : hp_sample_round g with
      | none => rfl
      | some g1 =>
        obtain ⟨_, hi1, hl1⟩ := hp_sample_round_some g g1 hr
        have hl1b : g1.last_sample_tsc = g.last_sample_tsc + g.sampling_interval_tsc := by
          rw [hl1]; exact Nat.mod_eq_of_lt (by omega)
        have hsub : now - g1.last_sample_tsc =
            now - g.last_sample_tsc - g.sampling_interval_tsc := by
          rw [hl1b]; omega
        show hp_sample_check_loop fuel g1 now = hp_sample_rounds _ g1
        rw [ih g1 (by rw [hi1]; exact hint) (by rw [hl1b]; omega)
          (by rw [hi1, hsub]; rw [samples_due_succ _ _ hc hint] at hfuel; omega)]
        rw [hi1, hsub]
    · rw [if_neg hc, samples_due_zero _ _ (by omega) hint]
      rfl

/-- The call `hp_sample_check` on a stack that is not empty. -/
theorem hp_sample_check_eq_rounds (g : hp_global_t) (env : hp_env) (hent : g.entries ≠ [])
    (hint : 0 < g.sampling_interval_tsc) (hlast : g.last_sample_tsc ≤ env.tsc)
    (hnow : env.tsc < 2 ^ 64) :
    hp_sample_check g env =
      hp_sample_rounds (samples_due (env.tsc - g.last_sample_tsc) g.sampling_interval_tsc) g := by
  unfold hp_sample_check
  cases he : g.entries with
  | nil => exact absurd he hent
  | cons e prev =>
    simp only
    apply hp_sample_check_loop_eq_rounds env.tsc hnow (2 ^ 64) g hint hlast
    unfold samples_due
    calc (env.tsc - g.last_sample_tsc - 1) / g.sampling_interval_tsc
        ≤ env.tsc - g.last_sample_tsc - 1 := Nat.div_le_self _ _
      _ < 2 ^ 64 := by omega

theorem timeval_of_us_time (tv : timeval) (htv : timeval_ok tv) :
    timeval_of_us (time_us tv) = tv := by
  obtain ⟨h0, h1, h2⟩ := htv
  cases tv with
  | mk s u =>
    simp only [timeval_of_us, time_us, timeval.mk.injEq] at *
    constructor <;> omega

/-- The bump of a sample time by one interval, in microseconds. -/
theorem incr_us_interval_of_us (t : Int) (ht : 0 ≤ t) (hno : t + 100000 < 2 ^ 64) :
    incr_us_interval (timeval_of_us t) XHPROF_SAMPLING_INTERVAL = timeval_of_us (t + 100000) := by
  have h := (time_us_mk t ht).1
  simp only [incr_us_interval, timeval_of_us, XHPROF_SAMPLING_INTERVAL]
  simp only [time_us] at h
  rw [h]
  have : ((100000 : Nat) : Int) + t = t + 100000 := by push_cast; ring
  rw [this, Int.emod_eq_of_lt (by omega) hno]

/-- Rounds run one after the other add up. -/
theorem hp_sample_rounds_add (a b : Nat) :
    ∀ g : hp_global_t, hp_sample_rounds (a + b) g =
      (hp_sample_rounds a g).bind (hp_sample_rounds b) := by
  induction a with
  | zero => intro g; rw [Nat.zero_add]; rfl
  | succ a ih =>
    intro g
    rw [show a + 1 + b = (a + b) + 1 by omega, hp_sample_rounds_succ, hp_sample_rounds_succ]
    cases hr : hp_sample_round g with
    | none => rfl
    | some g1 => exact ih g1

theorem hp_sample_rounds_snoc (k : Nat) (g : hp_global_t) :
    hp_sample_rounds (k + 1) g = (hp_sample_rounds k g).bind hp_sample_round := by
  rw [hp_sample_rounds_add]
  cases hr : hp_sample_rounds k g with
  | none => rfl
  | some g1 =>
    show hp_sample_rounds 1 g1 = hp_sample_round g1
    rw [hp_sample_rounds_succ]
    cases hp_sample_round g1 <;> rfl

/-- A run of rounds: `k` samples of the stack text at the `k` interval
boundaries that follow the last sample time. -/
theorem hp_sample_rounds_spec (sym : CStr) (t : Int) (ht0 : 0 ≤ t) (k : Nat) :
    ∀ (g : hp_global_t) (ht : hp_array),
      hp_function_stack_string g.entries INT_MAX (SCRATCH_BUF_LEN * 1000) = some sym →
      g.stats_count = some ht → g.last_sample_time = timeval_of_us t →
      t + (k : Int) * 100000 < 2 ^ 64 →
      ∃ c, hp_sample_rounds k g = some { g with
        last_sample_tsc := c,
        last_sample_time := timeval_of_us (t + (k : Int) * 100000),
        stats_count := some (samples_after sym t k ht) } := by
  induction k with
  | zero =>
    intro g ht _ hst hlast _
    refine ⟨g.last_sample_tsc, ?_⟩
    simp only [hp_sample_rounds, samples_after, Nat.cast_zero, zero_mul, add_zero, ← hst, ← hlast]
  | succ k ih =>
    intro g ht hsym hst hlast hno
    have hno1 : t + (k : Int) * 100000 < 2 ^ 64 := by push_cast at hno; omega
    obtain ⟨c, hk⟩ := ih g ht hsym hst hlast hno1
    rw [hp_sample_rounds_snoc, hk, Option.some_bind]
    have hr := hp_sample_round_eq { g with
      last_sample_tsc := c,
      last_sample_time := timeval_of_us (t + (k : Int) * 100000),
      stats_count := some (samples_after sym t k ht) } (samples_after sym t k ht) sym hsym rfl
    rw [hr]
    refine ⟨(c + g.sampling_interval_tsc) % 2 ^ 64, ?_⟩
    simp only [incr_us_interval_of_us (t + (k : Int) * 100000) (by positivity)
      (by push_cast at hno; omega)]
    have : t + (k : Int) * 100000 + 100000 = t + ((k + 1 : Nat) : Int) * 100000 := by
      push_cast; ring
    simp only [this, samples_after]
    have h2 : t + ((k : Int) + 1) * 100000 = t + ((k + 1 : Nat) : Int) * 100000 := by
      push_cast; ring
    rw [h2]

/-- What a run of rounds leaves alone, and what it does to the cycle count
when the count stays a `uint64`. -/
theorem hp_sample_rounds_some (k : Nat) :
    ∀ g g1 : hp_global_t, hp_sample_rounds k g = some g1 →
      g.last_sample_tsc + k * g.sampling_interval_tsc < 2 ^ 64 →
      g1.entries = g.entries ∧ g1.sampling_interval_tsc = g.sampling_interval_tsc ∧
        g1.last_sample_tsc = g.last_sample_tsc + k * g.sampling_interval_tsc := by
  induction k with
  | zero =>
    intro g g1 h _
    simp only [hp_sample_rounds, Option.some.injEq] at h
    subst h
    exact ⟨rfl, rfl, by omega⟩
  | succ k ih =>
    intro g g1 h hno
    rw [hp_sample_rounds_succ] at h
    cases hr : hp_sample_round g with
    | none => rw [hr] at h; cases h
    | some g2 =>
      rw [hr, Option.some_bind] at h
      obtain ⟨he2, hi2, hl2⟩ := hp_sample_round_some g g2 hr
      have hmul : (k + 1) * g.sampling_interval_tsc =
          g.sampling_interval_tsc + k * g.sampling_interval_tsc := by ring
      have hl2b : g2.last_sample_tsc = g.last_sample_tsc + g.sampling_interval_tsc := by
        rw [hl2]; exact Nat.mod_eq_of_lt (by omega)
      obtain ⟨he1, hi1, hl1⟩ := ih g2 g1 h (by rw [hi2, hl2b]; omega)
      refine ⟨he1.trans he2, hi1.trans hi2, ?_⟩
      rw [hl1, hi2, hl2b]; omega

theorem samples_due_mul_le (d intr : Nat) (hd : 0 < d) :
    samples_due d intr * intr + 1 ≤ d := by
  unfold samples_due
  have := Nat.div_mul_le_self (d - 1) intr
  omega

/-- The samples due at a later reading are those due at an earlier reading
and those that are due after these have been taken. -/
theorem samples_due_split (d1 d2 intr : Nat) (h : d1 ≤ d2) :
    samples_due d1 intr + samples_due (d2 - samples_due d1 intr * intr) intr =
      samples_due d2 intr := by
  by_cases hd1 : d1 = 0
  · subst hd1
    simp [samples_due]
  · have hle := samples_due_mul_le d1 intr (by omega)
    unfold samples_due at hle ⊢
    have hsub : d2 - (d1 - 1) / intr * intr - 1 = (d2 - 1) - intr * ((d1 - 1) / intr) := by
      rw [Nat.mul_comm intr]; omega
    rw [hsub, Nat.sub_mul_div _ _ _ (by rw [Nat.mul_comm]; omega)]
    have : (d1 - 1) / intr ≤ (d2 - 1) / intr := Nat.div_le_div_right (by omega)
    omega

/-- A run of `hp_sample_check` calls at readings of the clock that do not go
back takes as many samples as one call at the last reading. -/
theorem hp_run_sample_checks_eq_rounds (env : hp_env) (clock : List Nat) :
    ∀ g : hp_global_t, g.entries ≠ [] → 0 < g.sampling_interval_tsc →
      List.Pairwise (fun a b => a ≤ b) clock →
      (∀ t ∈ clock, g.last_sample_tsc ≤ t ∧ t < 2 ^ 64) →
      hp_run_sample_checks g clock env =
        hp_sample_rounds (samples_due ((clock.getLast?.getD g.last_sample_tsc) -
          g.last_sample_tsc) g.sampling_interval_tsc) g := by
  induction clock with
  | nil =>
    intro g _ _ _ _
    simp [hp_run_sample_checks, samples_due, hp_sample_rounds]
  | cons t rest ih =>
    intro g hent hint hsorted hrange
    obtain ⟨hlast, hnow⟩ := hrange t (List.mem_cons_self _ _)
    rw [List.pairwise_cons] at hsorted
    have hcheck := hp_sample_check_eq_rounds g { env with tsc := t } hent hint hlast hnow
    simp only [hp_run_sample_checks]
    rw [hcheck]
    simp only
    cases hr : hp_sample_rounds (samples_due (t - g.last_sample_tsc) g.sampling_interval_tsc) g with
    | none =>
      simp only
      cases hrest : rest with
      | nil => simp [hr]
      | cons t2 rest2 =>
        have ht2 : t ≤ (t2 :: rest2).getLast?.getD g.last_sample_tsc := by
          have hmem : (t2 :: rest2).getLast (by simp) ∈ rest := by
            rw [hrest]; exact List.getLast_mem _
          have := hsorted.1 _ hmem
          rw [List.getLast?_eq_getLast _ (by simp)]
          simpa using this
        rw [List.getLast?_cons_cons]
        rw [← samples_due_split (t - g.last_sample_tsc) _ _ (Nat.sub_le_sub_right ht2 _),
          hp_sample_rounds_add, hr]
        rfl
    | some g1 =>
      simp only
      have hk := samples_due_mul_le (t - g.last_sample_tsc) g.sampling_interval_tsc
      have hbound : g.last_sample_tsc +
          samples_due (t - g.last_sample_tsc) g.sampling_interval_tsc *
            g.sampling_interval_tsc ≤ t := by
        by_cases hz : t - g.last_sample_tsc = 0
        · rw [hz]; simp [samples_due]; omega
        · have := hk (by omega); omega
      obtain ⟨he1, hi1, hl1⟩ := hp_sample_rounds_some _ g g1 hr (by omega)
      rw [ih g1 (by rw [he1]; exact hent) (by rw [hi1]; exact hint) hsorted.2
        (fun x hx => ⟨by rw [hl1]; exact le_trans hbound (hsorted.1 x hx),
          (hrange x (List.mem_cons_of_mem _ hx)).2⟩)]
      rw [hi1]
      cases hrest : rest with
      | nil =>
        simp only [List.getLast?_nil, Option.getD_none, Nat.sub_self, List.getLast?_singleton,
          Option.getD_some]
        rw [hr]
        simp [samples_due, hp_sample_rounds]
      | cons t2 rest2 =>
        have ht2 : t ≤ (t2 :: rest2).getLast?.getD g.last_sample_tsc := by
          have hmem : (t2 :: rest2).getLast (by simp) ∈ rest := by
            rw [hrest]; exact List.getLast_mem _
          have := hsorted.1 _ hmem
          rw [List.getLast?_eq_getLast _ (by simp)]
          simpa using this
        rw [List.getLast?_cons_cons]
        rw [← samples_due_split (t - g.last_sample_tsc) _ _ (Nat.sub_le_sub_right ht2 _),
          hp_sample_rounds_add, hr, Option.some_bind]
        have hg : ∀ d, (t2 :: rest2).getLast?.getD d =
            (t2 :: rest2).getLast (by simp) := by
          intro d; rw [List.getLast?_eq_getLast _ (by simp)]; rfl
        rw [hg g1.last_sample_tsc, hg g.last_sample_tsc, hl1]
        congr 2
        omega

/-- The init callback of sampled mode with a frequency to read and a time of
day that `gettimeofday` can give: the last sample time is the interval
boundary at or before `now`, and the cycle count of the last sample is moved
back by the cycles since that boundary when it is above them. -/
theorem hp_mode_sampled_init_cb_spec (g : hp_global_t) (tsc : Nat) (now : timeval)
    (product : Nat → Nat → Nat)
    (freqs : List Nat) (f : Nat) (hfreqs : g.cpu_frequencies = some freqs)
    (hf : freqs.get? g.cur_cpu_id = some f) (hnow : timeval_ok now)
    (hno : time_us now < 2 ^ 64) :
    hp_mode_sampled_init_cb g tsc now product = some { g with
      last_sample_tsc :=
        (if tsc > get_tsc_from_us product (time_us now % 100000).toNat f
          then tsc - get_tsc_from_us product (time_us now % 100000).toNat f else tsc),
      last_sample_time := timeval_of_us (time_us now / 100000 * 100000),
      sampling_interval_tsc := get_tsc_from_us product 100000 f } := by
  obtain ⟨h0, h1, h2⟩ := hnow
  have ht0 : 0 ≤ time_us now := by simp only [time_us]; omega
  have htr := hp_trunc_time_eq now XHPROF_SAMPLING_INTERVAL (by decide) ht0 hno
  have hc : ((XHPROF_SAMPLING_INTERVAL : Nat) : Int) = 100000 := by
    simp [XHPROF_SAMPLING_INTERVAL]
  rw [hc] at htr
  unfold hp_mode_sampled_init_cb
  rw [hfreqs]
  simp only [hf, htr]
  have hus : get_us_interval ⟨time_us now / 100000 * 100000 / 1000000,
      time_us now / 100000 * 100000 % 1000000⟩ now = time_us now % 100000 := by
    simp only [get_us_interval, time_us]
    omega
  rw [hus]
  have hm : time_us now % 100000 % 2 ^ 64 = time_us now % 100000 :=
    Int.emod_eq_of_lt (by omega) (by omega)
  rw [hm]
  rfl

theorem timeval_of_us_ok (t : Int) (ht : 0 ≤ t) :
    timeval_ok (timeval_of_us t) ∧ time_us (timeval_of_us t) = t := by
  have h := time_us_mk t ht
  exact ⟨h.2, h.1⟩

/-- C20. The init callback of sampled mode leaves `last_sample_time` on a
multiple of 100,000 microseconds; and from a state with `last_sample_time` on
such a multiple `t`, a call of `hp_sample_check` on a stack that is not empty,
with `k` samples due, returns with exactly the `k` samples keyed by
`t + 100000`, `t + 2 * 100000`, .., `t + k * 100000` added to the stats array
in this order, each of them a multiple of 100,000 and one interval after the
one before, and with `last_sample_time` at `t + k * 100000`, again a multiple
of 100,000. -/
theorem C20_samples_sit_on_interval_boundaries :
    (∀ (g : hp_global_t) (tsc : Nat) (now : timeval) (product : Nat → Nat → Nat)
        (freqs : List Nat) (f : Nat),
      g.cpu_frequencies = some freqs → freqs.get? g.cur_cpu_id = some f →
      timeval_ok now → time_us now < 2 ^ 64 →
      ∃ g1, hp_mode_sampled_init_cb g tsc now product = some g1 ∧
        timeval_ok g1.last_sample_time ∧ time_us g1.last_sample_time % 100000 = 0 ∧
        time_us g1.last_sample_time ≤ time_us now ∧
        time_us now < time_us g1.last_sample_time + 100000) ∧
    (∀ (g : hp_global_t) (env : hp_env) (ht : hp_array),
      g.entries ≠ [] → g.stats_count = some ht → 0 < g.sampling_interval_tsc →
      g.last_sample_tsc ≤ env.tsc → env.tsc < 2 ^ 64 →
      timeval_ok g.last_sample_time → time_us g.last_sample_time % 100000 = 0 →
      time_us g.last_sample_time +
        (samples_due (env.tsc - g.last_sample_tsc) g.sampling_interval_tsc : Int) * 100000
          < 2 ^ 64 →
      ∃ sym g1,
        hp_function_stack_string g.entries INT_MAX (SCRATCH_BUF_LEN * 1000) = some sym ∧
        hp_sample_check g env = some g1 ∧
        g1.stats_count = some (samples_after sym (time_us g.last_sample_time)
          (samples_due (env.tsc - g.last_sample_tsc) g.sampling_interval_tsc) ht) ∧
        timeval_ok g1.last_sample_time ∧
        time_us g1.last_sample_time = time_us g.last_sample_time +
          (samples_due (env.tsc - g.last_sample_tsc) g.sampling_interval_tsc : Int) * 100000 ∧
        time_us g1.last_sample_time % 100000 = 0 ∧
        ∀ i : Nat, i < samples_due (env.tsc - g.last_sample_tsc) g.sampling_interval_tsc →
          timeval_ok (timeval_of_us (time_us g.last_sample_time + ((i : Int) + 1) * 100000)) ∧
          time_us (timeval_of_us (time_us g.last_sample_time + ((i : Int) + 1) * 100000)) =
            time_us g.last_sample_time + ((i : Int) + 1) * 100000 ∧
          (time_us g.last_sample_time + ((i : Int) + 1) * 100000) % 100000 = 0) := by
  constructor
  · intro g tsc now product freqs f hfreqs hf hnow hno
    have ht0 : 0 ≤ time_us now := by
      obtain ⟨h0, h1, _⟩ := hnow
      simp only [time_us]; omega
    have hb0 : 0 ≤ time_us now / 100000 * 100000 := by omega
    obtain ⟨hok, htime⟩ := timeval_of_us_ok (time_us now / 100000 * 100000) hb0
    refine ⟨_, hp_mode_sampled_init_cb_spec g tsc now product freqs f hfreqs hf hnow hno,
      hok, ?_, ?_, ?_⟩
    · show time_us (timeval_of_us (time_us now / 100000 * 100000)) % 100000 = 0
      rw [htime]; omega
    · show time_us (timeval_of_us (time_us now / 100000 * 100000)) ≤ time_us now
      rw [htime]; omega
    · show time_us now < time_us (timeval_of_us (time_us now / 100000 * 100000)) + 100000
      rw [htime]; omega
  · intro g env ht hent hst hint hlast hnow hok hmul hno
    obtain ⟨sym, hsym⟩ := hp_function_stack_string_some g.entries INT_MAX
      (SCRATCH_BUF_LEN * 1000) hent
    have ht0 : 0 ≤ time_us g.last_sample_time := by
      obtain ⟨h0, h1, _⟩ := hok
      simp only [time_us]; omega
    obtain ⟨c, hr⟩ := hp_sample_rounds_spec sym (time_us g.last_sample_time) ht0
      (samples_due (env.tsc - g.last_sample_tsc) g.sampling_interval_tsc) g ht hsym hst
      (timeval_of_us_time _ hok).symm hno
    have hk0 : (0 : Int) ≤
        (samples_due (env.tsc - g.last_sample_tsc) g.sampling_interval_tsc : Int) :=
      Int.natCast_nonneg _
    obtain ⟨hok1, htime1⟩ := timeval_of_us_ok (time_us g.last_sample_time +
      (samples_due (env.tsc - g.last_sample_tsc) g.sampling_interval_tsc : Int) * 100000)
      (by omega)
    refine ⟨sym, { g with
      last_sample_tsc := c,
      last_sample_time := timeval_of_us (time_us g.last_sample_time +
        (samples_due (env.tsc - g.last_sample_tsc) g.sampling_interval_tsc : Int) * 100000),
      stats_count := some (samples_after sym (time_us g.last_sample_time)
        (samples_due (env.tsc - g.last_sample_tsc) g.sampling_interval_tsc) ht) },
      hsym, ?_, rfl, hok1, htime1, ?_, ?_⟩
    · rw [hp_sample_check_eq_rounds g env hent hint hlast hnow]; exact hr
    · show time_us (timeval_of_us _) % 100000 = 0
      rw [htime1]; omega
    · intro i _
      have hi0 : (0 : Int) ≤ (i : Int) := Int.natCast_nonneg _
      obtain ⟨h1, h2⟩ := timeval_of_us_ok (time_us g.last_sample_time + ((i : Int) + 1) * 100000)
        (by omega)
      exact ⟨h1, h2, by omega⟩

set_option maxRecDepth 100000 in
/-- C20 on a sampled session inside `main()` that starts at 1700000000.060000:
the init callback puts the last sample time on 1700000000.000000, and a check
at 250,000 microseconds after the start has three samples due, keyed
1700000000.100000, 1700000000.200000 and 1700000000.300000. -/
theorem C20_samples_witness :
    hp_mode_sampled_init_cb (sampled_fixture [mk_entry ROOT_SYMBOL 0]) (10 ^ 12)
      ⟨1700000000, 60000⟩ product_whole = some sampled_started ∧
    (∃ g1, hp_mode_sampled_init_cb (sampled_fixture [mk_entry ROOT_SYMBOL 0]) (10 ^ 12)
        ⟨1700000000, 60000⟩ product_whole = some g1 ∧
      timeval_ok g1.last_sample_time ∧ time_us g1.last_sample_time % 100000 = 0 ∧
      time_us g1.last_sample_time ≤ time_us ⟨1700000000, 60000⟩ ∧
      time_us ⟨1700000000, 60000⟩ < time_us g1.last_sample_time + 100000) ∧
    samples_due ((env_fixture (10 ^ 12 + 600000000) 0).tsc - sampled_started.last_sample_tsc)
      sampled_started.sampling_interval_tsc = 3 ∧
    hp_sample_key (timeval_of_us (time_us sampled_started.last_sample_time + 100000)) =
      [49, 55, 48, 48, 48, 48, 48, 48, 48, 48, 46, 49, 48, 48, 48, 48, 48] ∧
    (∃ sym g1,
      hp_function_stack_string sampled_started.entries INT_MAX (SCRATCH_BUF_LEN * 1000) =
        some sym ∧
      hp_sample_check sampled_started (env_fixture (10 ^ 12 + 600000000) 0) = some g1 ∧
      g1.stats_count = some (samples_after sym (time_us sampled_started.last_sample_time)
        (samples_due ((env_fixture (10 ^ 12 + 600000000) 0).tsc -
          sampled_started.last_sample_tsc) sampled_started.sampling_interval_tsc) []) ∧
      timeval_ok g1.last_sample_time ∧
      time_us g1.last_sample_time = time_us sampled_started.last_sample_time +
        (samples_due ((env_fixture (10 ^ 12 + 600000000) 0).tsc -
          sampled_started.last_sample_tsc) sampled_started.sampling_interval_tsc : Int) *
            100000 ∧
      time_us g1.last_sample_time % 100000 = 0 ∧
      ∀ i : Nat, i < samples_due ((env_fixture (10 ^ 12 + 600000000) 0).tsc -
          sampled_started.last_sample_tsc) sampled_started.sampling_interval_tsc →
        timeval_ok (timeval_of_us (time_us sampled_started.last_sample_time +
          ((i : Int) + 1) * 100000)) ∧
        time_us (timeval_of_us (time_us sampled_started.last_sample_time +
          ((i : Int) + 1) * 100000)) =
            time_us sampled_started.last_sample_time + ((i : Int) + 1) * 100000 ∧
        (time_us sampled_started.last_sample_time + ((i : Int) + 1) * 100000) % 100000 = 0) :=
  ⟨rfl,
    C20_samples_sit_on_interval_boundaries.1 (sampled_fixture [mk_entry ROOT_SYMBOL 0]) (10 ^ 12)
      ⟨1700000000, 60000⟩ product_whole [2400] 2400 rfl rfl (by decide) (by decide),
    by decide, by decide,
    C20_samples_sit_on_interval_boundaries.2 sampled_started
      (env_fixture (10 ^ 12 + 600000000) 0) [] (by simp [sampled_started, sampled_fixture]) rfl
      (by decide) (by decide) (by decide) (by decide) (by decide) (by decide)⟩

/-- Samples due in terms of microseconds, at a frequency of `f` cycles to the
microsecond. -/
theorem samples_due_scaled (x intr f : Nat) (hf : 0 < f) (hx : 0 < x) :
    samples_due (x * f) (intr * f) = (x - 1) / intr := by
  unfold samples_due
  rw [Nat.mul_comm intr f, ← Nat.div_div_eq_div_mul]
  congr 1
  obtain ⟨y, rfl⟩ : ∃ y, x = y + 1 := ⟨x - 1, by omega⟩
  apply Nat.div_eq_of_lt_le
  · have : (y + 1) * f = y * f + f := by ring
    simp only [Nat.add_sub_cancel]
    omega
  · have : (y + 1) * f = y * f + f := by ring
    simp only [Nat.add_sub_cancel]
    have h2 : (y + 1) * f = y * f + f := by ring
    omega

/-- C19, amended. A sampled session starts at the time `now` with the cycle
counter at `tsc0`.  The init callback computes the interval in cycles
`intr = get_tsc_from_us(100000, f)` and the cycles
`off = get_tsc_from_us(p, f)` of the `p` microseconds gone by since the last
multiple of 100,000 microseconds, and moves the cycle count of the last sample
back to `tsc0 - off` (for `off < tsc0`).  `hp_sample_check` is then called on
a stack that is not empty at readings of the cycle counter that do not go
back, the last of them `d` cycles after the start.  The calls take exactly
`(d + off - 1) / intr` samples, keyed by the first multiples of 100,000
microseconds after the one before the start.  For `d` of exactly 2.5
intervals (`2 * d = 5 * intr`) and `off ≤ intr` these are 2 samples when `off`
is at most half an interval and 3 samples when it is more. -/
theorem C19_sample_count_depends_on_start_phase (g0 : hp_global_t) (tsc0 : Nat) (now : timeval)
    (product : Nat → Nat → Nat) (freqs : List Nat) (f : Nat) (stack : List hp_entry_t)
    (clock : List Nat) (env : hp_env) (ht : hp_array) (d : Nat)
    (hfreqs : g0.cpu_frequencies = some freqs) (hf : freqs.get? g0.cur_cpu_id = some f)
    (hnow : timeval_ok now)
    (hstack : stack ≠ []) (hst : g0.stats_count = some ht)
    (hintr : 0 < get_tsc_from_us product 100000 f)
    (hup : get_tsc_from_us product (time_us now % 100000).toNat f < tsc0)
    (hend : tsc0 + d < 2 ^ 64)
    (hno : time_us now +
      (samples_due (d + get_tsc_from_us product (time_us now % 100000).toNat f)
        (get_tsc_from_us product 100000 f) : Int) * 100000 < 2 ^ 64)
    (hsorted : List.Pairwise (fun a b => a ≤ b) clock)
    (hafter : ∀ t ∈ clock, tsc0 ≤ t)
    (hlast : clock.getLast? = some (tsc0 + d)) :
    (∃ gi g1 sym, hp_mode_sampled_init_cb g0 tsc0 now product = some gi ∧
      gi.sampling_interval_tsc = get_tsc_from_us product 100000 f ∧
      gi.last_sample_tsc = tsc0 - get_tsc_from_us product (time_us now % 100000).toNat f ∧
      hp_function_stack_string stack INT_MAX (SCRATCH_BUF_LEN * 1000) = some sym ∧
      hp_run_sample_checks { gi with entries := stack } clock env = some g1 ∧
      g1.stats_count = some (samples_after sym (time_us now / 100000 * 100000)
        (samples_due (d + get_tsc_from_us product (time_us now % 100000).toNat f)
          (get_tsc_from_us product 100000 f)) ht) ∧
      time_us g1.last_sample_time = time_us now / 100000 * 100000 +
        (samples_due (d + get_tsc_from_us product (time_us now % 100000).toNat f)
          (get_tsc_from_us product 100000 f) : Int) * 100000) ∧
    (2 * d = 5 * get_tsc_from_us product 100000 f →
      get_tsc_from_us product (time_us now % 100000).toNat f ≤
        get_tsc_from_us product 100000 f →
      samples_due (d + get_tsc_from_us product (time_us now % 100000).toNat f)
          (get_tsc_from_us product 100000 f) =
        if 2 * get_tsc_from_us product (time_us now % 100000).toNat f ≤
          get_tsc_from_us product 100000 f then 2 else 3) := by
  generalize hoff : get_tsc_from_us product (time_us now % 100000).toNat f = off at *
  generalize hI : get_tsc_from_us product 100000 f = intr at *
  constructor
  · obtain ⟨sym, hsym⟩ :=
      hp_function_stack_string_some stack INT_MAX (SCRATCH_BUF_LEN * 1000) hstack
    have hk0 : (0 : Int) ≤ (samples_due (d + off) intr : Int) := Int.natCast_nonneg _
    have hinit := hp_mode_sampled_init_cb_spec g0 tsc0 now product freqs f hfreqs hf hnow
      (by omega)
    have ht0 : 0 ≤ time_us now := by
      obtain ⟨h0, h1, _⟩ := hnow
      simp only [time_us]; omega
    rw [hoff, hI, if_pos hup] at hinit
    have hruns := hp_run_sample_checks_eq_rounds env clock
      { g0 with
        last_sample_tsc := tsc0 - off,
        last_sample_time := timeval_of_us (time_us now / 100000 * 100000),
        sampling_interval_tsc := intr,
        entries := stack }
      hstack hintr hsorted
      (fun t htm => by
        have h1 := hafter t htm
        have hle : t ≤ tsc0 + d := by
          rcases List.getLast?_eq_some_iff.mp hlast with ⟨ys, hys⟩
          rw [hys] at hsorted htm
          rw [List.pairwise_append] at hsorted
          rcases List.mem_append.mp htm with hm | hm
          · exact hsorted.2.2 t hm _ (List.mem_singleton_self _)
          · rw [List.mem_singleton.mp hm]
        exact ⟨by show tsc0 - off ≤ t; omega, by omega⟩)
    have hd : (clock.getLast?.getD (tsc0 - off)) - (tsc0 - off) = d + off := by
      rw [hlast, Option.getD_some]
      omega
    simp only at hruns
    rw [hd] at hruns
    obtain ⟨c, hr⟩ := hp_sample_rounds_spec sym (time_us now / 100000 * 100000) (by omega)
      (samples_due (d + off) intr)
      { g0 with
        last_sample_tsc := tsc0 - off,
        last_sample_time := timeval_of_us (time_us now / 100000 * 100000),
        sampling_interval_tsc := intr,
        entries := stack }
      ht hsym hst rfl (by omega)
    rw [hr] at hruns
    refine ⟨_, _, sym, hinit, rfl, rfl, hsym, hruns, rfl, ?_⟩
    exact (timeval_of_us_ok _ (by omega)).2
  · intro h25 hle
    unfold samples_due
    split
    · apply Nat.div_eq_of_lt_le
      · omega
      · omega
    · apply Nat.div_eq_of_lt_le
      · omega
      · omega

/-- C19, amended, on two sessions.  The first starts at 1700000000.020000 at
2400 cycles to the microsecond; the checks at 100,000,000 and at 600,000,000
cycles (2.5 intervals) after the start take two samples between them, the
48,000,000 cycles of the start offset being less than half an interval.  The
second starts at 1700000000.050000 at 2400.000005 cycles to the microsecond,
where the interval is cut to 240,000,000 cycles and the start offset to
120,000,000 cycles; the check at 600,000,001 cycles after the start, which is
what 250,000 microseconds last at this frequency, takes three samples. -/
theorem C19_sample_count_witness :
    ((∃ gi g1 sym, hp_mode_sampled_init_cb (sampled_fixture []) (10 ^ 12)
          ⟨1700000000, 20000⟩ product_whole = some gi ∧
        gi.sampling_interval_tsc = get_tsc_from_us product_whole 100000 2400 ∧
        gi.last_sample_tsc = 10 ^ 12 - get_tsc_from_us product_whole
          (time_us ⟨1700000000, 20000⟩ % 100000).toNat 2400 ∧
        hp_function_stack_string [mk_entry ROOT_SYMBOL 0] INT_MAX (SCRATCH_BUF_LEN * 1000) =
          some sym ∧
        hp_run_sample_checks { gi with entries := [mk_entry ROOT_SYMBOL 0] }
          [10 ^ 12 + 100000000, 10 ^ 12 + 600000000] (env_fixture 0 0) = some g1 ∧
        g1.stats_count = some (samples_after sym
          (time_us ⟨1700000000, 20000⟩ / 100000 * 100000)
          (samples_due (600000000 + get_tsc_from_us product_whole
              (time_us ⟨1700000000, 20000⟩ % 100000).toNat 2400)
            (get_tsc_from_us product_whole 100000 2400)) []) ∧
        time_us g1.last_sample_time = time_us ⟨1700000000, 20000⟩ / 100000 * 100000 +
          (samples_due (600000000 + get_tsc_from_us product_whole
              (time_us ⟨1700000000, 20000⟩ % 100000).toNat 2400)
            (get_tsc_from_us product_whole 100000 2400) : Int) * 100000) ∧
      samples_due (600000000 + get_tsc_from_us product_whole
          (time_us ⟨1700000000, 20000⟩ % 100000).toNat 2400)
        (get_tsc_from_us product_whole 100000 2400) =
        if 2 * get_tsc_from_us product_whole
            (time_us ⟨1700000000, 20000⟩ % 100000).toNat 2400 ≤
          get_tsc_from_us product_whole 100000 2400 then 2 else 3) ∧
    ((∃ gi g1 sym, hp_mode_sampled_init_cb (sampled_fixture []) (10 ^ 12)
          ⟨1700000000, 50000⟩ (product_hz 2400000005) = some gi ∧
        gi.sampling_interval_tsc = get_tsc_from_us (product_hz 2400000005) 100000 2400 ∧
        gi.last_sample_tsc = 10 ^ 12 - get_tsc_from_us (product_hz 2400000005)
          (time_us ⟨1700000000, 50000⟩ % 100000).toNat 2400 ∧
        hp_function_stack_string [mk_entry ROOT_SYMBOL 0] INT_MAX (SCRATCH_BUF_LEN * 1000) =
          some sym ∧
        hp_run_sample_checks { gi with entries := [mk_entry ROOT_SYMBOL 0] }
          [10 ^ 12 + 600000001] (env_fixture 0 0) = some g1 ∧
        g1.stats_count = some (samples_after sym
          (time_us ⟨1700000000, 50000⟩ / 100000 * 100000)
          (samples_due (600000001 + get_tsc_from_us (product_hz 2400000005)
              (time_us ⟨1700000000, 50000⟩ % 100000).toNat 2400)
            (get_tsc_from_us (product_hz 2400000005) 100000 2400)) []) ∧
        time_us g1.last_sample_time = time_us ⟨1700000000, 50000⟩ / 100000 * 100000 +
          (samples_due (600000001 + get_tsc_from_us (product_hz 2400000005)
              (time_us ⟨1700000000, 50000⟩ % 100000).toNat 2400)
            (get_tsc_from_us (product_hz 2400000005) 100000 2400) : Int) * 100000) ∧
      get_tsc_from_us (product_hz 2400000005) 100000 2400 = 240000000 ∧
      get_tsc_from_us (product_hz 2400000005)
        (time_us ⟨1700000000, 50000⟩ % 100000).toNat 2400 = 120000000 ∧
      samples_due (600000001 + get_tsc_from_us (product_hz 2400000005)
          (time_us ⟨1700000000, 50000⟩ % 100000).toNat 2400)
        (get_tsc_from_us (product_hz 2400000005) 100000 2400) = 3) ∧
    samples_due (600000000 + get_tsc_from_us product_whole
        (time_us ⟨1700000000, 20000⟩ % 100000).toNat 2400)
      (get_tsc_from_us product_whole 100000 2400) = 2 :=
  ⟨⟨(C19_sample_count_depends_on_start_phase (sampled_fixture []) (10 ^ 12)
        ⟨1700000000, 20000⟩ product_whole [2400] 2400 [mk_entry ROOT_SYMBOL 0]
        [10 ^ 12 + 100000000, 10 ^ 12 + 600000000] (env_fixture 0 0) [] 600000000
        rfl rfl (by decide) (by simp) rfl (by decide) (by decide) (by decide) (by decide)
        (by decide) (by decide) (by decide)).1,
      (C19_sample_count_depends_on_start_phase (sampled_fixture []) (10 ^ 12)
        ⟨1700000000, 20000⟩ product_whole [2400] 2400 [mk_entry ROOT_SYMBOL 0]
        [10 ^ 12 + 100000000, 10 ^ 12 + 600000000] (env_fixture 0 0) [] 600000000
        rfl rfl (by decide) (by simp) rfl (by decide) (by decide) (by decide) (by decide)
        (by decide) (by decide) (by decide)).2 (by decide) (by decide)⟩,
    ⟨(C19_sample_count_depends_on_start_phase (sampled_fixture []) (10 ^ 12)
        ⟨1700000000, 50000⟩ (product_hz 2400000005) [2400] 2400 [mk_entry ROOT_SYMBOL 0]
        [10 ^ 12 + 600000001] (env_fixture 0 0) [] 600000001
        rfl rfl (by decide) (by simp) rfl (by decide) (by decide) (by decide) (by decide)
        (by decide) (by decide) (by decide)).1,
      by decide, by decide, by decide⟩,
    by decide⟩

set_option maxRecDepth 100000 in
/-- C19 as claimed fails on a session that starts at 1700000000.060000, which
is 60,000 microseconds after a multiple of 100,000, with the cycle counter at
`10 ^ 12` and 2400 cycles to the microsecond: the init callback moves the
cycle count of the last sample back by 144,000,000 cycles, and the check
250,000 microseconds after the start, inside `main()`, takes three samples,
keyed 1700000000.100000, 1700000000.200000 and 1700000000.300000. -/
theorem C19_sampling_cadence_counterexample :
    hp_mode_sampled_init_cb (sampled_fixture [mk_entry ROOT_SYMBOL 0]) (10 ^ 12)
      ⟨1700000000, 60000⟩ product_whole = some sampled_started ∧
    ∃ g1, hp_sample_check sampled_started (env_fixture (10 ^ 12 + 250000 * 2400) 0) = some g1 ∧
      g1.stats_count = some
        [([49, 55, 48, 48, 48, 48, 48, 48, 48, 48, 46, 49, 48, 48, 48, 48, 48],
            .sample ROOT_SYMBOL),
         ([49, 55, 48, 48, 48, 48, 48, 48, 48, 48, 46, 50, 48, 48, 48, 48, 48],
            .sample ROOT_SYMBOL),
         ([49, 55, 48, 48, 48, 48, 48, 48, 48, 48, 46, 51, 48, 48, 48, 48, 48],
            .sample ROOT_SYMBOL)] ∧
      g1.last_sample_time = ⟨1700000000, 300000⟩ := by
  refine ⟨rfl, ?_⟩
  have hsym : hp_function_stack_string sampled_started.entries INT_MAX (SCRATCH_BUF_LEN * 1000) =
      some ROOT_SYMBOL :=
    hp_function_stack_string_fits (mk_entry ROOT_SYMBOL 0) [] INT_MAX (SCRATCH_BUF_LEN * 1000)
      (by decide) (by decide) (by decide)
  have hcheck := hp_sample_check_eq_rounds sampled_started
    (env_fixture (10 ^ 12 + 250000 * 2400) 0) (by simp [sampled_started, sampled_fixture])
    (by decide) (by decide) (by decide)
  have hdue : samples_due ((env_fixture (10 ^ 12 + 250000 * 2400) 0).tsc -
      sampled_started.last_sample_tsc) sampled_started.sampling_interval_tsc = 3 := by decide
  rw [hdue] at hcheck
  obtain ⟨c, hr⟩ := hp_sample_rounds_spec ROOT_SYMBOL 1700000000000000 (by decide) 3
    sampled_started [] hsym rfl rfl (by decide)
  rw [hr] at hcheck
  have hkeys : samples_after ROOT_SYMBOL 1700000000000000 3 [] =
      [([49, 55, 48, 48, 48, 48, 48, 48, 48, 48, 46, 49, 48, 48, 48, 48, 48],
          .sample ROOT_SYMBOL),
       ([49, 55, 48, 48, 48, 48, 48, 48, 48, 48, 46, 50, 48, 48, 48, 48, 48],
          .sample ROOT_SYMBOL),
       ([49, 55, 48, 48, 48, 48, 48, 48, 48, 48, 46, 51, 48, 48, 48, 48, 48],
          .sample ROOT_SYMBOL)] := by decide
  have htime : timeval_of_us (1700000000000000 + ((3 : Nat) : Int) * 100000) =
      ⟨1700000000, 300000⟩ := by decide
  exact ⟨_, hcheck, congrArg some hkeys, htime⟩

/-! ## Start and stop: claims C11, C12 and C13 -/

theorem same_session_refl (g : hp_global_t) : same_session g g :=
  ⟨_, _, _, _, _, _, _, rfl⟩

theorem same_session_trans (g g1 g2 : hp_global_t) (h1 : same_session g g1)
    (h2 : same_session g1 g2) : same_session g g2 := by
  obtain ⟨fr, id, t, c, i, ff, af, rfl⟩ := h1
  obtain ⟨fr2, id2, t2, c2, i2, ff2, af2, rfl⟩ := h2
  exact ⟨_, _, _, _, _, _, _, rfl⟩

theorem restore_cpu_affinity_same (g : hp_global_t) (env : hp_env) :
    same_session g (restore_cpu_affinity g env) := by
  unfold restore_cpu_affinity
  split
  · exact ⟨_, _, _, _, _, _, _, rfl⟩
  · exact same_session_refl g

theorem bind_to_cpu_same (g : hp_global_t) (cpu_id : Nat) (env : hp_env) :
    same_session g (bind_to_cpu g cpu_id env).1 := by
  unfold bind_to_cpu
  split
  · exact ⟨_, _, _, _, _, _, _, rfl⟩
  · exact same_session_refl g

theorem clear_frequencies_same (g : hp_global_t) (env : hp_env) :
    same_session g (clear_frequencies g env) :=
  same_session_trans g { g with cpu_frequencies := none } _ ⟨_, _, _, _, _, _, _, rfl⟩
    (restore_cpu_affinity_same _ env)

theorem get_all_cpu_frequencies_loop_same (senv : hp_start_env) (n : Nat) :
    ∀ (id : Nat) (g : hp_global_t) (acc : List Nat),
      same_session g (get_all_cpu_frequencies_loop n id g senv acc) := by
  induction n with
  | zero => intro id g acc; exact ⟨_, _, _, _, _, _, _, rfl⟩
  | succ n ih =>
    intro id g acc
    simp only [get_all_cpu_frequencies_loop]
    split
    · exact same_session_trans g _ _ (bind_to_cpu_same g id senv.env)
        (clear_frequencies_same _ senv.env)
    · split
      · exact same_session_trans g _ _ (bind_to_cpu_same g id senv.env)
          (clear_frequencies_same _ senv.env)
      · exact same_session_trans g _ _ (bind_to_cpu_same g id senv.env) (ih _ _ _)

theorem get_all_cpu_frequencies_same (g : hp_global_t) (senv : hp_start_env) :
    same_session g (get_all_cpu_frequencies g senv) := by
  unfold get_all_cpu_frequencies
  split
  · exact get_all_cpu_frequencies_loop_same senv _ _ _ _
  · exact ⟨_, _, _, _, _, _, _, rfl⟩

/-- The frequency loop with affinity calls that succeed and measurements that
are not zero stores one frequency for each cpu. -/
theorem get_all_cpu_frequencies_loop_ok (senv : hp_start_env)
    (haff : senv.env.affinity_ok = true) (n : Nat) :
    ∀ (id : Nat) (g : hp_global_t) (acc : List Nat),
      (∀ j, id ≤ j → j < id + n → senv.frequency j ≠ 0) →
      ∃ freqs, (get_all_cpu_frequencies_loop n id g senv acc).cpu_frequencies = some freqs ∧
        freqs.length = acc.length + n := by
  induction n with
  | zero => intro id g acc _; exact ⟨acc, rfl, rfl⟩
  | succ n ih =>
    intro id g acc hfreq
    simp only [get_all_cpu_frequencies_loop, bind_to_cpu, haff, if_true, ne_eq,
      not_true_eq_false, if_false, hfreq id (le_refl _) (by omega)]
    obtain ⟨freqs, h1, h2⟩ := ih (id + 1) { g with cur_cpu_id := id }
      (acc ++ [senv.frequency id]) (fun j h1 h2 => hfreq j (by omega) (by omega))
    exact ⟨freqs, h1, by rw [h2]; simp; omega⟩

theorem hp_filtered_functions_filter_init_same (g : hp_global_t) :
    same_session g (hp_filtered_functions_filter_init g) := by
  unfold hp_filtered_functions_filter_init
  split
  · exact same_session_refl g
  · exact ⟨_, _, _, _, _, _, _, rfl⟩

theorem hp_argument_functions_filter_init_same (g : hp_global_t) :
    same_session g (hp_argument_functions_filter_init g) := by
  unfold hp_argument_functions_filter_init
  split
  · exact same_session_refl g
  · exact ⟨_, _, _, _, _, _, _, rfl⟩

theorem init_cb_same (g g1 : hp_global_t) (senv : hp_start_env)
    (h : init_cb g senv = some g1) : same_session g g1 := by
  unfold init_cb at h
  split at h
  · simp only [Option.some.injEq] at h; subst h; exact same_session_refl g
  · unfold hp_mode_sampled_init_cb at h
    split at h
    · cases h
    · split at h
      · cases h
      · split at h
        · cases h
        · simp only [Option.some.injEq] at h
          subst h
          exact ⟨_, _, _, _, _, _, _, rfl⟩

/-- What the first part of `hp_init_profiler_state` leaves alone. -/
theorem hp_init_profiler_state_globals_keeps (g : hp_global_t) (level : Int) :
    (hp_init_profiler_state_globals g level).cpu_num = g.cpu_num ∧
    (hp_init_profiler_state_globals g level).cpu_frequencies = g.cpu_frequencies ∧
    (hp_init_profiler_state_globals g level).mode_cb = g.mode_cb ∧
    (hp_init_profiler_state_globals g level).enabled = g.enabled ∧
    (hp_init_profiler_state_globals g level).stats_count = some [] ∧
    (hp_init_profiler_state_globals g level).profiler_level = level ∧
    (hp_init_profiler_state_globals g level).entries =
      (if g.ever_enabled = 0 then [] else g.entries) ∧
    (g.layers_definition ≠ none →
      (hp_init_profiler_state_globals g level).layers_count = some []) := by
  unfold hp_init_profiler_state_globals
  by_cases h1 : g.ever_enabled = 0 <;> by_cases h2 : g.layers_definition = none <;>
    simp [h1, h2]

/-- The first part of `hp_init_profiler_state` does not read the old stats
array. -/
theorem hp_init_profiler_state_globals_stats (g : hp_global_t) (level : Int)
    (st : Option hp_array) :
    hp_init_profiler_state_globals { g with stats_count := st } level =
      hp_init_profiler_state_globals g level := by
  unfold hp_init_profiler_state_globals
  by_cases h1 : g.ever_enabled = 0 <;> by_cases h2 : g.layers_definition = none <;>
    simp [h1, h2]

/-- The calibration step of `hp_init_profiler_state`: with affinity calls that
succeed and frequencies that are there or can be measured, the frequency array
has an entry for every cpu afterwards. -/
theorem calibration_ok (g : hp_global_t) (senv : hp_start_env) (h : sampled_start_ok g senv) :
    ∃ freqs, (if g.cpu_frequencies = none then
        restore_cpu_affinity (get_all_cpu_frequencies g senv) senv.env
      else g).cpu_frequencies = some freqs ∧ freqs.length = g.cpu_num := by
  obtain ⟨haff, _, _, hcase⟩ := h
  rcases hcase with ⟨hnone, hmalloc, hfreq⟩ | ⟨freqs, hsome, hlen⟩
  · rw [if_pos hnone]
    obtain ⟨freqs, h1, h2⟩ := get_all_cpu_frequencies_loop_ok senv haff g.cpu_num 0 g []
      (fun j _ hj => hfreq j (by omega))
    refine ⟨freqs, ?_, by simpa using h2⟩
    simp only [restore_cpu_affinity, haff, if_true, get_all_cpu_frequencies, hmalloc]
    exact h1
  · rw [if_neg (by rw [hsome]; simp)]
    exact ⟨freqs, hsome, hlen⟩

/-- The function `hp_init_profiler_state` returns when there is a cpu and, with
the init callback of sampled mode, when that callback can run; what it changes
after the fresh arrays are the calibration, the sampling clock and the filter
bitmaps. -/
theorem hp_init_profiler_state_returns (g : hp_global_t) (level : Int) (senv : hp_start_env)
    (hcpu : 0 < g.cpu_num)
    (hcb : g.mode_cb.init_cb = .hp_mode_sampled_init_cb → sampled_start_ok g senv) :
    ∃ g1, hp_init_profiler_state g level senv = some g1 ∧
      same_session (hp_init_profiler_state_globals g level) g1 := by
  obtain ⟨hk1, hk2, hk3, _⟩ := hp_init_profiler_state_globals_keeps g level
  unfold hp_init_profiler_state
  generalize hp_init_profiler_state_globals g level = B at hk1 hk2 hk3 ⊢
  simp only []
  have hB : B.mode_cb.init_cb = .hp_mode_sampled_init_cb → sampled_start_ok B senv := by
    intro h
    rw [hk3] at h
    obtain ⟨h1, h2, h3, h4⟩ := hcb h
    refine ⟨h1, h2, h3, ?_⟩
    rw [hk1, hk2]; exact h4
  have h4same : same_session B (if B.cpu_frequencies = none then
      restore_cpu_affinity (get_all_cpu_frequencies B senv) senv.env else B) := by
    split
    · exact same_session_trans B _ _ (get_all_cpu_frequencies_same B senv)
        (restore_cpu_affinity_same _ _)
    · exact same_session_refl B
  have h4ok : B.mode_cb.init_cb = .hp_mode_sampled_init_cb →
      ∃ freqs, (if B.cpu_frequencies = none then
        restore_cpu_affinity (get_all_cpu_frequencies B senv) senv.env
      else B).cpu_frequencies = some freqs ∧ freqs.length = B.cpu_num :=
    fun h => calibration_ok B senv (hB h)
  generalize (if B.cpu_frequencies = none then
      restore_cpu_affinity (get_all_cpu_frequencies B senv) senv.env else B) = g4
    at h4same h4ok ⊢
  have h4num : g4.cpu_num = B.cpu_num := by
    obtain ⟨fr, id, t, c, i, ff, af, rfl⟩ := h4same; rfl
  have h4cb : g4.mode_cb = B.mode_cb := by
    obtain ⟨fr, id, t, c, i, ff, af, rfl⟩ := h4same; rfl
  rw [if_neg (by rw [h4num, hk1]; omega)]
  have h5same := bind_to_cpu_same g4 (senv.rand % g4.cpu_num) senv.env
  have h5ok : B.mode_cb.init_cb = .hp_mode_sampled_init_cb →
      ∃ freqs f, (bind_to_cpu g4 (senv.rand % g4.cpu_num) senv.env).1.cpu_frequencies =
        some freqs ∧
        freqs.get? (bind_to_cpu g4 (senv.rand % g4.cpu_num) senv.env).1.cur_cpu_id = some f := by
    intro h
    obtain ⟨freqs, hf1, hf2⟩ := h4ok h
    have haff := (hB h).1
    have hlt : senv.rand % g4.cpu_num < freqs.length := by
      rw [hf2, h4num]; exact Nat.mod_lt _ (by rw [hk1]; exact hcpu)
    refine ⟨freqs, freqs.get ⟨_, hlt⟩, ?_, ?_⟩
    · simp only [bind_to_cpu, haff, if_true]; exact hf1
    · simp only [bind_to_cpu, haff, if_true]
      exact List.get?_eq_get hlt
  generalize (bind_to_cpu g4 (senv.rand % g4.cpu_num) senv.env).1 = g5 at h5same h5ok ⊢
  have h5cb : g5.mode_cb = g4.mode_cb := by
    obtain ⟨fr, id, t, c, i, ff, af, rfl⟩ := h5same; rfl
  have hinit : ∃ g6, init_cb g5 senv = some g6 := by
    unfold init_cb
    cases hm : g5.mode_cb.init_cb with
    | hp_mode_dummy_init_cb => exact ⟨g5, rfl⟩
    | hp_mode_sampled_init_cb =>
      have hBs : B.mode_cb.init_cb = .hp_mode_sampled_init_cb := by
        rw [← h4cb, ← h5cb]; exact hm
      obtain ⟨freqs, f, hf1, hf2⟩ := h5ok hBs
      obtain ⟨_, hnow, hno, _⟩ := hB hBs
      exact ⟨_, hp_mode_sampled_init_cb_spec g5 senv.env.tsc senv.now senv.product freqs f
        hf1 hf2 hnow hno⟩
  obtain ⟨g6, h6⟩ := hinit
  rw [h6]
  refine ⟨_, rfl, ?_⟩
  exact same_session_trans B g4 _ h4same (same_session_trans g4 g5 _ h5same
    (same_session_trans g5 g6 _ (init_cb_same g5 g6 senv h6)
      (same_session_trans g6 _ _ (hp_filtered_functions_filter_init_same g6)
        (hp_argument_functions_filter_init_same _))))

/-- The loop of `hp_stop` returns with an empty stack only. -/
theorem hp_stop_loop_some (fuel : Nat) :
    ∀ (g g1 : hp_global_t) (envs : Nat → hp_env), hp_stop_loop fuel g envs = some g1 →
      g1.entries = [] := by
  induction fuel with
  | zero =>
    intro g g1 envs h
    simp only [hp_stop_loop] at h
    split at h
    · simp only [Option.some.injEq] at h; subst h; assumption
    · cases h
  | succ fuel ih =>
    intro g g1 envs h
    simp only [hp_stop_loop] at h
    split at h
    · simp only [Option.some.injEq] at h; subst h; assumption
    · split at h
      · cases h
      · exact ih _ _ _ h

/-- After `hp_stop` the profiler is not enabled and the stack is empty. -/
theorem hp_stop_some (fuel : Nat) (g g1 : hp_global_t) (envs : Nat → hp_env)
    (h : hp_stop fuel g envs = some g1) : g1.enabled = 0 ∧ g1.entries = [] := by
  unfold hp_stop at h
  split at h
  · cases h
  · rename_i g2 hg2
    simp only [Option.some.injEq] at h
    subst h
    have he := hp_stop_loop_some fuel g g2 _ hg2
    refine ⟨rfl, ?_⟩
    unfold restore_cpu_affinity
    split <;> exact he

/-- The macro `BEGIN_PROFILING` on an empty stack returns in every mode, with
at most the frame of the symbol on the stack and the stats and layers arrays
as they were. -/
theorem BEGIN_PROFILING_empty_stack (g : hp_global_t) (symbol : CStr) (env : hp_env)
    (hent : g.entries = []) :
    ∃ g1 b, BEGIN_PROFILING g symbol env = some (g1, b) ∧
      g1.enabled = g.enabled ∧ g1.stats_count = g.stats_count ∧
      g1.layers_count = g.layers_count ∧ g1.mode_cb = g.mode_cb ∧
      g1.profiler_level = g.profiler_level ∧ g1.xhprof_flags = g.xhprof_flags ∧
      (g1.entries = [] ∨ ∃ e, g1.entries = [e] ∧ e.name_hprof = symbol) := by
  by_cases hacc : hp_filter_entry g (hp_inline_hash symbol) symbol = true
  · exact ⟨g, false, BEGIN_PROFILING_rejected g symbol env hacc, rfl, rfl, rfl, rfl, rfl, rfl,
      Or.inl hent⟩
  · have hacc : hp_filter_entry g (hp_inline_hash symbol) symbol = false := by
      simpa using hacc
    simp only [BEGIN_PROFILING, hacc, Bool.not_false, if_true, hp_fast_alloc_state,
      hp_mode_common_beginfn]
    cases hmode : g.mode_cb.begin_fn_cb with
    | hp_mode_dummy_beginfn_cb =>
      simp only [begin_fn_cb, hmode]
      exact ⟨_, _, rfl, rfl, rfl, rfl, rfl, rfl, rfl, Or.inr ⟨_, by rw [hent], rfl⟩⟩
    | hp_mode_hier_beginfn_cb =>
      simp only [begin_fn_cb, hmode]
      exact ⟨_, _, rfl, rfl, rfl, rfl, rfl, rfl, rfl,
        Or.inr ⟨_, by rw [hent], (hp_mode_hier_beginfn_cb_keeps _ _ env).1⟩⟩
    | hp_mode_sampled_beginfn_cb =>
      simp only [begin_fn_cb, hmode, hp_sample_check, hent, Option.map_some']
      exact ⟨_, _, rfl, rfl, rfl, rfl, rfl, rfl, rfl, Or.inr ⟨_, rfl, rfl⟩⟩

/-- The function `hp_init_profiler_state` does not read the old stats array. -/
theorem hp_init_profiler_state_stats (g : hp_global_t) (level : Int) (senv : hp_start_env)
    (st : Option hp_array) :
    hp_init_profiler_state { g with stats_count := st } level senv =
      hp_init_profiler_state g level senv := by
  unfold hp_init_profiler_state
  rw [hp_init_profiler_state_globals_stats]

/-- A start of a profiler that is not enabled does not read the old stats
array. -/
theorem hp_begin_stats (g : hp_global_t) (level xhprof_flags : Int) (senv : hp_start_env)
    (st : Option hp_array) (hen : g.enabled = 0) :
    hp_begin { g with stats_count := st } level xhprof_flags senv =
      hp_begin g level xhprof_flags senv := by
  have h := hp_init_profiler_state_stats
    { g with
      enabled := 1,
      xhprof_flags := (xhprof_flags % 2 ^ 32).toNat,
      mode_cb := hp_begin_callbacks level } (long_to_int level) senv st
  unfold hp_begin
  simp only [hen, if_true]
  simp only [] at h
  rw [h]

/-- The init callback registered for a level is that of sampled mode for the
sampled level only. -/
theorem hp_begin_callbacks_init (level : Int)
    (h : (hp_begin_callbacks level).init_cb = .hp_mode_sampled_init_cb) :
    level = XHPROF_MODE_SAMPLED := by
  unfold hp_begin_callbacks at h
  split at h
  · cases h
  · split at h
    · assumption
    · cases h

/-- A start of a profiler that is not enabled, with an empty stack, returns
when there is a cpu and, for the sampled level, when the init callback can
run: the session is enabled with the callbacks of the level, an empty stats
array and at most the frame of `main()` on the stack. -/
theorem hp_begin_returns (g : hp_global_t) (level xhprof_flags : Int) (senv : hp_start_env)
    (hen : g.enabled = 0) (hent : g.entries = []) (hcpu : 0 < g.cpu_num)
    (hs : level = XHPROF_MODE_SAMPLED → sampled_start_ok g senv) :
    ∃ g2, hp_begin g level xhprof_flags senv = some g2 ∧ g2.enabled = 1 ∧
      g2.stats_count = some [] ∧ g2.mode_cb = hp_begin_callbacks level ∧
      g2.profiler_level = long_to_int level ∧
      g2.xhprof_flags = (xhprof_flags % 2 ^ 32).toNat ∧
      (g2.entries = [] ∨ ∃ e, g2.entries = [e] ∧ e.name_hprof = ROOT_SYMBOL) ∧
      (g.layers_definition ≠ none → g2.layers_count = some []) := by
  obtain ⟨g1, hinit, hsame⟩ := hp_init_profiler_state_returns
    { g with
      enabled := 1,
      xhprof_flags := (xhprof_flags % 2 ^ 32).toNat,
      mode_cb := hp_begin_callbacks level } (long_to_int level) senv hcpu
    (fun h => hs (hp_begin_callbacks_init level h))
  obtain ⟨_, _, k3, k4, k5, k6, k7, k8⟩ := hp_init_profiler_state_globals_keeps
    { g with
      enabled := 1,
      xhprof_flags := (xhprof_flags % 2 ^ 32).toNat,
      mode_cb := hp_begin_callbacks level } (long_to_int level)
  have kf : (hp_init_profiler_state_globals
      { g with
        enabled := 1,
        xhprof_flags := (xhprof_flags % 2 ^ 32).toNat,
        mode_cb := hp_begin_callbacks level } (long_to_int level)).xhprof_flags =
      (xhprof_flags % 2 ^ 32).toNat := by
    unfold hp_init_profiler_state_globals
    by_cases h1 : g.ever_enabled = 0 <;> by_cases h2 : g.layers_definition = none <;>
      simp [h1, h2]
  generalize hp_init_profiler_state_globals
    { g with
      enabled := 1,
      xhprof_flags := (xhprof_flags % 2 ^ 32).toNat,
      mode_cb := hp_begin_callbacks level } (long_to_int level) = B
    at hsame k3 k4 k5 k6 k7 k8 kf
  have hB : B.entries = [] := by
    rw [k7]; simp only [hent]; split <;> rfl
  obtain ⟨fr, id, t, c, i, ff, af, hg1⟩ := hsame
  subst hg1
  obtain ⟨g2, b, hb, b1, b2, b3, b4, b5, b6, b7⟩ := BEGIN_PROFILING_empty_stack
    { B with
      cpu_frequencies := fr, cur_cpu_id := id, last_sample_time := t, last_sample_tsc := c,
      sampling_interval_tsc := i, filtered_function_filter := ff,
      argument_function_filter := af } ROOT_SYMBOL senv.env hB
  refine ⟨g2, ?_, b1.trans k4, b2.trans k5, b4.trans k3, b5.trans k6, b6.trans kf, b7,
    fun h => b3.trans (k8 h)⟩
  unfold hp_begin
  simp only [hen, if_true]
  simp only [] at hinit
  rw [hinit]
  simp only [hb]

/-- C13. After `hp_stop` has returned, a start `hp_begin` of any level and
flags, on a machine with a cpu (and, for the sampled level, with an init
callback that can run), returns with the session enabled, the callbacks of the
level registered, an empty stats array, at most the frame of `main()` on the
stack, and a fresh layers array when layers are defined; and the state it
returns is the same whatever stats array the session before has left. -/
theorem C13_session_restarts_with_empty_stats (fuel : Nat) (g g1 : hp_global_t)
    (envs : Nat → hp_env) (level xhprof_flags : Int) (senv : hp_start_env)
    (hstop : hp_stop fuel g envs = some g1) (hcpu : 0 < g1.cpu_num)
    (hs : level = XHPROF_MODE_SAMPLED → sampled_start_ok g1 senv) :
    ∃ g2, hp_begin g1 level xhprof_flags senv = some g2 ∧ g2.enabled = 1 ∧
      g2.stats_count = some [] ∧ g2.mode_cb = hp_begin_callbacks level ∧
      (g2.entries = [] ∨ ∃ e, g2.entries = [e] ∧ e.name_hprof = ROOT_SYMBOL) ∧
      (g1.layers_definition ≠ none → g2.layers_count = some []) ∧
      ∀ st, hp_begin { g1 with stats_count := st } level xhprof_flags senv = some g2 := by
  obtain ⟨hen, hent⟩ := hp_stop_some fuel g g1 envs hstop
  obtain ⟨g2, hb, h1, h2, h3, _, _, h6, h7⟩ :=
    hp_begin_returns g1 level xhprof_flags senv hen hent hcpu hs
  exact ⟨g2, hb, h1, h2, h3, h6, h7, fun st => by rw [hp_begin_stats _ _ _ _ _ hen, hb]⟩

set_option maxRecDepth 100000 in
/-- C13 on a hierarchical session inside `main()` that is stopped, which
records `main()`, and started again in hierarchical mode. -/
theorem C13_session_restart_witness :
    ∃ g1, hp_stop 1 (hier_fixture [mk_entry ROOT_SYMBOL 0]) (fun _ => env_fixture 9 5) = some g1 ∧
      g1.stats_count.map (List.map Prod.fst) = some [ROOT_SYMBOL] ∧
      ∃ g2, hp_begin g1 XHPROF_MODE_HIERARCHICAL 0 start_env_fixture = some g2 ∧
        g2.enabled = 1 ∧ g2.stats_count = some [] ∧
        g2.mode_cb = hp_begin_callbacks XHPROF_MODE_HIERARCHICAL ∧
        (g2.entries = [] ∨ ∃ e, g2.entries = [e] ∧ e.name_hprof = ROOT_SYMBOL) ∧
        (g1.layers_definition ≠ none → g2.layers_count = some []) ∧
        ∀ st, hp_begin { g1 with stats_count := st } XHPROF_MODE_HIERARCHICAL 0
          start_env_fixture = some g2 := by
  obtain ⟨g1, h1, hkeys, hcpu⟩ : ∃ g1,
      hp_stop 1 (hier_fixture [mk_entry ROOT_SYMBOL 0]) (fun _ => env_fixture 9 5) = some g1 ∧
      g1.stats_count.map (List.map Prod.fst) = some [ROOT_SYMBOL] ∧ 0 < g1.cpu_num :=
    ⟨_, rfl, rfl, by decide⟩
  exact ⟨g1, h1, hkeys, C13_session_restarts_with_empty_stats 1
    (hier_fixture [mk_entry ROOT_SYMBOL 0]) g1 (fun _ => env_fixture 9 5)
    XHPROF_MODE_HIERARCHICAL 0 start_env_fixture h1 hcpu (fun h => absurd h (by decide))⟩

/-- A stop function that returns leaves the profiler not enabled. -/
theorem xhprof_disable_some (fuel : Nat) (g g1 : hp_global_t) (envs : Nat → hp_env)
    (r : Option hp_snapshot)
    (h : xhprof_disable fuel g envs = some (g1, r) ∨
      xhprof_sample_disable fuel g envs = some (g1, r)) : g1.enabled = 0 := by
  by_cases hen : g.enabled = 0
  · rcases h with h | h
    · simp only [xhprof_disable, hen, ne_eq, not_true_eq_false, if_false, Option.some.injEq,
        Prod.mk.injEq] at h
      rw [← h.1]; exact hen
    · simp only [xhprof_sample_disable, hen, ne_eq, not_true_eq_false, if_false,
        Option.some.injEq, Prod.mk.injEq] at h
      rw [← h.1]; exact hen
  · cases hs : hp_stop fuel g envs with
    | none =>
      rcases h with h | h
      · simp [xhprof_disable, hen, hs] at h
      · simp [xhprof_sample_disable, hen, hs] at h
    | some g2 =>
      have h2 := (hp_stop_some fuel g g2 envs hs).1
      rcases h with h | h
      · simp only [xhprof_disable, hen, ne_eq, not_false_eq_true, if_true, hs] at h
        split at h
        · cases h
        · split at h
          · simp only [Option.some.injEq, Prod.mk.injEq] at h
            rw [← h.1]; exact h2
          · split at h
            · simp only [Option.some.injEq, Prod.mk.injEq] at h
              rw [← h.1]; exact h2
            · simp only [Option.some.injEq, Prod.mk.injEq] at h
              rw [← h.1]; exact h2
            · cases h
      · simp only [xhprof_sample_disable, hen, ne_eq, not_false_eq_true, if_true, hs] at h
        split at h
        · cases h
        · simp only [Option.some.injEq, Prod.mk.injEq] at h
          rw [← h.1]; exact h2

/-- C11. When the profiler is not enabled, `xhprof_disable` and
`xhprof_sample_disable` return null and the state they were given, whole
(stack, free list, stats array and all the rest); and after either of them has
returned from any state, a further call of either returns null and leaves the
state, its free list included, as it is. -/
theorem C11_stop_when_not_enabled_returns_null (fuel fuel2 : Nat) (g : hp_global_t)
    (envs envs2 : Nat → hp_env) :
    (g.enabled = 0 →
      xhprof_disable fuel g envs = some (g, none) ∧
      xhprof_sample_disable fuel g envs = some (g, none)) ∧
    (∀ g1 r, (xhprof_disable fuel g envs = some (g1, r) ∨
        xhprof_sample_disable fuel g envs = some (g1, r)) →
      xhprof_disable fuel2 g1 envs2 = some (g1, none) ∧
      xhprof_sample_disable fuel2 g1 envs2 = some (g1, none)) := by
  constructor
  · intro hen
    simp [xhprof_disable, xhprof_sample_disable, hen]
  · intro g1 r h
    have hen := xhprof_disable_some fuel g g1 envs r h
    simp [xhprof_disable, xhprof_sample_disable, hen]

set_option maxRecDepth 100000 in
/-- C11 on a profiler that was never started, and on a hierarchical session
stopped inside `foo` called from `main()`: the first stop returns a snapshot
and puts the two frames on the free list, the second returns null and leaves
the state alone. -/
theorem C11_stop_witness :
    xhprof_disable 0 (PHP_MINIT_FUNCTION 1) (fun _ => env_fixture 9 5) =
      some (PHP_MINIT_FUNCTION 1, none) ∧
    xhprof_sample_disable 0 (PHP_MINIT_FUNCTION 1) (fun _ => env_fixture 9 5) =
      some (PHP_MINIT_FUNCTION 1, none) ∧
    ∃ g1 snap,
      xhprof_disable 2 (hier_fixture [mk_entry [102, 111, 111] 0, mk_entry ROOT_SYMBOL 0])
        (fun _ => env_fixture 9 5) = some (g1, some snap) ∧
      g1.entry_free_list.length = 2 ∧
      snap.stats.map Prod.fst =
        [[109, 97, 105, 110, 40, 41, 61, 61, 62, 102, 111, 111], ROOT_SYMBOL] ∧
      xhprof_disable 2 g1 (fun _ => env_fixture 9 5) = some (g1, none) ∧
      xhprof_sample_disable 2 g1 (fun _ => env_fixture 9 5) = some (g1, none) := by
  refine ⟨((C11_stop_when_not_enabled_returns_null 0 0 (PHP_MINIT_FUNCTION 1)
      (fun _ => env_fixture 9 5) (fun _ => env_fixture 9 5)).1 rfl).1,
    ((C11_stop_when_not_enabled_returns_null 0 0 (PHP_MINIT_FUNCTION 1)
      (fun _ => env_fixture 9 5) (fun _ => env_fixture 9 5)).1 rfl).2, ?_⟩
  obtain ⟨g1, snap, h1, hlen, hkeys⟩ : ∃ g1 snap,
      xhprof_disable 2 (hier_fixture [mk_entry [102, 111, 111] 0, mk_entry ROOT_SYMBOL 0])
        (fun _ => env_fixture 9 5) = some (g1, some snap) ∧
      g1.entry_free_list.length = 2 ∧
      snap.stats.map Prod.fst =
        [[109, 97, 105, 110, 40, 41, 61, 61, 62, 102, 111, 111], ROOT_SYMBOL] :=
    ⟨_, _, rfl, rfl, rfl⟩
  have h2 := (C11_stop_when_not_enabled_returns_null 2 2
    (hier_fixture [mk_entry [102, 111, 111] 0, mk_entry ROOT_SYMBOL 0])
    (fun _ => env_fixture 9 5) (fun _ => env_fixture 9 5)).2 g1 (some snap) (Or.inl h1)
  exact ⟨g1, snap, h1, hlen, hkeys, h2.1, h2.2⟩

/-- A start function called while the profiler is enabled parses its options
and does nothing else. -/
theorem xhprof_enable_while_enabled (g : hp_global_t) (xhprof_flags : Int)
    (optional_array : Option hp_zarg) (senv : hp_start_env) (hen : g.enabled ≠ 0) :
    xhprof_enable g xhprof_flags optional_array senv =
      hp_parse_options_from_arg g optional_array ∧
    xhprof_sample_enable g senv = hp_parse_options_from_arg g none := by
  have h1 : ∀ g1, hp_parse_options_from_arg g optional_array = some g1 →
      g1.enabled = g.enabled := by
    intro g1 h
    unfold hp_parse_options_from_arg at h
    cases optional_array with
    | none => simp only [Option.some.injEq] at h; rw [← h]
    | some a =>
      simp only [hp_parse_layers_options_from_arg] at h
      split at h
      · split at h
        · exact absurd h (by simp)
        · simp only [Option.some.injEq] at h; rw [← h]
      · simp only [Option.some.injEq] at h; rw [← h]
  have h2 : hp_parse_options_from_arg g none =
      some { g with filtered_function_names := none, argument_function_names := none } := rfl
  constructor
  · unfold xhprof_enable
    cases hp : hp_parse_options_from_arg g optional_array with
    | none => rfl
    | some g1 =>
      simp only [hp_begin]
      rw [if_neg (by rw [h1 g1 hp]; exact hen)]
  · unfold xhprof_sample_enable
    rw [h2]
    simp only [hp_begin]
    rw [if_neg hen]

set_option maxRecDepth 100000 in
/-- C12 fails.  A hierarchical session is started from the state after module
init with `xhprof_enable(0, ['ignored_functions' => ['B']])`, so that calls of
`B` are rejected.  A second `xhprof_enable(0)` while the session runs sets
`filtered_function_names` (and `argument_function_names`) to null, because the
options are parsed before `hp_begin` tests `enabled`; calls of `B` are
accepted from then on.  The same holds for `xhprof_sample_enable()`, and a
second `xhprof_enable(0, ['functions' => ['A']])` turns the running session
into one with `filtered_type = 2` and the name list `['A']`. -/
theorem C12_second_enable_changes_the_filter :
    ∃ g g1 g2 g3,
      xhprof_enable (PHP_MINIT_FUNCTION 1) 0 (some blacklist_B) start_env_fixture = some g ∧
      g.enabled = 1 ∧ g.filtered_type = 1 ∧ g.filtered_function_names = some [[66]] ∧
      hp_filter_entry g (hp_inline_hash [66]) [66] = true ∧
      xhprof_enable g 0 none start_env_fixture = some g1 ∧
      g1.filtered_type = 1 ∧ g1.filtered_function_names = none ∧
      hp_filter_entry g1 (hp_inline_hash [66]) [66] = false ∧
      xhprof_sample_enable g start_env_fixture = some g2 ∧
      g2.filtered_function_names = none ∧
      g2.mode_cb = g.mode_cb ∧ g2.entries = g.entries ∧ g2.stats_count = g.stats_count ∧
      xhprof_enable g 0 (some (.array [(.string KEY_functions, .array [(.long 0, .string [65])])]))
        start_env_fixture = some g3 ∧
      g3.filtered_type = 2 ∧ g3.filtered_function_names = some [[65]] :=
  ⟨_, _, _, _, rfl, rfl, rfl, rfl, rfl, rfl, rfl, rfl, rfl, rfl, rfl, rfl, rfl, rfl, rfl, rfl, rfl⟩

/-! ## The base file name: claim C30 -/

/-- The reverse search returns the bytes behind the second `'/'` from the end
when there is one, and the whole string when there is not. -/
theorem hp_get_base_filename_loop_spec (filename : CStr) (before : List Nat) :
    ∀ (found : Int) (after : CStr), filename = before.reverse ++ after →
      found = (after.count 47 : Nat) → found < 2 →
      (filename.count 47 < 2 ∧
        hp_get_base_filename_loop before found after filename = filename) ∨
      (2 ≤ filename.count 47 ∧ ∃ pre,
        filename = pre ++ [47] ++ hp_get_base_filename_loop before found after filename ∧
        (hp_get_base_filename_loop before found after filename).count 47 = 1) := by
  induction before with
  | nil =>
    intro found after hfile hfound hlt
    left
    simp only [List.reverse_nil, List.nil_append] at hfile
    subst hfile
    exact ⟨by omega, rfl⟩
  | cons c before ih =>
    intro found after hfile hfound hlt
    simp only [hp_get_base_filename_loop]
    by_cases hc : c = 47
    · subst hc
      simp only [if_true]
      by_cases h2 : found + 1 = 2
      · rw [if_pos h2]
        right
        have hcount : after.count 47 = 1 := by omega
        refine ⟨?_, before.reverse, ?_, hcount⟩
        · rw [hfile]; simp [List.count_append]; omega
        · rw [hfile]; simp
      · rw [if_neg h2]
        apply ih (found + 1) (47 :: after)
        · rw [hfile]; simp
        · simp [hfound]
        · omega
    · simp only [hc, if_false]
      rw [if_neg (by omega)]
      apply ih found (c :: after)
      · rw [hfile]; simp
      · rw [hfound, List.count_cons_of_ne (Ne.symm hc)]
      · exact hlt

/-- C30. For a null file name `hp_get_base_filename` returns the empty string.
For a file name with fewer than two `'/'` it returns the whole name.  For a
file name with at least two `'/'` it returns the suffix that follows the
second `'/'` from the end: the name is `pre ++ "/" ++ result` and the result
holds exactly one `'/'`. -/
theorem C30_base_filename_is_last_directory_and_file (filename : CStr) :
    hp_get_base_filename none = [] ∧
    (filename.count 47 < 2 → hp_get_base_filename (some filename) = filename) ∧
    (2 ≤ filename.count 47 → ∃ pre,
      filename = pre ++ [47] ++ hp_get_base_filename (some filename) ∧
      (hp_get_base_filename (some filename)).count 47 = 1) ∧
    ∃ pre, filename = pre ++ hp_get_base_filename (some filename) := by
  have h := hp_get_base_filename_loop_spec filename filename.reverse 0 [] (by simp) (by simp)
    (by decide)
  refine ⟨rfl, ?_, ?_, ?_⟩
  · intro hlt
    rcases h with ⟨_, h⟩ | ⟨h, _⟩
    · exact h
    · omega
  · intro hge
    rcases h with ⟨h, _⟩ | ⟨_, h⟩
    · omega
    · exact h
  · rcases h with ⟨_, h⟩ | ⟨_, pre, h, _⟩
    · exact ⟨[], by simp [hp_get_base_filename, h]⟩
    · exact ⟨pre ++ [47], h⟩

/-- C30 on the example of the source, `/a/b/c/d/foo.php`, which gives
`d/foo.php`, and on `foo.php`, which is returned whole. -/
theorem C30_base_filename_witness :
    hp_get_base_filename (some [47, 97, 47, 98, 47, 99, 47, 100, 47, 102, 111, 111, 46, 112,
      104, 112]) = [100, 47, 102, 111, 111, 46, 112, 104, 112] ∧
    (∃ pre, [47, 97, 47, 98, 47, 99, 47, 100, 47, 102, 111, 111, 46, 112, 104, 112] =
      pre ++ [47] ++ hp_get_base_filename (some [47, 97, 47, 98, 47, 99, 47, 100, 47, 102,
        111, 111, 46, 112, 104, 112]) ∧
      (hp_get_base_filename (some [47, 97, 47, 98, 47, 99, 47, 100, 47, 102, 111, 111, 46,
        112, 104, 112])).count 47 = 1) ∧
    hp_get_base_filename (some [102, 111, 111, 46, 112, 104, 112]) =
      [102, 111, 111, 46, 112, 104, 112] ∧
    hp_get_base_filename (some []) = [] :=
  ⟨by decide,
    (C30_base_filename_is_last_directory_and_file [47, 97, 47, 98, 47, 99, 47, 100, 47, 102,
      111, 111, 46, 112, 104, 112]).2.2.1 (by decide),
    (C30_base_filename_is_last_directory_and_file [102, 111, 111, 46, 112, 104, 112]).2.1
      (by decide),
    (C30_base_filename_is_last_directory_and_file []).2.1 (by decide)⟩

/-! ## The sample check terminates: claim C29 -/

/-- The samples due are the intervals that have gone by in full. -/
theorem intervals_passed_eq (d intr : Nat) (hi : 0 < intr) :
    intervals_passed d intr = samples_due d intr := by
  unfold intervals_passed samples_due
  have hset : (Finset.range (d + 1)).filter (fun j => 0 < j ∧ j * intr < d) =
      Finset.Icc 1 ((d - 1) / intr) := by
    ext j
    simp only [Finset.mem_filter, Finset.mem_range, Finset.mem_Icc]
    constructor
    · rintro ⟨_, hj0, hj⟩
      refine ⟨hj0, ?_⟩
      rw [Nat.le_div_iff_mul_le hi]
      omega
    · rintro ⟨hj0, hj⟩
      rw [Nat.le_div_iff_mul_le hi] at hj
      have hd : 0 < d := by
        by_contra h
        have : d = 0 := by omega
        subst this
        have : 0 < j * intr := Nat.mul_pos hj0 hi
        omega
      have hle : j ≤ j * intr := Nat.le_mul_of_pos_right j hi
      exact ⟨by omega, hj0, by omega⟩
  rw [hset, Nat.card_Icc]
  simp

/-- C29. With an empty stack `hp_sample_check` returns the state it was
given.  With a stack that is not empty, a stats array, a sampling interval
that is not zero cycles and the cycle counter fixed at `now`, not behind the
last sample, it returns after exactly `k` rounds of its loop, `k` the number of
positive `j` with `j * sampling_interval_tsc < now - last_sample_tsc`: the
state is that of `k` samples taken one after the other, `last_sample_tsc` has
gone up by `k` intervals and is at most one interval behind `now`. -/
theorem C29_sample_check_catches_up (g : hp_global_t) (env : hp_env) :
    (g.entries = [] → hp_sample_check g env = some g) ∧
    (g.entries ≠ [] → g.stats_count ≠ none → 0 < g.sampling_interval_tsc →
      g.last_sample_tsc ≤ env.tsc → env.tsc < 2 ^ 64 →
      ∃ g1, hp_sample_check g env = some g1 ∧
        hp_sample_rounds
          (intervals_passed (env.tsc - g.last_sample_tsc) g.sampling_interval_tsc) g = some g1 ∧
        g1.last_sample_tsc = g.last_sample_tsc +
          intervals_passed (env.tsc - g.last_sample_tsc) g.sampling_interval_tsc *
            g.sampling_interval_tsc ∧
        g1.last_sample_tsc ≤ env.tsc ∧
        env.tsc - g1.last_sample_tsc ≤ g.sampling_interval_tsc ∧
        g1.entries = g.entries) := by
  constructor
  · intro hent
    simp [hp_sample_check, hent]
  · intro hent hst hint hlast hnow
    rw [intervals_passed_eq _ _ hint]
    have heq := hp_sample_check_eq_rounds g env hent hint hlast hnow
    have hloop : ∃ g1, hp_sample_check g env = some g1 := by
      unfold hp_sample_check
      cases he : g.entries with
      | nil => exact absurd he hent
      | cons e prev =>
        obtain ⟨g1, h1, _⟩ := hp_sample_check_loop_returns env.tsc (2 ^ 64) g hint (by omega) hst
          hent (Nat.mod_lt _ (by positivity))
        exact ⟨g1, h1⟩
    obtain ⟨g1, hg1⟩ := hloop
    have hr : hp_sample_rounds
        (samples_due (env.tsc - g.last_sample_tsc) g.sampling_interval_tsc) g = some g1 := by
      rw [← heq]; exact hg1
    have hk : samples_due (env.tsc - g.last_sample_tsc) g.sampling_interval_tsc *
        g.sampling_interval_tsc ≤ env.tsc - g.last_sample_tsc := by
      by_cases hz : env.tsc - g.last_sample_tsc = 0
      · rw [hz]; simp [samples_due]
      · have := samples_due_mul_le (env.tsc - g.last_sample_tsc) g.sampling_interval_tsc
          (by omega)
        omega
    obtain ⟨he1, _, hl1⟩ := hp_sample_rounds_some _ g g1 hr (by omega)
    refine ⟨g1, hg1, hr, hl1, by omega, ?_, he1⟩
    rw [hl1]
    have hlt := Nat.lt_mul_div_succ (env.tsc - g.last_sample_tsc - 1) hint
    have hmul : g.sampling_interval_tsc *
        ((env.tsc - g.last_sample_tsc - 1) / g.sampling_interval_tsc + 1) =
        samples_due (env.tsc - g.last_sample_tsc) g.sampling_interval_tsc *
          g.sampling_interval_tsc + g.sampling_interval_tsc := by
      unfold samples_due; ring
    rw [hmul] at hlt
    omega

/-- C29 on a sampled session with an empty stack, and on the session inside
`main()` that started at 1700000000.060000, checked 250,000 microseconds
later: 744,000,000 cycles have gone by at an interval of 240,000,000, so three
rounds run. -/
theorem C29_sample_check_witness :
    hp_sample_check (sampled_fixture []) (env_fixture 5 0) = some (sampled_fixture []) ∧
    intervals_passed ((env_fixture (10 ^ 12 + 600000000) 0).tsc -
      sampled_started.last_sample_tsc) sampled_started.sampling_interval_tsc = 3 ∧
    ∃ g1, hp_sample_check sampled_started (env_fixture (10 ^ 12 + 600000000) 0) = some g1 ∧
      hp_sample_rounds
        (intervals_passed ((env_fixture (10 ^ 12 + 600000000) 0).tsc -
          sampled_started.last_sample_tsc) sampled_started.sampling_interval_tsc)
        sampled_started = some g1 ∧
      g1.last_sample_tsc = sampled_started.last_sample_tsc +
        intervals_passed ((env_fixture (10 ^ 12 + 600000000) 0).tsc -
          sampled_started.last_sample_tsc) sampled_started.sampling_interval_tsc *
          sampled_started.sampling_interval_tsc ∧
      g1.last_sample_tsc ≤ (env_fixture (10 ^ 12 + 600000000) 0).tsc ∧
      (env_fixture (10 ^ 12 + 600000000) 0).tsc - g1.last_sample_tsc ≤
        sampled_started.sampling_interval_tsc ∧
      g1.entries = sampled_started.entries :=
  ⟨(C29_sample_check_catches_up (sampled_fixture []) (env_fixture 5 0)).1 rfl,
    (intervals_passed_eq _ _ (by decide)).trans (by decide),
    (C29_sample_check_catches_up sampled_started (env_fixture (10 ^ 12 + 600000000) 0)).2
      (by simp [sampled_started, sampled_fixture]) (by simp [sampled_started, sampled_fixture])
      (by decide) (by decide) (by decide)⟩

/-! ## The name arrays of the options: claims C23 and C24 -/

/-- The loop of `hp_strings_in_zval` is the filter of the spec. -/
theorem hp_strings_in_zval_loop_eq (ht : List (hp_zkey × hp_zelem)) :
    hp_strings_in_zval_loop ht = kept_names_spec ht := by
  induction ht with
  | nil => rfl
  | cons p rest ih =>
    obtain ⟨k, v⟩ := p
    cases k with
    | long idx =>
      cases v with
      | string s =>
        by_cases h : Z_STRVAL s = ROOT_SYMBOL
        · simp only [hp_strings_in_zval_loop, kept_names_spec, List.filterMap_cons, h, ne_eq,
            not_true_eq_false, if_false, if_true]
          exact ih
        · simp only [hp_strings_in_zval_loop, kept_names_spec, List.filterMap_cons, h, ne_eq,
            not_false_eq_true, if_true, if_false]
          rw [ih]; rfl
      | other =>
        simp only [hp_strings_in_zval_loop, kept_names_spec, List.filterMap_cons]
        exact ih
    | string key =>
      simp only [hp_strings_in_zval_loop, kept_names_spec, List.filterMap_cons]
      exact ih

/-- A string without a NUL is read whole by C code. -/
theorem Z_STRVAL_of_wf (s : List Nat) (h : ∀ b ∈ s, b ≠ 0) : Z_STRVAL s = s := by
  unfold Z_STRVAL
  rw [List.takeWhile_eq_self_iff]
  intro b hb
  simpa using h b hb

/-- C24. For every array, `hp_strings_in_zval` returns a name array (it has no
error path): the C strings of the values that are strings held under integer
keys and differ from `"main()"`, in the order of the array.  A name is in the
result exactly when it is the C string of such a value; values of another type
and entries under string keys leave nothing in it.  The C string of a value
without a NUL byte is the value itself. -/
theorem C24_strings_in_zval_keeps_integer_keyed_strings (ht : List (hp_zkey × hp_zelem)) :
    hp_strings_in_zval (some (.array ht)) = some (kept_names_spec ht) ∧
    (∀ name, name ∈ kept_names_spec ht ↔
      ∃ idx s, (hp_zkey.long idx, hp_zelem.string s) ∈ ht ∧ Z_STRVAL s = name ∧
        name ≠ ROOT_SYMBOL) ∧
    (∀ key v rest, kept_names_spec ((hp_zkey.string key, v) :: rest) = kept_names_spec rest) ∧
    (∀ key rest, kept_names_spec ((key, hp_zelem.other) :: rest) = kept_names_spec rest) ∧
    (∀ idx s rest, Z_STRVAL s ≠ ROOT_SYMBOL →
      kept_names_spec ((hp_zkey.long idx, hp_zelem.string s) :: rest) =
        Z_STRVAL s :: kept_names_spec rest) ∧
    (∀ idx s rest, Z_STRVAL s = ROOT_SYMBOL →
      kept_names_spec ((hp_zkey.long idx, hp_zelem.string s) :: rest) = kept_names_spec rest) ∧
    (∀ s : List Nat, (∀ b ∈ s, b ≠ 0) → Z_STRVAL s = s) := by
  refine ⟨?_, ?_, ?_, ?_, ?_, ?_, Z_STRVAL_of_wf⟩
  · simp only [hp_strings_in_zval, hp_strings_in_zval_loop_eq]
  · intro name
    simp only [kept_names_spec, List.mem_filterMap]
    constructor
    · rintro ⟨⟨k, v⟩, hmem, hval⟩
      cases k with
      | long idx =>
        cases v with
        | string s =>
          by_cases h : Z_STRVAL s = ROOT_SYMBOL
          · simp [h] at hval
          · simp only [h, if_false, Option.some.injEq] at hval
            exact ⟨idx, s, hmem, hval, by rw [← hval]; exact h⟩
        | other => simp at hval
      | string key => simp at hval
    · rintro ⟨idx, s, hmem, hval, hne⟩
      refine ⟨(.long idx, .string s), hmem, ?_⟩
      have : ¬ Z_STRVAL s = ROOT_SYMBOL := by rw [hval]; exact hne
      simp only [hval]
      rw [if_neg hne]
  · intro key v rest; simp [kept_names_spec]
  · intro key rest
    cases key <;> simp [kept_names_spec]
  · intro idx s rest h; simp [kept_names_spec, h]
  · intro idx s rest h; simp [kept_names_spec, h]

/-- C24 on the array `[0 => 'foo', 'k' => 'bar', 1 => 7, 2 => 'main()',
3 => 'baz']`: the names kept are `foo` and `baz`. -/
theorem C24_strings_in_zval_witness :
    hp_strings_in_zval (some (.array [(.long 0, .string [102, 111, 111]),
      (.string [107], .string [98, 97, 114]), (.long 1, .other),
      (.long 2, .string ROOT_SYMBOL), (.long 3, .string [98, 97, 122])])) =
      some [[102, 111, 111], [98, 97, 122]] :=
  (C24_strings_in_zval_keeps_integer_keyed_strings [(.long 0, .string [102, 111, 111]),
    (.string [107], .string [98, 97, 114]), (.long 1, .other),
    (.long 2, .string ROOT_SYMBOL), (.long 3, .string [98, 97, 122])]).1

set_option maxRecDepth 100000 in
/-- C23 fails.  With `xhprof_enable(0, ['ignored_functions' => 'main()'])` the
single string is copied to the name list as it is (only the array branch of
`hp_strings_in_zval` leaves `"main()"` out), so in the session that starts the
filter rejects `main()`, `BEGIN_PROFILING` pushes no root frame and the stack
is empty.  With the array `['main()', 'B']` the name `main()` is dropped and
the root frame is pushed. -/
theorem C23_single_string_main_is_filtered :
    hp_strings_in_zval (some (.string ROOT_SYMBOL)) = some [ROOT_SYMBOL] ∧
    (∃ g, xhprof_enable (PHP_MINIT_FUNCTION 1) 0 (some blacklist_main_string)
        start_env_fixture = some g ∧
      g.enabled = 1 ∧ g.filtered_type = 1 ∧ g.filtered_function_names = some [ROOT_SYMBOL] ∧
      hp_filter_entry g (hp_inline_hash ROOT_SYMBOL) ROOT_SYMBOL = true ∧
      g.entries = []) ∧
    (∃ g, xhprof_enable (PHP_MINIT_FUNCTION 1) 0 (some blacklist_main_array)
        start_env_fixture = some g ∧
      g.enabled = 1 ∧ g.filtered_type = 1 ∧ g.filtered_function_names = some [[66]] ∧
      hp_filter_entry g (hp_inline_hash ROOT_SYMBOL) ROOT_SYMBOL = false ∧
      g.entries.map (fun e => e.name_hprof) = [ROOT_SYMBOL]) :=
  ⟨rfl, ⟨_, rfl, rfl, rfl, rfl, rfl, rfl⟩, ⟨_, rfl, rfl, rfl, rfl, rfl, rfl⟩⟩

/-! ## A start with a failed calibration: claim C25 -/

set_option maxRecDepth 100000 in
/-- C25 fails.  When every `SET_AFFINITY` call fails, or when the frequency
measurement fails, `get_all_cpu_frequencies` clears the frequency array, and
the hierarchical start goes on all the same: `hp_begin` has set `enabled = 1`
before and pushes the root frame, and the first call that ends reads the null
frequency array in `hp_mode_shared_endfn_cb`.  The sampled start reads it in
its init callback. -/
theorem C25_failed_calibration_leaves_session_running :
    (∃ g, xhprof_enable (PHP_MINIT_FUNCTION 1) 0 none start_env_no_affinity = some g ∧
      g.enabled = 1 ∧ g.cpu_frequencies = none ∧
      g.entries.map (fun e => e.name_hprof) = [ROOT_SYMBOL] ∧
      END_PROFILING g true (env_fixture 9 5) = none) ∧
    (∃ g, xhprof_enable (PHP_MINIT_FUNCTION 1) 0 none start_env_no_frequency = some g ∧
      g.enabled = 1 ∧ g.cpu_frequencies = none ∧
      g.entries.map (fun e => e.name_hprof) = [ROOT_SYMBOL] ∧
      END_PROFILING g true (env_fixture 9 5) = none) ∧
    xhprof_sample_enable (PHP_MINIT_FUNCTION 1) start_env_no_affinity = none ∧
    xhprof_sample_enable (PHP_MINIT_FUNCTION 1) start_env_no_frequency = none :=
  ⟨⟨_, rfl, rfl, rfl, rfl, rfl⟩, ⟨_, rfl, rfl, rfl, rfl, rfl⟩, rfl, rfl⟩

/-! ## Colliding hashes: claims C26 and C27 -/

/-- The scan of `hp_mode_common_beginfn` looks at the frames of the name it
is given only. -/
theorem hp_recurse_level_filter (entries : List hp_entry_t) (name : CStr) :
    hp_recurse_level entries name =
      hp_recurse_level (entries.filter (fun e => decide (e.name_hprof = name))) name := by
  induction entries with
  | nil => rfl
  | cons p ps ih =>
    by_cases h : p.name_hprof = name
    · simp [hp_recurse_level, List.filter_cons, h]
    · have h' : ¬ name = p.name_hprof := fun e => h e.symm
      simp [hp_recurse_level, List.filter_cons, h, h', ih]

/-- With no live frame of the name, the level `hp_mode_common_beginfn` gives
is 0, whatever the counter of the hash holds. -/
theorem hp_mode_common_beginfn_fresh (g : hp_global_t) (current : hp_entry_t)
    (h : ∀ e ∈ g.entries, e.name_hprof ≠ current.name_hprof) :
    (hp_mode_common_beginfn g current).2.rlvl_hprof = 0 := by
  have hz : ∀ entries : List hp_entry_t, (∀ e ∈ entries, e.name_hprof ≠ current.name_hprof) →
      hp_recurse_level entries current.name_hprof = 0 := by
    intro entries
    induction entries with
    | nil => intro _; rfl
    | cons p ps ih =>
      intro hall
      have hp : ¬ current.name_hprof = p.name_hprof :=
        fun e => hall p (List.mem_cons_self _ _) e.symm
      simp only [hp_recurse_level, hp, if_false]
      exact ih (fun e he => hall e (List.mem_cons_of_mem _ he))
  simp only [hp_mode_common_beginfn]
  split
  · exact hz g.entries h
  · rfl

set_option maxRecDepth 1000000 in
/-- C27 fails in its general part.  The names `AA` and `IH` differ and have
the same 8-bit hash.  With one frame of `IH` live under the root frame, a call
of `IH` gets recursion level 1.  With 255 frames of `AA` live on top of that
frame, the `uint8` counter of the common hash has wrapped to 0, so the call of
`IH` skips the scan and gets recursion level 0: the level depends on the live
frames of the other name. -/
theorem C27_colliding_frames_change_the_level :
    hp_inline_hash [65, 65] = hp_inline_hash [73, 72] ∧
    ((hp_run_begins (hier_fixture [mk_entry [73, 72] 0, mk_entry ROOT_SYMBOL 0]) [[73, 72]]
        (env_fixture 1 0)).map
      (fun g => g.entries.head?.map (fun e => (e.name_hprof, e.rlvl_hprof)))) =
      some (some ([73, 72], 1)) ∧
    ((hp_run_begins (hier_fixture [mk_entry [73, 72] 0, mk_entry ROOT_SYMBOL 0])
        (List.replicate 255 [65, 65]) (env_fixture 1 0)).map
      (fun g => (g.func_hash_counters (hp_inline_hash [73, 72]),
        (g.entries.filter (fun e => decide (e.name_hprof = [73, 72]))).length,
        (g.entries.filter (fun e => decide (e.name_hprof = [65, 65]))).length))) =
      some (0, 1, 255) ∧
    ((hp_run_begins (hier_fixture [mk_entry [73, 72] 0, mk_entry ROOT_SYMBOL 0])
        (List.replicate 255 [65, 65] ++ [[73, 72]]) (env_fixture 1 0)).map
      (fun g => g.entries.head?.map (fun e => (e.name_hprof, e.rlvl_hprof)))) =
      some (some ([73, 72], 0)) := by
  refine ⟨by decide, by rfl, by rfl, by rfl⟩

theorem hash_count_cons (e : hp_entry_t) (entries : List hp_entry_t) (h : Nat) :
    hash_count (e :: entries) h = hash_count entries h + (if e.hash_code = h then 1 else 0) := by
  unfold hash_count
  by_cases hh : e.hash_code = h <;> simp [List.filter_cons, hh]

/-- A call of an accepted symbol keeps the counters at the numbers of live
frames. -/
theorem counters_ok_push (g g1 : hp_global_t) (cur : hp_entry_t) (hc : counters_ok g)
    (he : g1.entries = cur :: g.entries)
    (hctr : g1.func_hash_counters = array_set g.func_hash_counters cur.hash_code
      ((g.func_hash_counters cur.hash_code + 1) % 256)) : counters_ok g1 := by
  intro h
  rw [hctr, he, hash_count_cons]
  by_cases hh : cur.hash_code = h
  · subst hh
    simp only [array_set, if_true]
    rw [hc cur.hash_code]
    omega
  · have hh' : ¬ h = cur.hash_code := fun e => hh e.symm
    simp only [array_set, hh, hh', if_false]
    rw [hc h]; rfl

/-- The end of a tracked call keeps the counters at the numbers of live
frames. -/
theorem counters_ok_pop (g g1 : hp_global_t) (cur : hp_entry_t) (prev : List hp_entry_t)
    (hc : counters_ok g) (hent : g.entries = cur :: prev) (he : g1.entries = prev)
    (hctr : g1.func_hash_counters = array_set g.func_hash_counters cur.hash_code
      ((g.func_hash_counters cur.hash_code + 255) % 256)) : counters_ok g1 := by
  intro h
  have hg := hc h
  rw [hent, hash_count_cons] at hg
  rw [hctr, he]
  by_cases hh : cur.hash_code = h
  · subst hh
    simp only [array_set, if_true] at hg ⊢
    rw [hg]
    omega
  · have hh' : ¬ h = cur.hash_code := fun e => hh e.symm
    simp only [hh, if_false, Nat.add_zero] at hg
    simp only [array_set, hh', if_false]
    exact hg

/-- A run of calls and returns from a state whose callbacks can return and
whose counters hold the numbers of live frames returns in such a state. -/
theorem hp_run_events_counters (env : hp_env) (events : List hp_event) :
    ∀ (g : hp_global_t) (flags : List Bool), end_callback_ok g → modes_paired g →
      counters_ok g →
      ∃ g1 flags1, hp_run_events g flags events env = some (g1, flags1) ∧
        end_callback_ok g1 ∧ counters_ok g1 := by
  induction events with
  | nil =>
    intro g flags hok _ hc
    exact ⟨g, flags, by simp [hp_run_events], hok, hc⟩
  | cons ev rest ih =>
    intro g flags hok hpair hc
    cases ev with
    | call symbol =>
      by_cases hacc : hp_filter_entry g (hp_inline_hash symbol) symbol = true
      · simp only [hp_run_events, BEGIN_PROFILING_rejected g symbol env hacc]
        exact ih g (false :: flags) hok hpair hc
      · have hacc : hp_filter_entry g (hp_inline_hash symbol) symbol = false := by
          simpa using hacc
        obtain ⟨g1, cur, hb, hcfg, hok1, he, _, hctr, _, hh, _⟩ :=
          BEGIN_PROFILING_spec g symbol env hok hpair hacc
        simp only [hp_run_events, hb]
        exact ih g1 (true :: flags) hok1 (modes_paired_same_config g g1 hcfg hpair)
          (counters_ok_push g g1 cur hc he (by rw [hh]; exact hctr))
    | ret =>
      cases flags with
      | nil =>
        simp only [hp_run_events]
        exact ih g [] hok hpair hc
      | cons b flags =>
        simp only [hp_run_events]
        cases hent : g.entries with
        | nil =>
          simp only [if_true]
          exact ih g flags hok hpair hc
        | cons cur prev =>
          simp only [reduceCtorEq, if_false]
          cases b with
          | false =>
            simp only [END_PROFILING, Bool.false_eq_true, if_false]
            exact ih g flags hok hpair hc
          | true =>
            obtain ⟨g2, hend, hcfg, hok2, he2, _, hctr⟩ :=
              END_PROFILING_fields g env cur prev hok hent
            simp only [hend]
            exact ih g2 flags hok2 (modes_paired_same_config g g2 hcfg hpair)
              (counters_ok_pop g g2 cur prev hc hent he2 hctr)

/-- C26. From a state with an empty stack and all hash counters 0, whose
callbacks can return, every run of calls and returns (each return ending the
call that is open) returns, and after it the counter of each hash value holds
the number of live frames with that hash code modulo 256; so with an empty
stack all counters are 0. -/
theorem C26_hash_counters_count_live_frames (g0 : hp_global_t) (events : List hp_event)
    (env : hp_env) (hok : end_callback_ok g0) (hpair : modes_paired g0)
    (hent : g0.entries = []) (hzero : ∀ h, g0.func_hash_counters h = 0) :
    ∃ g flags, hp_run_events g0 [] events env = some (g, flags) ∧
      (∀ h, g.func_hash_counters h = hash_count g.entries h % 256) ∧
      (g.entries = [] → ∀ h, g.func_hash_counters h = 0) := by
  have hc0 : counters_ok g0 := by
    intro h; rw [hzero h, hent]; rfl
  obtain ⟨g, flags, hr, _, hc⟩ := hp_run_events_counters env events g0 [] hok hpair hc0
  refine ⟨g, flags, hr, hc, ?_⟩
  intro he h
  rw [hc h, he]; rfl

set_option maxRecDepth 100000 in
/-- C26 on a hierarchical session with an empty stack: after the calls
`main()`, `A`, `A`, a return and a call of `B`, the frames of `B`, `A` and
`main()` are live and the counters of the hashes of `A` and of `B` are 1; after
three more returns the stack is empty and the counters are 0. -/
theorem C26_hash_counters_witness :
    (hp_run_events (hier_fixture []) [] [.call ROOT_SYMBOL, .call [65], .call [65], .ret,
        .call [66]] (env_fixture 1 5)).map
      (fun r => (r.1.entries.map (fun e => e.name_hprof),
        r.1.func_hash_counters (hp_inline_hash [65]),
        r.1.func_hash_counters (hp_inline_hash [66]))) =
      some ([[66], [65], ROOT_SYMBOL], 1, 1) ∧
    ∃ g flags, hp_run_events (hier_fixture []) [] [.call ROOT_SYMBOL, .call [65], .call [65],
        .ret, .call [66], .ret, .ret, .ret] (env_fixture 1 5) = some (g, flags) ∧
      (∀ h, g.func_hash_counters h = hash_count g.entries h % 256) ∧
      (g.entries = [] → ∀ h, g.func_hash_counters h = 0) :=
  ⟨by rfl, C26_hash_counters_count_live_frames (hier_fixture []) [.call ROOT_SYMBOL, .call [65],
    .call [65], .ret, .call [66], .ret, .ret, .ret] (env_fixture 1 5) (hier_fixture_ok [])
    (by intro h; cases h) rfl (fun _ => rfl)⟩

/-! ## The fields of a stats entry and the layers: claims C21 and C22 -/

/-- The call `hp_inc_count` through the pointer of one key leaves the values
of the other keys alone. -/
theorem hp_inc_count_at_other_key (ht : hp_array) (symbol name : CStr) (count : Int)
    (k : CStr) (hk : k ≠ symbol) :
    zend_hash_find (hp_inc_count_at ht symbol name count) k = zend_hash_find ht k := by
  unfold hp_inc_count_at
  split
  · exact find_update_other ht symbol k _ hk
  · rfl

/-- The lookup-or-create of `hp_hash_lookup` leaves the values of the other
keys alone. -/
theorem hp_hash_lookup_other_key (ht ht0 : hp_array) (symbol : CStr) (v : hp_stat)
    (h : hp_hash_lookup (some ht) symbol = some (ht0, v)) (k : CStr) (hk : k ≠ symbol) :
    zend_hash_find ht0 k = zend_hash_find ht k := by
  simp only [hp_hash_lookup] at h
  split at h
  · simp only [Option.some.injEq, Prod.mk.injEq] at h
    rw [← h.1]
  · simp only [Option.some.injEq, Prod.mk.injEq] at h
    rw [← h.1]
    exact find_update_other ht symbol k _ hk

/-- The layer block of the shared end callback does not read the stats array. -/
theorem hp_mode_shared_endfn_layers_stats (g : hp_global_t) (wt : Int) (st : Option hp_array) :
    hp_mode_shared_endfn_layers { g with stats_count := st } wt =
      { g with
        stats_count := st,
        layers_count := (hp_mode_shared_endfn_layers g wt).layers_count } := by
  unfold hp_mode_shared_endfn_layers
  cases hd : g.layers_definition with
  | none => simp only [hd]
  | some def_ =>
    simp only [hd]
    cases hn : hp_function_stack_string g.entries 1 SCRATCH_BUF_LEN with
    | none => simp only [hn]
    | some function_name =>
      simp only [hn]
      cases hf : zend_hash_find def_ function_name with
      | none => simp only [hf]
      | some layer =>
        simp only [hf]
        cases hl : hp_hash_lookup_label g.layers_count layer with
        | none => simp only [hl]
        | some p => simp only [hl]

/-- The hierarchical end callback, written out: the stats array gets the
counts of the key of the top frame, the layers array is what the layer block
makes of it, and nothing else changes. -/
theorem hp_mode_hier_endfn_cb_eq (g : hp_global_t) (env : hp_env) (ht ht0 : hp_array)
    (fr : List Nat) (k : CStr) (top : hp_entry_t) (prev : List hp_entry_t) (v : hp_stat)
    (hst : g.stats_count = some ht) (hfr : g.cpu_frequencies = some fr)
    (hent : g.entries = top :: prev)
    (hk : hp_function_stack_string g.entries 2 SCRATCH_BUF_LEN = some k)
    (hl : hp_hash_lookup (some ht) k = some (ht0, v)) :
    hp_mode_hier_endfn_cb g env = some { g with
      stats_count := some (hier_optional_counts g.xhprof_flags top env k
        (hp_inc_count_at (hp_inc_count_at ht0 k NAME_ct 1) k NAME_wt env.wt)),
      layers_count := (hp_mode_shared_endfn_layers g env.wt).layers_count } := by
  cases g with
  | mk enabled ever_enabled layers_count layers_definition stats_count profiler_level entries
      entry_free_list mode_cb last_sample_time last_sample_tsc sampling_interval_tsc
      cpu_frequencies cpu_num cur_cpu_id xhprof_flags func_hash_counters filtered_type
      filtered_function_names filtered_function_filter argument_function_names
      argument_function_filter =>
  simp only at hst hfr hent hk
  subst hst hfr hent
  have hlc := hp_mode_shared_endfn_layers_stats
    { enabled := enabled, ever_enabled := ever_enabled, layers_count := layers_count,
      layers_definition := layers_definition, stats_count := some ht,
      profiler_level := profiler_level, entries := top :: prev,
      entry_free_list := entry_free_list, mode_cb := mode_cb,
      last_sample_time := last_sample_time, last_sample_tsc := last_sample_tsc,
      sampling_interval_tsc := sampling_interval_tsc, cpu_frequencies := some fr,
      cpu_num := cpu_num, cur_cpu_id := cur_cpu_id, xhprof_flags := xhprof_flags,
      func_hash_counters := func_hash_counters, filtered_type := filtered_type,
      filtered_function_names := filtered_function_names,
      filtered_function_filter := filtered_function_filter,
      argument_function_names := argument_function_names,
      argument_function_filter := argument_function_filter }
    env.wt (some (hp_inc_count_at (hp_inc_count_at ht0 k NAME_ct 1) k NAME_wt env.wt))
  simp only at hlc
  simp only [hp_mode_hier_endfn_cb, hk, hp_mode_shared_endfn_cb, hl, hlc]
  simp only [hier_optional_counts, hp_stats_inc]
  by_cases hcpu : xhprof_flags &&& XHPROF_FLAGS_CPU ≠ 0 <;>
    by_cases hmem : xhprof_flags &&& XHPROF_FLAGS_MEMORY ≠ 0 <;>
    simp only [hcpu, hmem, ne_eq, not_false_eq_true, not_true_eq_false, if_true, if_false]

/-- A field that is there belongs to a key that is there. -/
theorem has_field_key (ht : hp_array) (k name : CStr) (h : has_field ht k name) :
    zend_hash_find ht k ≠ none := by
  unfold has_field hp_stat_field at h
  intro hn
  simp [hn] at h

/-- The fields of a key are read from the value of the key. -/
theorem hp_stat_field_congr (ht ht1 : hp_array) (k : CStr)
    (h : zend_hash_find ht1 k = zend_hash_find ht k) (name : CStr) :
    hp_stat_field (some ht1) k name = hp_stat_field (some ht) k name := by
  simp only [hp_stat_field, h]

/-- An optional `hp_inc_count` on the field `name` of the key `k`: the field
is there afterwards when the call was made or the field was there before, and
nothing else has changed. -/
theorem optional_inc_spec (c : Prop) [Decidable c] (ht : hp_array) (k name : CStr) (count : Int)
    (hco : counts_only ht) (hp : zend_hash_find ht k ≠ none) :
    counts_only (if c then hp_inc_count_at ht k name count else ht) ∧
    zend_hash_find (if c then hp_inc_count_at ht k name count else ht) k ≠ none ∧
    (has_field (if c then hp_inc_count_at ht k name count else ht) k name ↔
      c ∨ has_field ht k name) ∧
    (∀ n, n ≠ name →
      hp_stat_field (some (if c then hp_inc_count_at ht k name count else ht)) k n =
        hp_stat_field (some ht) k n) ∧
    (∀ k', k' ≠ k →
      zend_hash_find (if c then hp_inc_count_at ht k name count else ht) k' =
        zend_hash_find ht k') := by
  by_cases hc : c
  · rw [if_pos hc]
    obtain ⟨h1, h2, h3, h4⟩ := hp_inc_count_at_spec ht k name count hco hp
    refine ⟨h1, h2, ⟨fun _ => Or.inl hc, fun _ => ?_⟩, fun n hn => h4 k n (Or.inr hn),
      fun k' hk' => hp_inc_count_at_other_key ht k name count k' hk'⟩
    unfold has_field; rw [h3]; simp
  · rw [if_neg hc]
    exact ⟨hco, hp, ⟨Or.inr, fun h => h.resolve_left hc⟩, fun _ _ => rfl, fun _ _ => rfl⟩

/-- The optional blocks of the hierarchical end callback on the counts of the
key `k`: `cpu` is there afterwards when `XHPROF_FLAGS_CPU` is set or it was
there, `mu` and `pmu` when `XHPROF_FLAGS_MEMORY` is set or they were there;
`ct`, `wt` and the other keys are as before. -/
theorem hier_optional_counts_spec (xhprof_flags : Nat) (top : hp_entry_t) (env : hp_env)
    (k : CStr) (ht : hp_array) (hco : counts_only ht) (hp : zend_hash_find ht k ≠ none) :
    counts_only (hier_optional_counts xhprof_flags top env k ht) ∧
    zend_hash_find (hier_optional_counts xhprof_flags top env k ht) k ≠ none ∧
    hp_stat_field (some (hier_optional_counts xhprof_flags top env k ht)) k NAME_ct =
      hp_stat_field (some ht) k NAME_ct ∧
    hp_stat_field (some (hier_optional_counts xhprof_flags top env k ht)) k NAME_wt =
      hp_stat_field (some ht) k NAME_wt ∧
    (has_field (hier_optional_counts xhprof_flags top env k ht) k NAME_cpu ↔
      xhprof_flags &&& XHPROF_FLAGS_CPU ≠ 0 ∨ has_field ht k NAME_cpu) ∧
    (has_field (hier_optional_counts xhprof_flags top env k ht) k NAME_mu ↔
      xhprof_flags &&& XHPROF_FLAGS_MEMORY ≠ 0 ∨ has_field ht k NAME_mu) ∧
    (has_field (hier_optional_counts xhprof_flags top env k ht) k NAME_pmu ↔
      xhprof_flags &&& XHPROF_FLAGS_MEMORY ≠ 0 ∨ has_field ht k NAME_pmu) ∧
    (∀ k', k' ≠ k →
      zend_hash_find (hier_optional_counts xhprof_flags top env k ht) k' =
        zend_hash_find ht k') := by
  have hF : hier_optional_counts xhprof_flags top env k ht =
      (if xhprof_flags &&& XHPROF_FLAGS_MEMORY ≠ 0 then
        hp_inc_count_at
          (if xhprof_flags &&& XHPROF_FLAGS_MEMORY ≠ 0 then
            hp_inc_count_at
              (if xhprof_flags &&& XHPROF_FLAGS_CPU ≠ 0 then
                hp_inc_count_at ht k NAME_cpu
                  (get_us_interval top.ru_start_hprof.ru_utime env.ru.ru_utime +
                    get_us_interval top.ru_start_hprof.ru_stime env.ru.ru_stime)
              else ht) k NAME_mu (env.mu - top.mu_start_hprof)
          else
            (if xhprof_flags &&& XHPROF_FLAGS_CPU ≠ 0 then
              hp_inc_count_at ht k NAME_cpu
                (get_us_interval top.ru_start_hprof.ru_utime env.ru.ru_utime +
                  get_us_interval top.ru_start_hprof.ru_stime env.ru.ru_stime)
            else ht)) k NAME_pmu (env.pmu - top.pmu_start_hprof)
      else
        (if xhprof_flags &&& XHPROF_FLAGS_MEMORY ≠ 0 then
          hp_inc_count_at
            (if xhprof_flags &&& XHPROF_FLAGS_CPU ≠ 0 then
              hp_inc_count_at ht k NAME_cpu
                (get_us_interval top.ru_start_hprof.ru_utime env.ru.ru_utime +
                  get_us_interval top.ru_start_hprof.ru_stime env.ru.ru_stime)
            else ht) k NAME_mu (env.mu - top.mu_start_hprof)
        else
          (if xhprof_flags &&& XHPROF_FLAGS_CPU ≠ 0 then
            hp_inc_count_at ht k NAME_cpu
              (get_us_interval top.ru_start_hprof.ru_utime env.ru.ru_utime +
                get_us_interval top.ru_start_hprof.ru_stime env.ru.ru_stime)
          else ht))) := by
    unfold hier_optional_counts
    split_ifs <;> rfl
  rw [hF]
  obtain ⟨a1, a2, a3, a4, a5⟩ := optional_inc_spec (xhprof_flags &&& XHPROF_FLAGS_CPU ≠ 0) ht k
    NAME_cpu (get_us_interval top.ru_start_hprof.ru_utime env.ru.ru_utime +
      get_us_interval top.ru_start_hprof.ru_stime env.ru.ru_stime) hco hp
  generalize (if xhprof_flags &&& XHPROF_FLAGS_CPU ≠ 0 then
      hp_inc_count_at ht k NAME_cpu
        (get_us_interval top.ru_start_hprof.ru_utime env.ru.ru_utime +
          get_us_interval top.ru_start_hprof.ru_stime env.ru.ru_stime)
    else ht) = A at a1 a2 a3 a4 a5 ⊢
  obtain ⟨b1, b2, b3, b4, b5⟩ := optional_inc_spec (xhprof_flags &&& XHPROF_FLAGS_MEMORY ≠ 0) A k
    NAME_mu (env.mu - top.mu_start_hprof) a1 a2
  generalize (if xhprof_flags &&& XHPROF_FLAGS_MEMORY ≠ 0 then
      hp_inc_count_at A k NAME_mu (env.mu - top.mu_start_hprof) else A) = B at b1 b2 b3 b4 b5 ⊢
  obtain ⟨c1, c2, c3, c4, c5⟩ := optional_inc_spec (xhprof_flags &&& XHPROF_FLAGS_MEMORY ≠ 0) B k
    NAME_pmu (env.pmu - top.pmu_start_hprof) b1 b2
  generalize (if xhprof_flags &&& XHPROF_FLAGS_MEMORY ≠ 0 then
      hp_inc_count_at B k NAME_pmu (env.pmu - top.pmu_start_hprof) else B) = F
    at c1 c2 c3 c4 c5 ⊢
  have hf : ∀ n, has_field F k n ↔ hp_stat_field (some F) k n ≠ none := fun _ => Iff.rfl
  refine ⟨c1, c2, ?_, ?_, ?_, ?_, ?_, ?_⟩
  · rw [c4 NAME_ct (by decide), b4 NAME_ct (by decide), a4 NAME_ct (by decide)]
  · rw [c4 NAME_wt (by decide), b4 NAME_wt (by decide), a4 NAME_wt (by decide)]
  · unfold has_field at a3 ⊢
    rw [c4 NAME_cpu (by decide), b4 NAME_cpu (by decide)]
    exact a3
  · unfold has_field at b3 ⊢
    rw [c4 NAME_mu (by decide), ← a4 NAME_mu (by decide)]
    exact b3
  · unfold has_field at c3 ⊢
    rw [← a4 NAME_pmu (by decide), ← b4 NAME_pmu (by decide)]
    exact c3
  · intro k' hk'
    rw [c5 k' hk', b5 k' hk', a5 k' hk']

/-- C21. In a hierarchical session whose stats array holds counts arrays that
all have `ct` and `wt`, `cpu` exactly when `XHPROF_FLAGS_CPU` is set and `mu`
and `pmu` exactly when `XHPROF_FLAGS_MEMORY` is set (the empty array of a new
session is such an array), one run of `hp_mode_hier_endfn_cb` returns with a
stats array of the same kind, in which the entry of the key `k` of the call
that ends is there, its `ct` is 1 more and its `wt` the wall time of the call
more than before (counted from 0 for a new entry), and the entries of the
other keys are as they were. -/
theorem C21_ct_and_wt_always_optional_fields_on_request (g : hp_global_t) (env : hp_env)
    (ht : hp_array) (fr : List Nat) (k : CStr)
    (hst : g.stats_count = some ht) (hco : counts_only ht)
    (hfr : g.cpu_frequencies = some fr)
    (hk : hp_function_stack_string g.entries 2 SCRATCH_BUF_LEN = some k)
    (hinv : entry_fields_ok g.xhprof_flags ht) :
    ∃ ht1 lc, hp_mode_hier_endfn_cb g env =
        some { g with stats_count := some ht1, layers_count := lc } ∧
      counts_only ht1 ∧ entry_fields_ok g.xhprof_flags ht1 ∧
      zend_hash_find ht1 k ≠ none ∧
      hp_stat_field (some ht1) k NAME_ct =
        some ((hp_stat_field (some ht) k NAME_ct).getD 0 + 1) ∧
      hp_stat_field (some ht1) k NAME_wt =
        some ((hp_stat_field (some ht) k NAME_wt).getD 0 + env.wt) ∧
      (has_field ht1 k NAME_cpu ↔ g.xhprof_flags &&& XHPROF_FLAGS_CPU ≠ 0) ∧
      (has_field ht1 k NAME_mu ↔ g.xhprof_flags &&& XHPROF_FLAGS_MEMORY ≠ 0) ∧
      (has_field ht1 k NAME_pmu ↔ g.xhprof_flags &&& XHPROF_FLAGS_MEMORY ≠ 0) ∧
      ∀ k', k' ≠ k → zend_hash_find ht1 k' = zend_hash_find ht k' := by
  have hex : ∃ top prev, g.entries = top :: prev := by
    cases he : g.entries with
    | nil => rw [he] at hk; simp [hp_function_stack_string] at hk
    | cons top prev => exact ⟨top, prev, rfl⟩
  obtain ⟨top, prev, hent⟩ := hex
  obtain ⟨ht0, v, hl, hco0, hp0, hf0⟩ := hp_hash_lookup_spec ht k hco
  have hother0 := hp_hash_lookup_other_key ht ht0 k v hl
  obtain ⟨hcoA, hpA, hctA, hoA⟩ := hp_inc_count_at_spec ht0 k NAME_ct 1 hco0 hp0
  obtain ⟨hcoB, hpB, hwtB, hoB⟩ :=
    hp_inc_count_at_spec (hp_inc_count_at ht0 k NAME_ct 1) k NAME_wt env.wt hcoA hpA
  obtain ⟨f1, f2, f3, f4, f5, f6, f7, f8⟩ := hier_optional_counts_spec g.xhprof_flags top env k
    (hp_inc_count_at (hp_inc_count_at ht0 k NAME_ct 1) k NAME_wt env.wt) hcoB hpB
  have heq := hp_mode_hier_endfn_cb_eq g env ht ht0 fr k top prev v hst hfr hent hk hl
  generalize hier_optional_counts g.xhprof_flags top env k
    (hp_inc_count_at (hp_inc_count_at ht0 k NAME_ct 1) k NAME_wt env.wt) = F
    at f1 f2 f3 f4 f5 f6 f7 f8 heq
  -- the fields of `k` before the optional blocks
  have hB : ∀ n, n ≠ NAME_ct → n ≠ NAME_wt →
      hp_stat_field (some (hp_inc_count_at (hp_inc_count_at ht0 k NAME_ct 1) k NAME_wt env.wt))
        k n = hp_stat_field (some ht) k n := by
    intro n h1 h2
    rw [hoB k n (Or.inr h2), hoA k n (Or.inr h1), hf0]
  have hold : ∀ n, has_field ht k n → zend_hash_find ht k ≠ none :=
    fun n h => has_field_key ht k n h
  have hct : hp_stat_field (some F) k NAME_ct =
      some ((hp_stat_field (some ht) k NAME_ct).getD 0 + 1) := by
    rw [f3, hoB k NAME_ct (Or.inr (by decide)), hctA, hf0]
  have hwt : hp_stat_field (some F) k NAME_wt =
      some ((hp_stat_field (some ht) k NAME_wt).getD 0 + env.wt) := by
    rw [f4, hwtB, hoA k NAME_wt (Or.inr (by decide)), hf0]
  have hcpu : has_field F k NAME_cpu ↔ g.xhprof_flags &&& XHPROF_FLAGS_CPU ≠ 0 := by
    rw [f5]
    constructor
    · rintro (h | h)
      · exact h
      · unfold has_field at h
        rw [hB NAME_cpu (by decide) (by decide)] at h
        exact (hinv k (hold NAME_cpu h)).2.2.1.mp h
    · exact Or.inl
  have hmu : has_field F k NAME_mu ↔ g.xhprof_flags &&& XHPROF_FLAGS_MEMORY ≠ 0 := by
    rw [f6]
    constructor
    · rintro (h | h)
      · exact h
      · unfold has_field at h
        rw [hB NAME_mu (by decide) (by decide)] at h
        exact (hinv k (hold NAME_mu h)).2.2.2.1.mp h
    · exact Or.inl
  have hpmu : has_field F k NAME_pmu ↔ g.xhprof_flags &&& XHPROF_FLAGS_MEMORY ≠ 0 := by
    rw [f7]
    constructor
    · rintro (h | h)
      · exact h
      · unfold has_field at h
        rw [hB NAME_pmu (by decide) (by decide)] at h
        exact (hinv k (hold NAME_pmu h)).2.2.2.2.mp h
    · exact Or.inl
  have hkeys : ∀ k', k' ≠ k → zend_hash_find F k' = zend_hash_find ht k' := by
    intro k' hk'
    rw [f8 k' hk', hp_inc_count_at_other_key _ k NAME_wt env.wt k' hk',
      hp_inc_count_at_other_key _ k NAME_ct 1 k' hk', hother0 k' hk']
  refine ⟨F, _, heq, f1, ?_, f2, hct, hwt, hcpu, hmu, hpmu, hkeys⟩
  intro q hq
  by_cases hqk : q = k
  · subst hqk
    refine ⟨?_, ?_, hcpu, hmu, hpmu⟩
    · unfold has_field; rw [hct]; simp
    · unfold has_field; rw [hwt]; simp
  · have hfind := hkeys q hqk
    have hfields : ∀ n, has_field F q n ↔ has_field ht q n := by
      intro n
      unfold has_field
      rw [hp_stat_field_congr ht F q hfind n]
    obtain ⟨i1, i2, i3, i4, i5⟩ := hinv q (by rw [← hfind]; exact hq)
    exact ⟨(hfields _).mpr i1, (hfields _).mpr i2, (hfields _).trans i3,
      (hfields _).trans i4, (hfields _).trans i5⟩

set_option maxRecDepth 100000 in
/-- C21 on a new hierarchical session inside `foo` called from `main()`, with
no flag set and with `XHPROF_FLAGS_CPU + XHPROF_FLAGS_MEMORY`: the entry of
`main()==>foo` gets `ct` and `wt`, and `cpu`, `mu` and `pmu` with the flags
only. -/
theorem C21_stats_fields_witness :
    (∃ ht1 lc, hp_mode_hier_endfn_cb
        (hier_fixture [mk_entry [102, 111, 111] 0, mk_entry ROOT_SYMBOL 0]) (env_fixture 9 5) =
        some { hier_fixture [mk_entry [102, 111, 111] 0, mk_entry ROOT_SYMBOL 0] with
          stats_count := some ht1, layers_count := lc } ∧
      counts_only ht1 ∧
      entry_fields_ok
        (hier_fixture [mk_entry [102, 111, 111] 0, mk_entry ROOT_SYMBOL 0]).xhprof_flags ht1 ∧
      zend_hash_find ht1 [109, 97, 105, 110, 40, 41, 61, 61, 62, 102, 111, 111] ≠ none ∧
      hp_stat_field (some ht1) [109, 97, 105, 110, 40, 41, 61, 61, 62, 102, 111, 111] NAME_ct =
        some ((hp_stat_field (some [])
          [109, 97, 105, 110, 40, 41, 61, 61, 62, 102, 111, 111] NAME_ct).getD 0 + 1) ∧
      hp_stat_field (some ht1) [109, 97, 105, 110, 40, 41, 61, 61, 62, 102, 111, 111] NAME_wt =
        some ((hp_stat_field (some [])
          [109, 97, 105, 110, 40, 41, 61, 61, 62, 102, 111, 111] NAME_wt).getD 0 +
            (env_fixture 9 5).wt) ∧
      (has_field ht1 [109, 97, 105, 110, 40, 41, 61, 61, 62, 102, 111, 111] NAME_cpu ↔
        (hier_fixture [mk_entry [102, 111, 111] 0, mk_entry ROOT_SYMBOL 0]).xhprof_flags &&&
          XHPROF_FLAGS_CPU ≠ 0) ∧
      (has_field ht1 [109, 97, 105, 110, 40, 41, 61, 61, 62, 102, 111, 111] NAME_mu ↔
        (hier_fixture [mk_entry [102, 111, 111] 0, mk_entry ROOT_SYMBOL 0]).xhprof_flags &&&
          XHPROF_FLAGS_MEMORY ≠ 0) ∧
      (has_field ht1 [109, 97, 105, 110, 40, 41, 61, 61, 62, 102, 111, 111] NAME_pmu ↔
        (hier_fixture [mk_entry [102, 111, 111] 0, mk_entry ROOT_SYMBOL 0]).xhprof_flags &&&
          XHPROF_FLAGS_MEMORY ≠ 0) ∧
      ∀ k', k' ≠ [109, 97, 105, 110, 40, 41, 61, 61, 62, 102, 111, 111] →
        zend_hash_find ht1 k' = zend_hash_find [] k') ∧
    (hp_mode_hier_endfn_cb
        (hier_fixture [mk_entry [102, 111, 111] 0, mk_entry ROOT_SYMBOL 0])
        (env_fixture 9 5)).map (fun g => g.stats_count) =
      some (some [([109, 97, 105, 110, 40, 41, 61, 61, 62, 102, 111, 111],
        .counts [(NAME_ct, 1), (NAME_wt, 5)])]) ∧
    (hp_mode_hier_endfn_cb
        { hier_fixture [mk_entry [102, 111, 111] 0, mk_entry ROOT_SYMBOL 0] with
          xhprof_flags := XHPROF_FLAGS_CPU + XHPROF_FLAGS_MEMORY }
        (env_fixture 9 5)).map (fun g => g.stats_count) =
      some (some [([109, 97, 105, 110, 40, 41, 61, 61, 62, 102, 111, 111],
        .counts [(NAME_ct, 1), (NAME_wt, 5), (NAME_cpu, 0), (NAME_mu, 0), (NAME_pmu, 0)])]) :=
  ⟨C21_ct_and_wt_always_optional_fields_on_request
      (hier_fixture [mk_entry [102, 111, 111] 0, mk_entry ROOT_SYMBOL 0]) (env_fixture 9 5) []
      [2400] [109, 97, 105, 110, 40, 41, 61, 61, 62, 102, 111, 111] rfl counts_only_nil rfl
      (by rfl) (by intro k hk; simp [zend_hash_find] at hk),
    by rfl, by rfl⟩

/-- The keys that `add_assoc_zval` stores under an integer: `"1"`, `"0"`,
`"-5"` and the ends of the range of `long` are such keys; `"db"`, the empty
string, `"01"`, `"-0"`, `"1.5"`, `"main()"` and 2^63 are not. -/
theorem zend_handle_numeric_examples :
    zend_handle_numeric [49] = true ∧ zend_handle_numeric [48] = true ∧
    zend_handle_numeric [45, 53] = true ∧
    zend_handle_numeric [57, 50, 50, 51, 51, 55, 50, 48, 51, 54, 56, 53, 52, 55, 55, 53, 56,
      48, 55] = true ∧
    zend_handle_numeric [45, 57, 50, 50, 51, 51, 55, 50, 48, 51, 54, 56, 53, 52, 55, 55, 53,
      56, 48, 56] = true ∧
    zend_handle_numeric [100, 98] = false ∧ zend_handle_numeric [] = false ∧
    zend_handle_numeric [48, 49] = false ∧ zend_handle_numeric [45, 48] = false ∧
    zend_handle_numeric [49, 46, 53] = false ∧ zend_handle_numeric ROOT_SYMBOL = false ∧
    zend_handle_numeric [57, 50, 50, 51, 51, 55, 50, 48, 51, 54, 56, 53, 52, 55, 55, 53, 56,
      48, 56] = false := by
  decide

/-- For a symbol that is not a decimal integer `hp_hash_lookup_label` is
`hp_hash_lookup`. -/
theorem hp_hash_lookup_label_eq (hash : Option hp_array) (symbol : CStr)
    (h : zend_handle_numeric symbol = false) :
    hp_hash_lookup_label hash symbol = hp_hash_lookup hash symbol := by
  unfold hp_hash_lookup_label
  rw [h]
  rfl

/-- The layer table `['foo' => 'db', 7 => 'x']` is copied without the entry
under the integer key; the layer table `['foo' => 5]` is not followed. -/
theorem layers_copy_examples :
    layers_copy [(.string [102, 111, 111], .string [100, 98]), (.long 7, .string [120])] =
      some [([102, 111, 111], [100, 98])] ∧
    layers_copy [(.string [102, 111, 111], .other)] = none ∧
    (hp_parse_options_from_arg (PHP_MINIT_FUNCTION 1) (some (.array
      [(.string KEY_layers, .array [(.string [102, 111, 111], .string [100, 98])])]))).map
      (fun g => g.layers_definition) = some (some [([102, 111, 111], [100, 98])]) ∧
    hp_parse_options_from_arg (PHP_MINIT_FUNCTION 1) (some (.array
      [(.string KEY_layers, .array [(.string [102, 111, 111], .other)])])) = none := by
  exact ⟨by decide, by decide, by decide, rfl⟩

/-- One run of the hierarchical end callback, seen from the keys of the stats
array: the key of the call is there afterwards with 1 more in `ct`, and the
values of the other keys are as they were. -/
theorem hp_mode_hier_endfn_cb_keys (g : hp_global_t) (env : hp_env) (ht : hp_array)
    (fr : List Nat) (k : CStr)
    (hst : g.stats_count = some ht) (hco : counts_only ht)
    (hfr : g.cpu_frequencies = some fr)
    (hk : hp_function_stack_string g.entries 2 SCRATCH_BUF_LEN = some k) :
    ∃ ht1 lc, hp_mode_hier_endfn_cb g env =
        some { g with stats_count := some ht1, layers_count := lc } ∧
      counts_only ht1 ∧ zend_hash_find ht1 k ≠ none ∧
      hp_stat_field (some ht1) k NAME_ct =
        some ((hp_stat_field (some ht) k NAME_ct).getD 0 + 1) ∧
      ∀ k', k' ≠ k → zend_hash_find ht1 k' = zend_hash_find ht k' := by
  have hex : ∃ top prev, g.entries = top :: prev := by
    cases he : g.entries with
    | nil => rw [he] at hk; simp [hp_function_stack_string] at hk
    | cons top prev => exact ⟨top, prev, rfl⟩
  obtain ⟨top, prev, hent⟩ := hex
  obtain ⟨ht0, v, hl, hco0, hp0, hf0⟩ := hp_hash_lookup_spec ht k hco
  have hother0 := hp_hash_lookup_other_key ht ht0 k v hl
  obtain ⟨hcoA, hpA, hctA, hoA⟩ := hp_inc_count_at_spec ht0 k NAME_ct 1 hco0 hp0
  obtain ⟨hcoB, hpB, _, hoB⟩ :=
    hp_inc_count_at_spec (hp_inc_count_at ht0 k NAME_ct 1) k NAME_wt env.wt hcoA hpA
  obtain ⟨f1, f2, f3, _, _, _, _, f8⟩ := hier_optional_counts_spec g.xhprof_flags top env k
    (hp_inc_count_at (hp_inc_count_at ht0 k NAME_ct 1) k NAME_wt env.wt) hcoB hpB
  refine ⟨_, _, hp_mode_hier_endfn_cb_eq g env ht ht0 fr k top prev v hst hfr hent hk hl,
    f1, f2, ?_, ?_⟩
  · rw [f3, hoB k NAME_ct (Or.inr (by decide)), hctA, hf0]
  · intro k' hk'
    rw [f8 k' hk', hp_inc_count_at_other_key _ k NAME_wt env.wt k' hk',
      hp_inc_count_at_other_key _ k NAME_ct 1 k' hk', hother0 k' hk']

/-- The end of a tracked call in hierarchical mode: the top frame leaves the
stack, its key is in the stats array with 1 more in `ct`, and the values of
the other keys are as they were. -/
theorem END_PROFILING_hier_keys (g : hp_global_t) (env : hp_env) (cur : hp_entry_t)
    (prev : List hp_entry_t) (ht : hp_array) (fr : List Nat) (k : CStr)
    (hmode : g.mode_cb.end_fn_cb = .hp_mode_hier_endfn_cb)
    (hent : g.entries = cur :: prev)
    (hst : g.stats_count = some ht) (hco : counts_only ht)
    (hfr : g.cpu_frequencies = some fr)
    (hk : hp_function_stack_string g.entries 2 SCRATCH_BUF_LEN = some k) :
    ∃ g2 ht1, END_PROFILING g true env = some g2 ∧ g2.entries = prev ∧
      g2.stats_count = some ht1 ∧ counts_only ht1 ∧ zend_hash_find ht1 k ≠ none ∧
      hp_stat_field (some ht1) k NAME_ct =
        some ((hp_stat_field (some ht) k NAME_ct).getD 0 + 1) ∧
      ∀ k', k' ≠ k → zend_hash_find ht1 k' = zend_hash_find ht k' := by
  obtain ⟨ht1, lc, hcb, h1, h2, h3, h4⟩ := hp_mode_hier_endfn_cb_keys g env ht fr k hst hco hfr hk
  have hend : END_PROFILING g true env = some (hp_fast_free_hprof_entry
      { hp_mode_common_endfn { g with stats_count := some ht1, layers_count := lc } cur with
        entries := prev } cur) := by
    simp only [END_PROFILING, if_true, end_fn_cb, hmode, hcb, hent]
  exact ⟨_, ht1, hend, rfl, rfl, h1, h2, h3, h4⟩

/-- C28. In a hierarchical session inside a tracked call (frame `a` on top of
the stack), let the filter reject `B` and accept `C`.  The call of `B` returns
the state as it is (`profile_curr = 0`, no frame), so the call of `C` from `B`
is the call of `C` from the function of `a`: it links the frame of `C` right
over `a`, at the recursion level `hp_mode_common_beginfn` finds on the stack
of `a`; the end of `C` records the call under the key `k` rendered from the
frames of `C` and `a` (for well-formed names that fit in the buffer the text
of `a`, `==>` and the text of `C`), with 1 more in `ct`, leaves the values of
all other keys as they were and the stack as before; and the end of `B` with
`profile_curr = 0` changes nothing. -/
theorem C28_filtered_call_is_transparent (g : hp_global_t) (B C : CStr) (e1 e2 e3 e4 : hp_env)
    (a : hp_entry_t) (rest : List hp_entry_t) (ht : hp_array) (fr : List Nat)
    (hbegin : g.mode_cb.begin_fn_cb = .hp_mode_hier_beginfn_cb)
    (hend : g.mode_cb.end_fn_cb = .hp_mode_hier_endfn_cb)
    (hent : g.entries = a :: rest)
    (hst : g.stats_count = some ht) (hco : counts_only ht)
    (hfr : g.cpu_frequencies = some fr)
    (hB : hp_filter_entry g (hp_inline_hash B) B = true)
    (hC : hp_filter_entry g (hp_inline_hash C) C = false) :
    BEGIN_PROFILING g B e1 = some (g, false) ∧
    ∃ g1 c k g2 ht1,
      BEGIN_PROFILING g C e2 = some (g1, true) ∧
      g1.entries = c :: a :: rest ∧ c.name_hprof = C ∧
      c.rlvl_hprof = (if g.func_hash_counters (hp_inline_hash C) > 0
        then hp_recurse_level (a :: rest) C else 0) ∧
      hp_function_stack_string (c :: a :: rest) 2 SCRATCH_BUF_LEN = some k ∧
      (names_ok (c :: a :: rest) →
        (hp_entry_text a ++ HP_STACK_DELIM ++ hp_entry_text c).length < SCRATCH_BUF_LEN →
        k = hp_entry_text a ++ HP_STACK_DELIM ++ hp_entry_text c) ∧
      END_PROFILING g1 true e3 = some g2 ∧
      g2.entries = a :: rest ∧ g2.stats_count = some ht1 ∧
      zend_hash_find ht1 k ≠ none ∧
      hp_stat_field (some ht1) k NAME_ct =
        some ((hp_stat_field (some ht) k NAME_ct).getD 0 + 1) ∧
      (∀ k', k' ≠ k → zend_hash_find ht1 k' = zend_hash_find ht k') ∧
      END_PROFILING g2 false e4 = some g2 := by
  refine ⟨BEGIN_PROFILING_rejected g B e1 hB, ?_⟩
  obtain ⟨c, hb, hn, _, hl⟩ := BEGIN_PROFILING_hier g C e2 hbegin hC
  obtain ⟨k, hk⟩ := hp_function_stack_string_some (c :: a :: rest) 2 SCRATCH_BUF_LEN (by simp)
  obtain ⟨g2, ht1, hE, h1, h2, _, h4, h5, h6⟩ := END_PROFILING_hier_keys
    { g with
      entries := c :: g.entries,
      entry_free_list := g.entry_free_list.tail,
      func_hash_counters := array_set g.func_hash_counters (hp_inline_hash C)
        ((g.func_hash_counters (hp_inline_hash C) + 1) % 256) }
    e3 c g.entries ht fr k hend rfl hst hco hfr (by rw [hent]; exact hk)
  refine ⟨_, c, k, g2, ht1, hb, by rw [hent], hn, by rw [hl, hent], hk, ?_, hE,
    by rw [h1, hent], h2, h4, h5, h6, rfl⟩
  intro hok hfit
  have hspec := hp_stack_text_spec_two c a rest
  have := hp_function_stack_string_fits c (a :: rest) 2 SCRATCH_BUF_LEN hok (by decide)
    (by rw [hspec]; omega)
  rw [this, hspec] at hk
  exact (Option.some.inj hk).symm

set_option maxRecDepth 100000 in
/-- C28 on the blacklist `{"B"}`, inside `A` called from `main()`: the calls
`B`, `C` and their two returns leave the stack as it was and the one key
`A==>C` in the stats array. -/
theorem C28_filtered_call_witness :
    (hp_run_events blacklist_fixture [] [.call [66], .call [67], .ret, .ret]
        (env_fixture 9 5)).map
      (fun r => (r.1.entries.map (fun e => e.name_hprof), r.1.stats_count)) =
      some ([[65], ROOT_SYMBOL],
        some [([65, 61, 61, 62, 67], .counts [(NAME_ct, 1), (NAME_wt, 5)])]) ∧
    BEGIN_PROFILING blacklist_fixture [66] (env_fixture 9 5) = some (blacklist_fixture, false) ∧
    ∃ g1 c k g2 ht1,
      BEGIN_PROFILING blacklist_fixture [67] (env_fixture 9 5) = some (g1, true) ∧
      g1.entries = c :: mk_entry [65] 0 :: [mk_entry ROOT_SYMBOL 0] ∧ c.name_hprof = [67] ∧
      c.rlvl_hprof = (if blacklist_fixture.func_hash_counters (hp_inline_hash [67]) > 0
        then hp_recurse_level (mk_entry [65] 0 :: [mk_entry ROOT_SYMBOL 0]) [67] else 0) ∧
      hp_function_stack_string (c :: mk_entry [65] 0 :: [mk_entry ROOT_SYMBOL 0]) 2
        SCRATCH_BUF_LEN = some k ∧
      (names_ok (c :: mk_entry [65] 0 :: [mk_entry ROOT_SYMBOL 0]) →
        (hp_entry_text (mk_entry [65] 0) ++ HP_STACK_DELIM ++ hp_entry_text c).length <
          SCRATCH_BUF_LEN →
        k = hp_entry_text (mk_entry [65] 0) ++ HP_STACK_DELIM ++ hp_entry_text c) ∧
      END_PROFILING g1 true (env_fixture 9 5) = some g2 ∧
      g2.entries = mk_entry [65] 0 :: [mk_entry ROOT_SYMBOL 0] ∧ g2.stats_count = some ht1 ∧
      zend_hash_find ht1 k ≠ none ∧
      hp_stat_field (some ht1) k NAME_ct =
        some ((hp_stat_field (some []) k NAME_ct).getD 0 + 1) ∧
      (∀ k', k' ≠ k → zend_hash_find ht1 k' = zend_hash_find [] k') ∧
      END_PROFILING g2 false (env_fixture 9 5) = some g2 :=
  ⟨by rfl, C28_filtered_call_is_transparent blacklist_fixture [66] [67] (env_fixture 9 5)
    (env_fixture 9 5) (env_fixture 9 5) (env_fixture 9 5) (mk_entry [65] 0)
    [mk_entry ROOT_SYMBOL 0] [] [2400] rfl rfl rfl rfl counts_only_nil rfl (by decide)
    (by decide)⟩

end Xhprof
